import Mathlib

/-!
# arpsch/xm : a shallow embedding of the company directory service

Go strings are byte sequences.  The embedding writes the byte `b` as the
character with code `b`, so ASCII text reads as itself; every function below
works on the character list of a `String`.

A Go `error` is `Option String`: `none` is `nil`, `some msg` is a non-nil error
whose `Error()` text is `msg`.  A Go pair `(value, error)` is a Lean pair.

Collaborators that are not code of the repository (the `net` package, the HTTP
round trip to the geo service, `strconv.ParseFloat`, the document store engine)
appear as explicit parameters or as small executable models of the documented
behaviour of the fragment the repository uses.
-/

namespace Xm

/-! ## Errors -/

deriving instance DecidableEq for Except

/-- Go `error`: `none` is `nil`. -/
abbrev GoError := Option String

/-- The function `errors.New`. -/
def errorsNew (msg : String) : GoError := some msg

/-- The function `errors.Wrap` of github.com/pkg/errors: wrapping `nil` gives `nil`,
otherwise the message is put in front of the cause. -/
def errorsWrap (err : GoError) (msg : String) : GoError :=
  match err with
  | none => none
  | some e => some (msg ++ ": " ++ e)

/-! ## Requests -/

/-- The type `url.Values` (`map[string][]string`) as an association list; the
order of the list is the order in which a `range` over the map visits the keys
(which Go leaves unspecified). A Go map holds every key once: `Values.WF`. -/
abbrev Values := List (String × List String)

/-- The keys of the map, in iteration order. -/
def Values.keys (v : Values) : List String := v.map Prod.fst

/-- A map holds every key at most once. -/
def Values.WF (v : Values) : Prop := (Values.keys v).Nodup

/-- The value list stored under a key (`v[key]`, `nil` when absent). -/
def Values.lookup (v : Values) (key : String) : List String :=
  match v with
  | [] => []
  | (k, vs) :: rest => if k = key then vs else Values.lookup rest key

/-- The method `Values.Get`: the first value of the key, or the empty string. -/
def Values.Get (v : Values) (key : String) : String :=
  match Values.lookup v key with
  | [] => ""
  | x :: _ => x

/-- The method `Values.Set`: replaces the value list of the key by the single value. -/
def Values.Set (v : Values) (key value : String) : Values :=
  match v with
  | [] => [(key, [value])]
  | (k, vs) :: rest =>
    if k = key then (k, [value]) :: rest else (k, vs) :: Values.Set rest key value

/-- The part of `*http.Request` the handlers read: `r.URL.Path`, the parsed query
`r.URL.Query()` and `r.RemoteAddr`. -/
structure Request where
  Path : String
  Query : Values
  RemoteAddr : String
deriving Repr

/-! ## The geo gate (client/client.go, api/http/api_company.go) -/

/-- The outcome of `client.Do(req.WithContext(ctx))` followed by reading the body. -/
inductive HttpResult where
  /-- The call `client.Do` returned an error: network failure, the ten second
  timeout, or cancellation of the inbound request. -/
  | failed (err : String)
  /-- A response arrived; `Body` is the outcome of `ioutil.ReadAll(rsp.Body)`. -/
  | response (StatusCode : Nat) (Body : Except String String)

/-- The network collaborators of the geo gate. -/
structure NetEnv where
  /-- The function `net.SplitHostPort`: host and port, or an error. -/
  SplitHostPort : String → Except String (String × String)
  /-- Whether `net.ParseIP(ip)` is non-nil. -/
  ParseIP : String → Bool
  /-- The error of `http.NewRequest(http.MethodGet, uri, nil)`, if any. -/
  NewRequest : String → GoError
  /-- The round trip for a GET of the uri under the request deadline. -/
  Do : String → HttpResult

/-- The constant `IPAPIURL`. -/
def IPAPIURL : String := "https://ipapi.co/:ip/country/"

/-- The constant `CYPRUS_CC`. -/
def CYPRUS_CC : String := "CY"

/-- The constant `http.StatusOK`. -/
def StatusOK : Nat := 200

/-- Replace every non-overlapping occurrence of `old` by `new`, left to right
(`strings.NewReplacer(old, new).Replace` for a non-empty `old`). -/
def replaceChars (old new : List Char) : Nat → List Char → List Char
  | 0, s => s
  | _ + 1, [] => []
  | fuel + 1, c :: cs =>
    if old ≠ [] ∧ old.isPrefixOf (c :: cs) then
      new ++ replaceChars old new fuel ((c :: cs).drop old.length)
    else c :: replaceChars old new fuel cs

/-- The call `strings.NewReplacer(old, new).Replace(s)`. -/
def stringsReplace (old new s : String) : String :=
  String.mk (replaceChars old.toList new.toList s.length s.toList)

/-- The function `utils.RetrievRemoteIP`. -/
def RetrievRemoteIP (env : NetEnv) (r : Request) : String × GoError :=
  match env.SplitHostPort r.RemoteAddr with
  | .error e => ("", some e)
  | .ok (ip, _) => (ip, none)

/-- The function `client.IPAPI_GetCountryNameByIP`. On a status other than 200 the
source returns `errors.Wrap(err, ...)` with the `err` of the successful
`client.Do`, which is `nil`. -/
def IPAPI_GetCountryNameByIP (env : NetEnv) (ip : String) : String × GoError :=
  if ip = "" then ("", errorsNew "missing IP")
  else if env.ParseIP ip = false then ("", errorsNew "Invalid IP")
  else
    let uri := stringsReplace ":ip" ip IPAPIURL
    match env.NewRequest uri with
    | some e => ("", errorsWrap (some e) "failed to create request for GET /:ip/country/")
    | none =>
      match env.Do uri with
      | .failed e => ("", errorsWrap (some e) "GET /:ip/country/ request failed")
      | .response status body =>
        if status ≠ StatusOK then ("", errorsWrap none "GET  /:ip/country/  request failed")
        else
          match body with
          | .error e => ("", some e)
          | .ok country => (country, none)

/-- The function `validateClientOriginCountry`: `(authorized, err)`. -/
def validateClientOriginCountry (env : NetEnv) (r : Request) : Bool × GoError :=
  match RetrievRemoteIP env r with
  | (_, some e) => (false, some e)
  | (remoteIP, none) =>
    match IPAPI_GetCountryNameByIP env remoteIP with
    | (_, some e) => (false, some e)
    | (country, none) =>
      if country ≠ CYPRUS_CC then (false, none) else (true, none)

/-! ## Machine integers -/

/-- Subtraction of `uint64` values, wrapping around. -/
def subU64 (a b : Nat) : Nat := (a + 2 ^ 64 - b % 2 ^ 64) % 2 ^ 64

/-- Multiplication of `uint64` values, wrapping around. -/
def mulU64 (a b : Nat) : Nat := (a * b) % 2 ^ 64

/-- Addition of `uint64` values, wrapping around. -/
def addU64 (a b : Nat) : Nat := (a + b) % 2 ^ 64

/-- The conversion `int(x)` of a `uint64` on a platform whose `int` has 64 bits:
the two's complement reading of the same bits. -/
def toInt (x : Nat) : Int :=
  if x % 2 ^ 64 < 2 ^ 63 then ((x % 2 ^ 64 : Nat) : Int) else ((x % 2 ^ 64 : Nat) : Int) - 2 ^ 64

/-- The constant `math.MaxUint64`. -/
def MaxUint64 : Nat := 2 ^ 64 - 1

/-! ## package strconv, strings, net/url -/

/-- An ASCII decimal digit. -/
def isDigit (c : Char) : Bool := decide (48 ≤ c.toNat ∧ c.toNat ≤ 57)

/-- The number a list of decimal digits denotes. -/
def digitsValue (cs : List Char) : Nat :=
  cs.foldl (fun n c => 10 * n + (c.toNat - 48)) 0

/-- The call `strconv.ParseUint(s, 10, bitSize)`: with base 10 the text must be a
non-empty run of decimal digits (no sign, no underscore) and its value must fit
in `bitSize` bits; anything else is an error (`none`). -/
def ParseUint (s : String) (bitSize : Nat) : Option Nat :=
  if s.toList = [] then none
  else if s.toList.all isDigit then
    if digitsValue s.toList < 2 ^ bitSize then some (digitsValue s.toList) else none
  else none

/-- The call `strconv.Itoa`. -/
def Itoa (i : Int) : String :=
  if i < 0 then "-" ++ Nat.repr i.natAbs else Nat.repr i.toNat

/-- Cut a character list at every occurrence of the separator. -/
def splitChars (sep : Char) : List Char → List (List Char)
  | [] => [[]]
  | c :: cs =>
    if c = sep then [] :: splitChars sep cs
    else
      match splitChars sep cs with
      | [] => [[c]]
      | h :: t => (c :: h) :: t

/-- The call `strings.Split(s, sep)` for a separator of one character. -/
def stringsSplit (s : String) (sep : Char) : List String :=
  (splitChars sep s.toList).map String.mk

/-- The helper `ishex` of net/url. -/
def ishex (c : Char) : Bool :=
  decide ((48 ≤ c.toNat ∧ c.toNat ≤ 57) ∨ (97 ≤ c.toNat ∧ c.toNat ≤ 102) ∨
    (65 ≤ c.toNat ∧ c.toNat ≤ 70))

/-- The helper `unhex` of net/url. -/
def unhex (c : Char) : Nat :=
  if 48 ≤ c.toNat ∧ c.toNat ≤ 57 then c.toNat - 48
  else if 97 ≤ c.toNat ∧ c.toNat ≤ 102 then c.toNat - 97 + 10
  else if 65 ≤ c.toNat ∧ c.toNat ≤ 70 then c.toNat - 65 + 10
  else 0

/-- Percent-decoding of a query component: `%XY` with two hex digits becomes the
byte `XY`, `+` becomes a space, a `%` not followed by two hex digits is an error. -/
def unescapeChars : List Char → Option (List Char)
  | [] => some []
  | c :: cs =>
    if c = '%' then
      match cs with
      | a :: b :: rest =>
        if ishex a && ishex b then
          (unescapeChars rest).map (fun t => Char.ofNat (16 * unhex a + unhex b) :: t)
        else none
      | _ => none
    else if c = '+' then (unescapeChars cs).map (fun t => ' ' :: t)
    else (unescapeChars cs).map (fun t => c :: t)

/-- The call `url.QueryUnescape`. -/
def QueryUnescape (s : String) : Option String :=
  (unescapeChars s.toList).map String.mk

/-- The digits `upperhex` of net/url. -/
def upperhex (n : Nat) : Char := "0123456789ABCDEF".toList.getD n '0'

/-- The helper `shouldEscape(c, encodeQueryComponent)` of net/url: everything but
ASCII letters, digits and the marks `-`, `_`, `.`, `~`. -/
def shouldEscape (c : Char) : Bool :=
  !(decide ((97 ≤ c.toNat ∧ c.toNat ≤ 122) ∨ (65 ≤ c.toNat ∧ c.toNat ≤ 90) ∨
      (48 ≤ c.toNat ∧ c.toNat ≤ 57)) ||
    c = '-' || c = '_' || c = '.' || c = '~')

/-- Percent-encoding of a query component (bytes are the low eight bits). -/
def escapeChars : List Char → List Char
  | [] => []
  | c :: cs =>
    if c = ' ' then '+' :: escapeChars cs
    else if shouldEscape c then
      '%' :: upperhex (c.toNat / 16 % 16) :: upperhex (c.toNat % 16) :: escapeChars cs
    else c :: escapeChars cs

/-- The call `url.QueryEscape`. -/
def QueryEscape (s : String) : String := String.mk (escapeChars s.toList)

/-- Byte-wise lexicographic order of strings, the order of `slices.Sort`. -/
def charsLt : List Char → List Char → Bool
  | [], [] => false
  | [], _ :: _ => true
  | _ :: _, [] => false
  | a :: as, b :: bs =>
    decide (a.toNat < b.toNat) || (decide (a.toNat = b.toNat) && charsLt as bs)

/-- Insert a key into a sorted list of keys. -/
def insertKey (k : String) : List String → List String
  | [] => [k]
  | x :: xs => if charsLt x.toList k.toList then x :: insertKey k xs else k :: x :: xs

/-- The call `slices.Sort(keys)`. -/
def sortKeys (keys : List String) : List String := keys.foldr insertKey []

/-- The method `Values.Encode`: `key=value` pairs, both escaped, sorted by key and
joined by `&`. -/
def Values.Encode (v : Values) : String :=
  "&".intercalate
    ((sortKeys (Values.keys v)).flatMap
      (fun k => (Values.lookup v k).map (fun x => QueryEscape k ++ "=" ++ QueryEscape x)))

/-! ## utils/http.go -/

def PageName : String := "page"
def PerPageName : String := "per_page"
def PageMin : Nat := 1
def PageDefault : Nat := 1
def PerPageMin : Nat := 1
def PerPageMax : Nat := 500
def PerPageDefault : Nat := 20
def LinkPrev : String := "prev"
def LinkNext : String := "next"
def LinkFirst : String := "first"

/-- The function `MsgQueryParmInvalid`. -/
def MsgQueryParmInvalid (name : String) : String := "Can't parse param " ++ name

/-- The function `MsgQueryParmMissing`. -/
def MsgQueryParmMissing (name : String) : String := "Missing required param " ++ name

/-- The function `MsgQueryParmLimit`. -/
def MsgQueryParmLimit (name : String) : String := "Param " ++ name ++ " is out of bounds"

/-- The function `MsgQueryParmOneOf`; a `[]string` prints under `%v` as its
elements between brackets, separated by blanks. -/
def MsgQueryParmOneOf (name : String) (allowed : List String) : String :=
  "Param " ++ name ++ " must be one of [" ++ " ".intercalate allowed ++ "]"

/-- Modelled from the spec: the helper `utils.ContainsString(s, list)`, whose file
is not part of the sources at hand; the spec uses it as the test for the reserved
names ("no filter is produced for reserved names") and the repository's test
expects true for an element of the list and false otherwise. -/
def ContainsString (s : String) (list : List String) : Bool :=
  match list with
  | [] => false
  | x :: rest => if x = s then true else ContainsString s rest

/-- The function `ParseQueryParmUInt` (the integer is parsed with bit size 32). -/
def ParseQueryParmUInt (r : Request) (name : String) (required : Bool)
    (min max dflt : Nat) : Except String Nat :=
  let strVal := Values.Get r.Query name
  if strVal = "" then
    if required then .error (MsgQueryParmMissing name) else .ok dflt
  else
    match ParseUint strVal 32 with
    | none => .error (MsgQueryParmInvalid name)
    | some uintVal =>
      if uintVal < min ∨ uintVal > max then .error (MsgQueryParmLimit name)
      else .ok uintVal

/-- The function `ParseQueryParmStr`; `allowed = none` is the `nil` slice. -/
def ParseQueryParmStr (r : Request) (name : String) (required : Bool)
    (allowed : Option (List String)) : Except String String :=
  let val := Values.Get r.Query name
  let check : GoError :=
    if val = "" then
      if required then some (MsgQueryParmMissing name) else none
    else
      match allowed with
      | some al => if !ContainsString val al then some (MsgQueryParmOneOf name al) else none
      | none => none
  match check with
  | some e => .error e
  | none =>
    match QueryUnescape val with
    | none => .error (MsgQueryParmInvalid name)
    | some v => .ok v

/-- The function `ParsePagination`: `(page, per_page)` or an error. -/
def ParsePagination (r : Request) : Except String (Nat × Nat) :=
  match ParseQueryParmUInt r PageName false PageMin MaxUint64 PageDefault with
  | .error e => .error e
  | .ok page =>
    match ParseQueryParmUInt r PerPageName false PerPageMin PerPageMax PerPageDefault with
    | .error e => .error e
    | .ok per_page => .ok (page, per_page)

/-- The call `fmt.Sprintf(LinkTmpl, resource, query, link_type)` with the template
`LinkTmpl`, which is `<%s?%s>; rel="%s"`. -/
def sprintfLinkTmpl (resource query link_type : String) : String :=
  "<" ++ resource ++ "?" ++ query ++ ">; rel=\"" ++ link_type ++ "\""

/-- The function `MakeLink`. It writes `page` and `per_page` into the query map it
is given, so the map after the call is returned next to the link. -/
def MakeLink (link_type resource : String) (query : Values) (page per_page : Nat) :
    String × Values :=
  let q1 := Values.Set query PageName (Itoa (toInt page))
  let q2 := Values.Set q1 PerPageName (Itoa (toInt per_page))
  (sprintfLinkTmpl resource (Values.Encode q2) link_type, q2)

/-- The function `MakePageLinkHdrs`; the one query map is threaded through the
calls of `MakeLink`. -/
def MakePageLinkHdrs (r : Request) (page per_page : Nat) (has_next : Bool) : List String :=
  let pathitems := stringsSplit r.Path '/'
  let resource := pathitems.getLast?.getD ""
  let query := r.Query
  let s1 : List String × Values :=
    if page > 1 then
      let lq := MakeLink LinkPrev resource query (subU64 page 1) per_page
      ([lq.1], lq.2)
    else ([], query)
  let s2 : List String × Values :=
    if has_next then
      let lq := MakeLink LinkNext resource s1.2 (addU64 page 1) per_page
      (s1.1 ++ [lq.1], lq.2)
    else s1
  s2.1 ++ [(MakeLink LinkFirst resource s2.2 1 per_page).1]

/-! ## store/query.go, model/company.go

`float64` values are an abstract type `F` with decidable equality and an order;
`strconv.ParseFloat(s, 64)` is a parameter `parseFloat : String → Option F`
(`none` when it returns an error). -/

/-- The type `store.ComparisonOperator` (an `int`). -/
abbrev store.ComparisonOperator := Int

/-- The constant `store.Eq` (`1 << iota` with `iota = 0`). -/
def store.Eq : store.ComparisonOperator := 1

/-- The struct `store.Filter`; `ValueFloat = none` is the nil pointer. -/
structure store.Filter (F : Type) where
  AttrName : String
  Value : String
  ValueFloat : Option F
  Operator : store.ComparisonOperator
deriving DecidableEq, Repr

/-- The struct `store.Sort`. -/
structure store.Sort where
  AttrName : String
  Ascending : Bool
deriving DecidableEq, Repr

/-- The struct `store.ListQuery`; the field `Sort` is written `Sort_` (a reserved
word otherwise), and `Sort_ = none` is the nil pointer. -/
structure store.ListQuery (F : Type) where
  Skip : Int
  Limit : Int
  Filters : List (store.Filter F)
  Sort_ : Option store.Sort
deriving DecidableEq, Repr

/-- The struct `model.Company`; a `time.Time` is an instant, `0` the zero time. -/
structure model.Company where
  ID : String
  Name : String
  Code : String
  Country : String
  Website : String
  Phone : String
  CreatedTs : Int
  UpdatedTs : Int
deriving DecidableEq, Repr

/-- The struct `model.CompanyUpdate`. -/
structure model.CompanyUpdate where
  Website : String
  Phone : String
  UpdatedTs : Int
deriving DecidableEq, Repr

/-! ## api/http/api_company.go : the list endpoint -/

/-- The constant `queryParamValueSeparator`. -/
def queryParamValueSeparator : Char := ':'

/-- The constant `filterEqOperatorIdx`. -/
def filterEqOperatorIdx : Nat := 0

/-- The slice `knownParams` of `parseFilterParams`. -/
def knownParams : List String := [PageName, PerPageName]

/-- The body of the loop of `parseFilterParams` after the value has been read:
the operator/value split, then the attempt to parse the value as a float. -/
def parseFilterValue {F : Type} (parseFloat : String → Option F) (name valueStr : String) :
    Except String (store.Filter F) :=
  let valueStrArray := stringsSplit valueStr queryParamValueSeparator
  let split : Except String (store.ComparisonOperator × String) :=
    if valueStrArray.length = 2 then
      if valueStrArray.getD filterEqOperatorIdx "" = "eq" then
        .ok (store.Eq, valueStrArray.getD (filterEqOperatorIdx + 1) "")
      else .error "invalid filter operator"
    else .ok (store.Eq, valueStr)
  match split with
  | .error e => .error e
  | .ok (op, value) =>
    .ok { AttrName := name, Value := value, ValueFloat := parseFloat value, Operator := op }

/-- The loop of `parseFilterParams` over the names of the query map, in the
order the map is iterated. -/
def parseFilterLoop {F : Type} (parseFloat : String → Option F) (r : Request) :
    List String → List (store.Filter F) → Except String (List (store.Filter F))
  | [], filters => .ok filters
  | name :: rest, filters =>
    if ContainsString name knownParams then parseFilterLoop parseFloat r rest filters
    else
      match ParseQueryParmStr r name false none with
      | .error e => .error e
      | .ok valueStr =>
        match parseFilterValue parseFloat name valueStr with
        | .error e => .error e
        | .ok filter => parseFilterLoop parseFloat r rest (filters ++ [filter])

/-- The function `parseFilterParams`: the filters, or the error (with which the
source returns a nil slice). -/
def parseFilterParams {F : Type} (parseFloat : String → Option F) (r : Request) :
    Except String (List (store.Filter F)) :=
  parseFilterLoop parseFloat r (Values.keys r.Query) []

/-- What a handler wrote: the body text of `http.Error`, or the value that was
marshalled to JSON (marshalling companies is taken to succeed). -/
inductive Body where
  | text (msg : String)
  | companies (cs : List model.Company)
deriving DecidableEq, Repr

/-- The observable result of `ListCompaniesHandler`: status, `Link` headers in the
order they were added, body, and the queries passed to `App.ListCompanies`. -/
structure ListResponse (F : Type) where
  StatusCode : Nat
  Link : List String
  Body : Body
  StoreCalls : List (store.ListQuery F)
deriving DecidableEq, Repr

/-- The method `ListCompaniesHandler`; `app` is `ah.App.ListCompanies`. -/
def ListCompaniesHandler {F : Type} (parseFloat : String → Option F)
    (app : store.ListQuery F → List model.Company × Int × GoError) (r : Request) :
    ListResponse F :=
  match ParsePagination r with
  | .error e => { StatusCode := 400, Link := [], Body := .text e, StoreCalls := [] }
  | .ok (page, perPage) =>
    match parseFilterParams parseFloat r with
    | .error e => { StatusCode := 400, Link := [], Body := .text e, StoreCalls := [] }
    | .ok filters =>
      let ld : store.ListQuery F :=
        { Skip := toInt (mulU64 (subU64 page 1) perPage),
          Limit := toInt perPage,
          Filters := filters,
          Sort_ := none }
      match app ld with
      | (_, _, some e) => { StatusCode := 500, Link := [], Body := .text e, StoreCalls := [ld] }
      | (companies, totalCount, none) =>
        let hasNext : Bool := decide (totalCount > toInt (mulU64 page perPage))
        let links := MakePageLinkHdrs r page perPage hasNext
        { StatusCode := 200, Link := links, Body := .companies companies, StoreCalls := [ld] }

/-! ## store/mongo/datastore_mongo.go : ListCompanies

The collection is an in-memory list of documents, in storage order.  Documents
are flat: a field holds a string, a number or a date, and a field name is
looked up literally.  The engine model covers the pipeline shape the
repository builds: a match stage, a facet of a document branch (sort, skip,
limit) and a counting branch, and the projection of the count. -/

/-- A value stored in a field. `num` is the numeric value of a number field,
whatever its BSON number type. -/
inductive Value (F : Type) where
  | str (s : String)
  | num (x : F)
  | time (t : Int)
deriving DecidableEq, Repr

/-- A stored document: fields in order. -/
abbrev Doc (F : Type) := List (String × Value F)

/-- The value of a field of a document, if the document has the field. -/
def Doc.get {F : Type} (d : Doc F) (field : String) : Option (Value F) :=
  match d with
  | [] => none
  | (k, v) :: rest => if k = field then some v else Doc.get rest field

/-- The query document `bson.M{field: bson.M{op: value}}`. -/
structure FieldCond (F : Type) where
  field : String
  op : String
  value : Value F
deriving DecidableEq, Repr

/-- An element of `queryFilters`: one field condition, or
`bson.M{"$or": []bson.M{...}}` over field conditions. -/
inductive FilterQuery (F : Type) where
  | cond (c : FieldCond F)
  | or (cs : List (FieldCond F))
deriving DecidableEq, Repr

/-- The document `findQuery`: `bson.M{}` or `bson.M{"$and": queryFilters}`. -/
inductive FindQuery (F : Type) where
  | empty
  | and (qs : List (FilterQuery F))
deriving DecidableEq, Repr

/-- A stage of a facet branch: `$sort` on one field with a direction, `$skip`,
`$limit`, `$count` into a named field. -/
inductive Stage where
  | sort (field : String) (dir : Int)
  | skip (n : Int)
  | limit (n : Int)
  | count (field : String)
deriving DecidableEq, Repr

/-- The pipeline `queryPipeline`: the stage `{"$match": {"$and": matchAnd}}`, the
two branches of the `$facet` stage, and then the fixed `$project` stage
`resultMap` (results kept, totalCount replaced by the first `count` or 0). -/
structure Pipeline (F : Type) where
  matchAnd : List (FindQuery F)
  results : List Stage
  totalCount : List Stage
deriving DecidableEq, Repr

/-- The function `mongoOperator`. -/
def mongoOperator (co : store.ComparisonOperator) : String :=
  if co = store.Eq then "$eq" else ""

/-- The slice `queryFilters` built by the loop of `ListCompanies`. -/
def queryFilters {F : Type} (filters : List (store.Filter F)) : List (FilterQuery F) :=
  filters.map (fun filter =>
    let op := mongoOperator filter.Operator
    match filter.ValueFloat with
    | some x =>
      FilterQuery.or [{ field := filter.AttrName, op := op, value := Value.str filter.Value },
                      { field := filter.AttrName, op := op, value := Value.num x }]
    | none =>
      FilterQuery.cond { field := filter.AttrName, op := op, value := Value.str filter.Value })

/-- The document `findQuery` of `ListCompanies`. -/
def findQuery {F : Type} (qf : List (FilterQuery F)) : FindQuery F :=
  if qf.length > 0 then FindQuery.and qf else FindQuery.empty

/-- The stage `sortQuery` of `ListCompanies`. -/
def sortQuery {F : Type} (q : store.ListQuery F) : Stage :=
  match q.Sort_ with
  | some s => Stage.sort s.AttrName (if !s.Ascending then -1 else 1)
  | none => Stage.skip 0

/-- The stage `limitQuery` of `ListCompanies`. -/
def limitQuery {F : Type} (q : store.ListQuery F) : Stage :=
  if q.Limit > 0 then Stage.limit q.Limit else Stage.skip 0

/-- The pipeline `queryPipeline` of `ListCompanies`. -/
def queryPipeline {F : Type} (q : store.ListQuery F) : Pipeline F :=
  { matchAnd := [findQuery (queryFilters q.Filters)],
    results := [sortQuery q, Stage.skip q.Skip, limitQuery q],
    totalCount := [Stage.count "count"] }

/-! ### The engine -/

/-- A field condition on a flat document: `$eq` compares the field with the
value; an operator key that is not an operator (the empty string) makes the
operand a sub-document, which no scalar field equals. -/
def FieldCond.holds {F : Type} [DecidableEq F] (c : FieldCond F) (d : Doc F) : Bool :=
  decide (c.op = "$eq") && decide (Doc.get d c.field = some c.value)

/-- A filter query on a document: `$or` holds when some alternative holds. -/
def FilterQuery.holds {F : Type} [DecidableEq F] (fq : FilterQuery F) (d : Doc F) : Bool :=
  match fq with
  | .cond c => c.holds d
  | .or cs => cs.any (fun c => c.holds d)

/-- A find query on a document: the empty document matches everything, `$and`
holds when every element holds. -/
def FindQuery.holds {F : Type} [DecidableEq F] (fq : FindQuery F) (d : Doc F) : Bool :=
  match fq with
  | .empty => true
  | .and qs => qs.all (fun q => q.holds d)

/-- The stage `{"$match": {"$and": ms}}`: the documents on which every element
holds, in storage order. -/
def matchStage {F : Type} [DecidableEq F] (ms : List (FindQuery F)) (coll : List (Doc F)) :
    List (Doc F) :=
  coll.filter (fun d => ms.all (fun m => m.holds d))

/-- The place of a sort key in the BSON comparison order of types: a missing
field first, then numbers, strings, dates. -/
def keyRank {F : Type} : Option (Value F) → Nat
  | none => 0
  | some (.num _) => 1
  | some (.str _) => 2
  | some (.time _) => 3

/-- The ascending order of sort keys. -/
def keyLe {F : Type} [Ord F] (a b : Option (Value F)) : Bool :=
  match a, b with
  | some (.num x), some (.num y) => compare x y != Ordering.gt
  | some (.str s), some (.str t) => !charsLt t.toList s.toList
  | some (.time s), some (.time t) => decide (s ≤ t)
  | _, _ => decide (keyRank a ≤ keyRank b)

/-- One stage of the document branch. A negative skip, a limit that is not
positive and a sort direction other than 1 and -1 are rejected by the engine;
`$count` is not a stage of a document branch. -/
def runStage {F : Type} [Ord F] (s : Stage) (docs : List (Doc F)) :
    Except String (List (Doc F)) :=
  match s with
  | .sort field dir =>
    if dir = 1 then
      .ok (docs.insertionSort (fun a b => keyLe (Doc.get a field) (Doc.get b field) = true))
    else if dir = -1 then
      .ok (docs.insertionSort (fun a b => keyLe (Doc.get b field) (Doc.get a field) = true))
    else .error "$sort key ordering must be 1 (for ascending) or -1 (for descending)"
  | .skip n => if n < 0 then .error "invalid argument to $skip stage" else .ok (docs.drop n.toNat)
  | .limit n => if n ≤ 0 then .error "the limit must be positive" else .ok (docs.take n.toNat)
  | .count _ => .error "unsupported stage in the document branch"

/-- The stages of the document branch, in order. -/
def runStages {F : Type} [Ord F] : List Stage → List (Doc F) → Except String (List (Doc F))
  | [], docs => .ok docs
  | s :: rest, docs =>
    match runStage s docs with
    | .error e => .error e
    | .ok docs2 => runStages rest docs2

/-- The counting branch: document stages followed by a last `$count` stage. The
result lists the `count` fields of the documents the branch emits: `$count`
emits no document for an empty input and one document otherwise. -/
def runCountBranch {F : Type} [Ord F] : List Stage → List (Doc F) → Except String (List Nat)
  | [], _ => .error "unsupported counting branch"
  | [Stage.count field], docs =>
    if field = "count" then .ok (if docs.isEmpty then [] else [docs.length]) else .ok []
  | s :: s2 :: rest, docs =>
    match runStage s docs with
    | .error e => .error e
    | .ok docs2 => runCountBranch (s2 :: rest) docs2
  | [_], _ => .error "unsupported counting branch"

/-- A document of the aggregation result, after the `$project` stage. -/
structure ResultRow (F : Type) where
  results : List (Doc F)
  totalCount : Nat
deriving DecidableEq, Repr

/-- The call `c.Aggregate(ctx, queryPipeline, nil)` on the collection: match,
facet, projection of `totalCount` to its first count (`$arrayElemAt`) or to 0
when there is none (`$ifNull`). The facet emits exactly one document. -/
def Aggregate {F : Type} [DecidableEq F] [Ord F] (coll : List (Doc F)) (p : Pipeline F) :
    Except String (List (ResultRow F)) :=
  let matched := matchStage p.matchAnd coll
  match runStages p.results matched with
  | .error e => .error e
  | .ok results =>
    match runCountBranch p.totalCount matched with
    | .error e => .error e
    | .ok counts => .ok [{ results := results, totalCount := counts.headD 0 }]

/-- Decoding of a string field: a missing field leaves the zero value, a field of
another type is a decoding error. -/
def decodeString {F : Type} (d : Doc F) (field : String) : Option String :=
  match Doc.get d field with
  | none => some ""
  | some (.str s) => some s
  | some _ => none

/-- Decoding of a `time.Time` field. -/
def decodeTime {F : Type} (d : Doc F) (field : String) : Option Int :=
  match Doc.get d field with
  | none => some 0
  | some (.time t) => some t
  | some _ => none

/-- Decoding of a document into `model.Company`, by the `bson` tags of the struct. -/
def decodeCompany {F : Type} (d : Doc F) : Option model.Company :=
  match decodeString d "_id", decodeString d "name", decodeString d "code",
    decodeString d "country", decodeString d "website", decodeString d "phone",
    decodeTime d "created_ts", decodeTime d "updated_ts" with
  | some id, some name, some code, some country, some website, some phone, some c, some u =>
    some { ID := id, Name := name, Code := code, Country := country, Website := website,
           Phone := phone, CreatedTs := c, UpdatedTs := u }
  | _, _, _, _, _, _, _, _ => none

/-- Decoding of every document of a list; `none` if one fails. -/
def decodeCompanies {F : Type} : List (Doc F) → Option (List model.Company)
  | [] => some []
  | d :: rest =>
    match decodeCompany d, decodeCompanies rest with
    | some c, some cs => some (c :: cs)
    | _, _ => none

/-- The local struct `CompanyResult` of `ListCompanies`. -/
structure CompanyResult where
  Company : List model.Company
  Count : Int
deriving DecidableEq, Repr

/-- The call `cursor.All(ctx, &companies)`. -/
def cursorAll {F : Type} : List (ResultRow F) → Except String (List CompanyResult)
  | [] => .ok []
  | row :: rest =>
    match decodeCompanies row.results with
    | none => .error "error decoding key results"
    | some cs =>
      match cursorAll rest with
      | .error e => .error e
      | .ok out => .ok ({ Company := cs, Count := (row.totalCount : Int) } :: out)

/-- The method `MongoStore.ListCompanies` on a collection. -/
def MongoStore.ListCompanies {F : Type} [DecidableEq F] [Ord F] (coll : List (Doc F))
    (q : store.ListQuery F) : List model.Company × Int × GoError :=
  match Aggregate coll (queryPipeline q) with
  | .error e => ([], 0, some e)
  | .ok cursor =>
    match cursorAll cursor with
    | .error e => ([], 0, some e)
    | .ok companies =>
      match companies with
      | [] => ([], 0, none)
      | c :: _ => (c.Company, c.Count, none)

/-! ## Vocabulary of the statements and example inputs -/

/-- The text is an unsigned decimal integer: a non-empty run of decimal digits. -/
def isUnsignedDecimal (s : String) : Bool := !s.toList.isEmpty && s.toList.all isDigit

/-- A stand-in for `strconv.ParseFloat` on the example inputs: it parses decimal
integers only. -/
def exampleParseFloat (s : String) : Option Int := (ParseUint s 63).map Int.ofNat

/-- A list request for the second page with one company per page. -/
def exampleRequest : Request :=
  { Path := "/api/v1/companies", Query := [("page", ["2"]), ("per_page", ["1"])],
    RemoteAddr := "185.193.151.255:8080" }

/-- A list request whose `per_page` is above the maximum. -/
def exampleTooManyRequest : Request :=
  { Path := "/api/v1/companies", Query := [("per_page", ["501"])],
    RemoteAddr := "185.193.151.255:8080" }

/-- A store that reports three matching companies and returns an empty page. -/
def exampleApp (_ : store.ListQuery Int) : List model.Company × Int × GoError := ([], 3, none)

/-- A document satisfies a filter, in the words of the specification: the named
field equals the filter's string value or, when the numeric form is present,
equals that number. -/
def satisfiesFilter {F : Type} [DecidableEq F] (f : store.Filter F) (d : Doc F) : Bool :=
  decide (Doc.get d f.AttrName = some (Value.str f.Value)) ||
    (match f.ValueFloat with
     | some x => decide (Doc.get d f.AttrName = some (Value.num x))
     | none => false)

/-- A stored company with code CY and the extra field `staff` stored as a number. -/
def exampleAirtel : Doc Int :=
  [("_id", .str "1234566"), ("name", .str "Airtel"), ("code", .str "CY"), ("staff", .num 50)]

/-- A stored company with code IN and the extra field `staff` stored as a string. -/
def exampleJio : Doc Int :=
  [("_id", .str "12345689"), ("name", .str "jio"), ("code", .str "IN"), ("staff", .str "50")]

/-- A stored company with code GR and no extra field. -/
def exampleVodafone : Doc Int :=
  [("_id", .str "1234577"), ("name", .str "vodafone"), ("code", .str "GR")]

/-- A collection of three companies. -/
def exampleCollection : List (Doc Int) := [exampleAirtel, exampleJio, exampleVodafone]

/-- The query of the request `code=eq:CY`. -/
def exampleCodeQuery : store.ListQuery Int :=
  { Skip := 0, Limit := 20,
    Filters := [{ AttrName := "code", Value := "CY", ValueFloat := none, Operator := store.Eq }],
    Sort_ := none }

/-- The query of the request `staff=50`, whose value parses as a number. -/
def exampleStaffQuery : store.ListQuery Int :=
  { Skip := 0, Limit := 20,
    Filters := [{ AttrName := "staff", Value := "50", ValueFloat := some 50,
                  Operator := store.Eq }],
    Sort_ := none }

/-- The query map of a link: the request's map with `page` and `per_page` set. -/
def linkQuery (q : Values) (page per_page : Nat) : Values :=
  Values.Set (Values.Set q PageName (Nat.repr page)) PerPageName (Nat.repr per_page)

/-- The last item of the request path, the resource of the links. -/
def linkResource (r : Request) : String := (stringsSplit r.Path '/').getLast?.getD ""

/-- A list request with two filter attributes, `name=eq:Airtel` and `code=CY`. -/
def exampleFilterRequest : Request :=
  { Path := "/api/v1/companies",
    Query := [("name", ["eq:Airtel"]), ("page", ["1"]), ("code", ["CY"])],
    RemoteAddr := "185.193.151.255:8080" }

/-- A list request with the unknown operator `gt`, in which the map iteration
first visits an attribute whose value cannot be percent-decoded (the query
string `a=%25zz&name=gt:5`). -/
def exampleUndecodableFirstRequest : Request :=
  { Path := "/api/v1/companies",
    Query := [("a", ["%zz"]), ("name", ["gt:5"])],
    RemoteAddr := "185.193.151.255:8080" }

/-- A list request whose only attribute is `name=gt:5`. -/
def exampleBadOperatorRequest : Request :=
  { Path := "/api/v1/companies",
    Query := [("name", ["gt:5"])],
    RemoteAddr := "185.193.151.255:8080" }

/-- A network in which the caller 185.193.151.255 resolves to the given status
and body; every other address is malformed. -/
def exampleNetEnv (status : Nat) (body : String) : NetEnv :=
  { SplitHostPort := fun addr =>
      if addr = "185.193.151.255:8080" then .ok ("185.193.151.255", "8080")
      else .error "missing port in address",
    ParseIP := fun ip => decide (ip = "185.193.151.255"),
    NewRequest := fun _ => none,
    Do := fun _ => .response status (.ok body) }

/-! ## store/datastore.go, api/http/api_company.go : the mutating endpoints -/

/-- An `error` value coming from the store: one of the two sentinel values of
store/datastore.go (compared by identity), or any other error with its text. -/
inductive store.Error where
  | ErrCompanyNotFound
  | ErrCompanyExists
  | other (msg : String)
deriving DecidableEq, Repr

/-- The method `Error()` of a store error: its text. -/
def store.Error.text : store.Error → String
  | .ErrCompanyNotFound => "company not found"
  | .ErrCompanyExists => "company exists"
  | .other msg => msg

/-- The call `errors.Is(sentinel, err)` as the handlers write it, with the
sentinel in the first place: a sentinel made by `errors.New` has no cause and no
`Is` method, so the call is true exactly when `err` is that very sentinel. -/
def errorsIs (sentinel err : store.Error) : Bool :=
  match sentinel with
  | .other _ => false
  | _ => decide (sentinel = err)

/-- The constant `URLPrefix`. -/
def URLPrefix : String := "/api/v1/companies/"

/-- The call `strings.TrimPrefix(s, pre)`. -/
def stringsTrimPrefix (s pre : String) : String :=
  if pre.toList.isPrefixOf s.toList then String.mk (s.toList.drop pre.length) else s

/-- The function `utils.ParsePathParamId`. -/
def ParsePathParamId (r : Request) : String := stringsTrimPrefix r.Path URLPrefix

/-- The string rules of the validation library that `model.Company.Validate`
uses (`is.CountryCode2`, `is.E164`, `is.URL`), as predicates on a non-empty
string. -/
structure ValidationRules where
  CountryCode2 : String → Bool
  E164 : String → Bool
  URL : String → Bool

/-- The rule `validation.Required` on a string: the error of an empty string. -/
def ruleRequired (value : String) : GoError :=
  if value = "" then some "cannot be blank" else none

/-- A string rule of package `is`: an empty value passes, another value passes
when the predicate holds. -/
def ruleString (ok : String → Bool) (message value : String) : GoError :=
  if value = "" then none else if ok value then none else some message

/-- The rules of one field in order: the first error is the error of the field. -/
def validateField (key : String) (checks : List GoError) : List (String × String) :=
  match checks.filterMap id with
  | [] => []
  | e :: _ => [(key, e)]

/-- The text of a `validation.Errors` value: `key: message` entries joined by
`; ` (the caller lists them by ascending key) and closed by a full stop. -/
def validationErrorsText (errs : List (String × String)) : String :=
  "; ".intercalate (errs.map (fun e => e.1 ++ ": " ++ e.2)) ++ "."

/-- The method `model.Company.Validate`. The error key of a field is its `json`
tag, and the field name where the struct has none (`Country`, whose tag is
spelled `jsoon`). -/
def model.Company.Validate (rules : ValidationRules) (comp : model.Company) : GoError :=
  let errs :=
    validateField "Country" [ruleRequired comp.Country] ++
    validateField "code" [ruleRequired comp.Code,
      ruleString rules.CountryCode2 "must be a valid two-letter country code" comp.Code] ++
    validateField "name" [ruleRequired comp.Name] ++
    validateField "phone" [ruleString rules.E164 "must be a valid E164 number" comp.Phone] ++
    validateField "website" [ruleString rules.URL "must be a valid URL" comp.Website]
  if errs.isEmpty then none else some (validationErrorsText errs)

/-- The function `parseCompany`; `decode` is `json.NewDecoder(r.Body).Decode` on
the request body. -/
def parseCompany (decode : String → Except String model.Company) (rules : ValidationRules)
    (body : String) : Except String model.Company :=
  match decode body with
  | .error e => .error ("failed to decode request body: " ++ e)
  | .ok comp =>
    match model.Company.Validate rules comp with
    | some e => .error e
    | none => .ok comp

/-- What a mutating handler wrote as body: the text of `http.Error`, a company
marshalled to JSON, or nothing. -/
inductive Payload where
  | text (msg : String)
  | company (c : model.Company)
  | empty
deriving DecidableEq, Repr

/-- A call of a method of `ah.App`. -/
inductive AppCall where
  | CreateCompany (c : model.Company)
  | GetCompany (id : String)
  | UpdateCompany (id : String) (cu : model.CompanyUpdate)
  | DeleteCompany (id : String)
deriving DecidableEq, Repr

/-- The observable result of a handler of one company: status, body, and the
calls of `ah.App` it made, in order. -/
structure Response where
  StatusCode : Nat
  Payload : Payload
  AppCalls : List AppCall
deriving DecidableEq, Repr

/-- The method `CreateCompanyHandler`; `body` is the request body and `app` is
`ah.App.CreateCompany`. -/
def CreateCompanyHandler (env : NetEnv) (decode : String → Except String model.Company)
    (rules : ValidationRules) (app : model.Company → String × Option store.Error)
    (r : Request) (body : String) : Response :=
  match validateClientOriginCountry env r with
  | (_, some e) =>
    { StatusCode := 403, Payload := .text ("failed to retrieve client country: " ++ e),
      AppCalls := [] }
  | (false, none) =>
    { StatusCode := 403, Payload := .text "you're not authorized", AppCalls := [] }
  | (true, none) =>
    match parseCompany decode rules body with
    | .error e =>
      { StatusCode := 400, Payload := .text ("failed to parse the payload: " ++ e),
        AppCalls := [] }
    | .ok comp =>
      match app comp with
      | (_, some err) =>
        if errorsIs store.Error.ErrCompanyExists err then
          { StatusCode := 400, Payload := .text err.text, AppCalls := [.CreateCompany comp] }
        else
          { StatusCode := 500,
            Payload := .text ("failed to create the company entry: " ++ err.text),
            AppCalls := [.CreateCompany comp] }
      | (id, none) =>
        { StatusCode := 200, Payload := .company { comp with ID := id },
          AppCalls := [.CreateCompany comp] }

/-- The method `GetCompanyHandler`; `app` is `ah.App.GetCompany` (`none` for the
company is the nil pointer). -/
def GetCompanyHandler (app : String → Option model.Company × Option store.Error)
    (r : Request) : Response :=
  let id := ParsePathParamId r
  if id = "" then
    { StatusCode := 400, Payload := .text "id path param is empty", AppCalls := [] }
  else
    match app id with
    | (_, some err) =>
      if errorsIs store.Error.ErrCompanyNotFound err then
        { StatusCode := 400, Payload := .text err.text, AppCalls := [.GetCompany id] }
      else
        { StatusCode := 500,
          Payload := .text ("internal server error in retrieving the company: " ++ err.text),
          AppCalls := [.GetCompany id] }
    | (some comp, none) =>
      { StatusCode := 200, Payload := .company comp, AppCalls := [.GetCompany id] }
    | (none, none) =>
      { StatusCode := 200, Payload := .text "null", AppCalls := [.GetCompany id] }

/-- The method `DeleteCompanyHandler`; `app` is `ah.App.DeleteCompany`. -/
def DeleteCompanyHandler (env : NetEnv) (app : String → Option store.Error) (r : Request) :
    Response :=
  match validateClientOriginCountry env r with
  | (_, some e) =>
    { StatusCode := 403, Payload := .text ("failed to retrieve client country: " ++ e),
      AppCalls := [] }
  | (false, none) =>
    { StatusCode := 403, Payload := .text "you're not authorized", AppCalls := [] }
  | (true, none) =>
    let id := ParsePathParamId r
    if id = "" then
      { StatusCode := 400, Payload := .text "id path param is empty", AppCalls := [] }
    else
      match app id with
      | some err =>
        { StatusCode := 500,
          Payload := .text ("internal server error deleting the company: " ++ err.text),
          AppCalls := [.DeleteCompany id] }
      | none => { StatusCode := 204, Payload := .empty, AppCalls := [.DeleteCompany id] }

/-- A company payload like the one of the repository's tests. -/
def exampleCompany : model.Company :=
  { ID := "1234566", Name := "Airtel", Code := "CY", Country := "Cyprus",
    Website := "airtel.cy", Phone := "+35722111111", CreatedTs := 0, UpdatedTs := 0 }

/-- A decoder that knows one body, the JSON text of `exampleCompany`, and one
body without a name; every other body is malformed. -/
def exampleDecode (body : String) : Except String model.Company :=
  if body = "airtel" then .ok exampleCompany
  else if body = "nameless" then .ok { exampleCompany with Name := "" }
  else .error "unexpected end of JSON input"

/-- String rules that accept the values of `exampleCompany`. -/
def exampleRules : ValidationRules :=
  { CountryCode2 := fun s => decide (s = "CY" ∨ s = "IN"),
    E164 := fun s => decide (s = "+35722111111"),
    URL := fun s => decide (s = "airtel.cy") }

/-- A store that accepts every company and returns its id. -/
def exampleCreateApp (c : model.Company) : String × Option store.Error := (c.ID, none)

/-- A request for the company 1234566 from the caller 185.193.151.255. -/
def exampleCompanyRequest : Request :=
  { Path := "/api/v1/companies/1234566", Query := [],
    RemoteAddr := "185.193.151.255:8080" }

/-- A store in which no company has the id that is deleted. -/
def exampleDeleteMissingApp (_ : String) : Option store.Error :=
  some store.Error.ErrCompanyNotFound

/-- A store whose delete fails with an internal fault. -/
def exampleDeleteBrokenApp (_ : String) : Option store.Error :=
  some (store.Error.other "failed to remove company: connection reset")

/-- A store in which no company has the id that is fetched. -/
def exampleGetMissingApp (_ : String) : Option model.Company × Option store.Error :=
  (none, some store.Error.ErrCompanyNotFound)

/-! ## model/company.go, store/mongo/datastore_mongo.go : UpdateCompany -/

/-- What the driver keeps of a `bson` struct tag: the element name and whether an
empty value is left out. -/
structure StructTags where
  Name : String
  OmitEmpty : Bool
deriving DecidableEq, Repr

/-- The struct tag parser of the driver: the tag is cut at the commas, a
non-empty first item is the element name (the default `key` otherwise), and the
item `omitempty` sets the flag; an item that is no known option is ignored. -/
def parseTags (key tag : String) : StructTags :=
  let items := stringsSplit tag ','
  { Name := if items.headD "" ≠ "" then items.headD "" else key,
    OmitEmpty := decide ("omitempty" ∈ items) }

/-- The element a struct field contributes to the marshalled document: none when
its tag says `omitempty` and the value is the zero value. -/
def marshalField {F : Type} (key tag : String) (v : Value F) (isZero : Bool) : Doc F :=
  if (parseTags key tag).OmitEmpty && isZero then [] else [((parseTags key tag).Name, v)]

/-- The document the driver marshals a `model.CompanyUpdate` to, field by field
with the `bson` tags as they are written in model/company.go. -/
def model.CompanyUpdate.bson {F : Type} (cu : model.CompanyUpdate) : Doc F :=
  marshalField "website" "website,omitempty" (Value.str cu.Website) (decide (cu.Website = "")) ++
  marshalField "phone" "phone,omitmepty" (Value.str cu.Phone) (decide (cu.Phone = "")) ++
  marshalField "updatedts" "updated_ts,omitempty" (Value.time cu.UpdatedTs)
    (decide (cu.UpdatedTs = 0))

/-- Assignment of one field of a document: the value is replaced where the field
exists and appended otherwise. -/
def Doc.set {F : Type} (d : Doc F) (field : String) (v : Value F) : Doc F :=
  match d with
  | [] => [(field, v)]
  | (k, old) :: rest => if k = field then (k, v) :: rest else (k, old) :: Doc.set rest field v

/-- The update `{"$set": fields}` applied to a document. -/
def applySet {F : Type} (d : Doc F) (fields : Doc F) : Doc F :=
  fields.foldl (fun acc kv => Doc.set acc kv.1 kv.2) d

/-- The call `c.UpdateOne(ctx, bson.M{"_id": id}, bson.M{"$set": fields})`: the
first document with that id is updated; the result is the collection and
`MatchedCount`. -/
def UpdateOne {F : Type} [DecidableEq F] (coll : List (Doc F)) (id : String) (fields : Doc F) :
    List (Doc F) × Nat :=
  match coll with
  | [] => ([], 0)
  | d :: rest =>
    if Doc.get d "_id" = some (Value.str id) then (applySet d fields :: rest, 1)
    else ((d :: (UpdateOne rest id fields).1), (UpdateOne rest id fields).2)

/-- The method `MongoStore.UpdateCompany` on a collection; `now` is `time.Now()`.
The result is the collection after the call and the error. -/
def MongoStore.UpdateCompany {F : Type} [DecidableEq F] (now : Int) (coll : List (Doc F))
    (id : String) (cu : model.CompanyUpdate) : List (Doc F) × Option store.Error :=
  let update : Doc F := model.CompanyUpdate.bson { cu with UpdatedTs := now }
  let res := UpdateOne coll id update
  if res.2 < 1 then (res.1, some store.Error.ErrCompanyNotFound) else (res.1, none)

/-- A stored company document with a website and a phone. -/
def exampleStoredAirtel : Doc Int :=
  [("_id", .str "1234566"), ("name", .str "Airtel"), ("code", .str "CY"),
   ("country", .str "Cyprus"), ("website", .str "airtel.cy"),
   ("phone", .str "+35722111111"), ("created_ts", .time 1000), ("updated_ts", .time 1000)]

/-- A patch that supplies neither website nor phone. -/
def exampleEmptyUpdate : model.CompanyUpdate := { Website := "", Phone := "", UpdatedTs := 0 }

/-- A list request for the page 4294967296, which is 2^32. -/
def exampleHugePageRequest : Request :=
  { Path := "/api/v1/companies", Query := [("page", ["4294967296"])],
    RemoteAddr := "185.193.151.255:8080" }

/-- A list request for the page 4294967295, the last one of 32 bits. -/
def exampleLastPageRequest : Request :=
  { Path := "/api/v1/companies", Query := [("page", ["4294967295"])],
    RemoteAddr := "185.193.151.255:8080" }

/-- A list request whose attribute value, as the query map holds it, is `a+b`
(the query string `name=a%2Bb`). -/
def examplePlusRequest : Request :=
  { Path := "/api/v1/companies", Query := [("name", ["a+b"])],
    RemoteAddr := "185.193.151.255:8080" }

/-- A list request whose attribute value, as the query map holds it, is `100%`
(the query string `name=100%25`). -/
def examplePercentRequest : Request :=
  { Path := "/api/v1/companies", Query := [("name", ["100%"])],
    RemoteAddr := "185.193.151.255:8080" }

/-- A list request with the numeric filter `staff=eq:50`. -/
def exampleStaffRequest : Request :=
  { Path := "/api/v1/companies", Query := [("staff", ["eq:50"]), ("name", ["jio"])],
    RemoteAddr := "185.193.151.255:8080" }

/-- What a filter keeps whatever the float parser does: name, value, operator. -/
def filterText {F : Type} (f : store.Filter F) : String × String × store.ComparisonOperator :=
  (f.AttrName, f.Value, f.Operator)

/-- The documents in the order a present Sort asks for, and in storage order
when there is none. -/
def sortedBy {F : Type} [Ord F] (s : Option store.Sort) (docs : List (Doc F)) : List (Doc F) :=
  match s with
  | none => docs
  | some s =>
    if s.Ascending then
      docs.insertionSort
        (fun a b => keyLe (Doc.get a s.AttrName) (Doc.get b s.AttrName) = true)
    else
      docs.insertionSort
        (fun a b => keyLe (Doc.get b s.AttrName) (Doc.get a s.AttrName) = true)

/-- The first `limit` documents when `limit` is positive, all of them otherwise. -/
def limitedTo {F : Type} (limit : Int) (docs : List (Doc F)) : List (Doc F) :=
  if limit > 0 then docs.take limit.toNat else docs

/-- A query for the second page of one company, sorted by name. -/
def exampleSortedQuery : store.ListQuery Int :=
  { Skip := 1, Limit := 1, Filters := [],
    Sort_ := some { AttrName := "name", Ascending := true } }

/-! ## package net : dotted IPv4 addresses -/

/-- One field of a dotted IPv4 address: decimal digits, a value of at most 255,
no leading zero in front of another digit. -/
def ipv4Field (cs : List Char) : Bool :=
  !cs.isEmpty && cs.all isDigit && decide (digitsValue cs ≤ 255) &&
    !(decide (1 < cs.length) && decide (cs.head? = some '0'))

/-- The IPv4 branch of `net.ParseIP`: exactly four fields between dots. -/
def parseIPv4 (s : String) : Bool :=
  decide ((splitChars '.' s.toList).length = 4) && (splitChars '.' s.toList).all ipv4Field

/-- The function `net.ParseIP` as a test for a non-nil result: the first dot or
colon of the text selects the IPv4 or the IPv6 parser (a parameter), a text
with neither is no address. -/
def netParseIP (parseIPv6 : String → Bool) (s : String) : Bool :=
  match s.toList.find? (fun c => c = '.' || c = ':') with
  | some '.' => parseIPv4 s
  | some _ => parseIPv6 s
  | none => false

/-- A network whose address parser is `netParseIP` (no IPv6 address accepted) and
whose geo service answers every caller with the given status and body. -/
def exampleIPv4NetEnv (status : Nat) (body : String) : NetEnv :=
  { SplitHostPort := fun addr =>
      match (splitChars ':' addr.toList).map String.mk with
      | [host, port] => .ok (host, port)
      | _ => .error "missing port in address",
    ParseIP := netParseIP (fun _ => false),
    NewRequest := fun _ => none,
    Do := fun _ => .response status (.ok body) }

/-! ## api/http/api_company.go : UpdateCompanyHandler -/

/-- The method `model.CompanyUpdate.Validate`; the error keys are the `json`
tags of the fields. -/
def model.CompanyUpdate.Validate (rules : ValidationRules) (compUp : model.CompanyUpdate) :
    GoError :=
  let errs :=
    validateField "phone" [ruleString rules.E164 "must be a valid E164 number" compUp.Phone] ++
    validateField "website" [ruleString rules.URL "must be a valid URL" compUp.Website]
  if errs.isEmpty then none else some (validationErrorsText errs)

/-- The function `parseCompanyUpdate`; `decode` is `json.NewDecoder(r.Body).Decode`
on the request body. -/
def parseCompanyUpdate (decode : String → Except String model.CompanyUpdate)
    (rules : ValidationRules) (body : String) : Except String model.CompanyUpdate :=
  match decode body with
  | .error e => .error ("failed to decode request body: " ++ e)
  | .ok compUp =>
    match model.CompanyUpdate.Validate rules compUp with
    | some e => .error e
    | none => .ok compUp

/-- The method `UpdateCompanyHandler`; `body` is the request body and `app` is
`ah.App.UpdateCompany`. The handler does not call `validateClientOriginCountry`. -/
def UpdateCompanyHandler (decode : String → Except String model.CompanyUpdate)
    (rules : ValidationRules) (app : String → model.CompanyUpdate → Option store.Error)
    (r : Request) (body : String) : Response :=
  let id := ParsePathParamId r
  if id = "" then
    { StatusCode := 400, Payload := .text "id path param is empty", AppCalls := [] }
  else
    match parseCompanyUpdate decode rules body with
    | .error e => { StatusCode := 400, Payload := .text e, AppCalls := [] }
    | .ok compUp =>
      match app id compUp with
      | some err =>
        if errorsIs store.Error.ErrCompanyNotFound err then
          { StatusCode := 400, Payload := .text err.text, AppCalls := [.UpdateCompany id compUp] }
        else
          { StatusCode := 500,
            Payload := .text ("internal server error in updating the company: " ++ err.text),
            AppCalls := [.UpdateCompany id compUp] }
      | none => { StatusCode := 202, Payload := .empty, AppCalls := [.UpdateCompany id compUp] }

/-! ## store/mongo/datastore_mongo.go : CreateCompany, GetCompany, DeleteCompany

The state of the store is the collection, a list of documents in storage
order.  The engine keeps the `_id` of the documents unique; the unique index
on `name` is asked for by every `CreateCompany`, so whether it exists already
is no part of the state: building it fails exactly when two documents of the
collection have the same name. -/

/-- The constant `Name` of package mongo, the indexed field. -/
def mongo.Name : String := "name"

/-- The type `primitive.ObjectID`: twelve bytes. -/
structure primitive.ObjectID where
  bytes : List Nat
  size : bytes.length = 12

/-- A lower-case hexadecimal digit. -/
def hexDigit (n : Nat) : Char := "0123456789abcdef".toList.getD n '0'

/-- The method `ObjectID.Hex`: two hexadecimal digits for every byte. -/
def primitive.ObjectID.Hex (id : primitive.ObjectID) : String :=
  String.mk (id.bytes.flatMap (fun b => [hexDigit (b / 16 % 16), hexDigit (b % 16)]))

/-- The document the driver marshals a `model.Company` to, field by field with
the `bson` tags as they are written in model/company.go; a `time.Time` is empty
when it is the zero time. -/
def model.Company.bson {F : Type} (comp : model.Company) : Doc F :=
  marshalField "id" "_id,omitempty" (Value.str comp.ID) (decide (comp.ID = "")) ++
  marshalField "name" "name,omitempty" (Value.str comp.Name) (decide (comp.Name = "")) ++
  marshalField "code" "code,omitempty" (Value.str comp.Code) (decide (comp.Code = "")) ++
  marshalField "country" "country,omitempty" (Value.str comp.Country)
    (decide (comp.Country = "")) ++
  marshalField "website" "website,omitempty" (Value.str comp.Website)
    (decide (comp.Website = "")) ++
  marshalField "phone" "phone,omitmepty" (Value.str comp.Phone) (decide (comp.Phone = "")) ++
  marshalField "createdts" "created_ts,omitempty" (Value.time comp.CreatedTs)
    (decide (comp.CreatedTs = 0)) ++
  marshalField "updatedts" "updated_ts,omitempty" (Value.time comp.UpdatedTs)
    (decide (comp.UpdatedTs = 0))

/-- The method `MongoStore.CreateIndex` on the collection: building a unique
index fails when two documents have the same key, a missing field being the key
null; an index that exists already is left as it is. -/
def MongoStore.CreateIndex {F : Type} [DecidableEq F] (coll : List (Doc F)) (field : String)
    (unique : Bool) : Option store.Error :=
  if unique && !decide ((coll.map (fun d => Doc.get d field)).Nodup) then
    some (store.Error.other
      ("Index build failed: E11000 duplicate key error collection: xm.companies index: " ++
        field ++ "_1"))
  else none

/-- The key of the document is taken already in a unique index on the field. A
document without `_id` gets a generated one from the driver, which collides
with no stored one; in every other index a missing field is the key null. -/
def duplicateKey {F : Type} [DecidableEq F] (coll : List (Doc F)) (field : String)
    (doc : Doc F) : Bool :=
  (decide (field ≠ "_id") || (Doc.get doc field).isSome) &&
    coll.any (fun d => decide (Doc.get d field = Doc.get doc field))

/-- The name the engine gives to the index on a field. -/
def indexName (field : String) : String :=
  if field = "_id" then "_id_" else field ++ "_1"

/-- The call `c.InsertOne(ctx, doc)` on a collection with unique indexes on `_id`
and on the given fields: the write error of the first index the document
violates, or the collection with the document appended. -/
def InsertOne {F : Type} [DecidableEq F] (coll : List (Doc F)) (uniqueFields : List String)
    (doc : Doc F) : List (Doc F) × GoError :=
  match ("_id" :: uniqueFields).find? (fun f => duplicateKey coll f doc) with
  | some f =>
    (coll, some ("write exception: write errors: [E11000 " ++ "duplicate key error" ++
      " collection: xm.companies index: " ++ indexName f ++ "]"))
  | none => (coll ++ [doc], none)

/-- The call `strings.Contains(s, substr)`. -/
def stringsContains (s substr : String) : Bool :=
  s.toList.tails.any (fun t => substr.toList.isPrefixOf t)

/-- The method `MongoStore.CreateCompany` on a collection; `newObjectID` is
`primitive.NewObjectID()` and `now` is `time.Now()`. The result is the
collection after the call, the id and the error. -/
def MongoStore.CreateCompany {F : Type} [DecidableEq F] (newObjectID : primitive.ObjectID)
    (now : Int) (coll : List (Doc F)) (comp : model.Company) :
    List (Doc F) × String × Option store.Error :=
  match MongoStore.CreateIndex coll mongo.Name true with
  | some err => (coll, "", some err)
  | none =>
    let comp1 : model.Company :=
      if comp.ID = "" then { comp with ID := newObjectID.Hex } else comp
    let comp2 : model.Company := { comp1 with CreatedTs := now, UpdatedTs := now }
    match InsertOne coll [mongo.Name] (model.Company.bson comp2) with
    | (coll2, some e) =>
      if stringsContains e "duplicate key error" then
        (coll2, "", some store.Error.ErrCompanyExists)
      else (coll2, "", some (store.Error.other e))
    | (coll2, none) => (coll2, comp2.ID, none)

/-- The call `c.FindOne(ctx, bson.M{"_id": id})`: the first document with that
id, if there is one. -/
def FindOne {F : Type} [DecidableEq F] (coll : List (Doc F)) (id : String) : Option (Doc F) :=
  coll.find? (fun d => decide (Doc.get d "_id" = some (Value.str id)))

/-- The method `MongoStore.GetCompany` on a collection (`none` for the company is
the nil pointer). -/
def MongoStore.GetCompany {F : Type} [DecidableEq F] (coll : List (Doc F)) (id : String) :
    Option model.Company × Option store.Error :=
  match FindOne coll id with
  | none => (none, some store.Error.ErrCompanyNotFound)
  | some d =>
    match decodeCompany d with
    | none => (none, some (store.Error.other "failed to fetch company: error decoding key"))
    | some res => (some res, none)

/-- The call `c.DeleteOne(ctx, bson.M{"_id": id})`: the first document with that
id is removed; the result is the collection and `DeletedCount`. -/
def DeleteOne {F : Type} [DecidableEq F] (coll : List (Doc F)) (id : String) :
    List (Doc F) × Nat :=
  match coll with
  | [] => ([], 0)
  | d :: rest =>
    if Doc.get d "_id" = some (Value.str id) then (rest, 1)
    else ((d :: (DeleteOne rest id).1), (DeleteOne rest id).2)

/-- The method `MongoStore.DeleteCompany` on a collection. The result is the
collection after the call and the error. -/
def MongoStore.DeleteCompany {F : Type} [DecidableEq F] (coll : List (Doc F)) (id : String) :
    List (Doc F) × Option store.Error :=
  let result := DeleteOne coll id
  if result.2 < 1 then (result.1, some store.Error.ErrCompanyNotFound) else (result.1, none)

/-- The company `CreateCompany` hands to the driver: the id filled in when the
caller gave none, and both times set to the time of the call. -/
def stamped (newObjectID : primitive.ObjectID) (now : Int) (comp : model.Company) :
    model.Company :=
  { comp with ID := if comp.ID = "" then newObjectID.Hex else comp.ID,
              CreatedTs := now, UpdatedTs := now }

/-- The value of the field `name` in the stored document of a company with that
name: the text, or no field for the empty name. -/
def nameKey {F : Type} (name : String) : Option (Value F) :=
  if name = "" then none else some (Value.str name)

/-- An object id as the driver generates them. -/
def exampleObjectID : primitive.ObjectID :=
  { bytes := [101, 66, 193, 42, 7, 200, 15, 33, 90, 171, 4, 255], size := rfl }

/-- The patch of the repository's update test. -/
def exampleUpdate : model.CompanyUpdate :=
  { Website := "airtelin.cy", Phone := "+35722111122", UpdatedTs := 0 }

/-- A decoder that knows one body, the JSON text of `exampleUpdate`. -/
def exampleUpdateDecode (body : String) : Except String model.CompanyUpdate :=
  if body = "airtelin" then .ok exampleUpdate else .error "unexpected end of JSON input"

/-- String rules that accept the values of `exampleUpdate`. -/
def exampleUpdateRules : ValidationRules :=
  { CountryCode2 := fun s => decide (s = "CY"),
    E164 := fun s => decide (s = "+35722111122"),
    URL := fun s => decide (s = "airtelin.cy") }

/-- A list request that asks for an order with the attribute `sort=name:asc`. -/
def exampleSortRequest : Request :=
  { Path := "/api/v1/companies", Query := [("sort", ["name:asc"])],
    RemoteAddr := "185.193.151.255:8080" }

/-- A list request that asks for an order with the attribute `sort=name`. -/
def exampleSortNameRequest : Request :=
  { Path := "/api/v1/companies", Query := [("sort", ["name"])],
    RemoteAddr := "185.193.151.255:8080" }

/-- The link ends with the relation type next. -/
def isNextLink (link : String) : Bool := "rel=\"next\"".toList.isSuffixOf link.toList

/-- A list request for the fourth page of one company. -/
def examplePastEndRequest : Request :=
  { Path := "/api/v1/companies", Query := [("page", ["4"]), ("per_page", ["1"])],
    RemoteAddr := "185.193.151.255:8080" }

/-- A list request whose attribute value, as the query map holds it, is
`eq:a+b` (the query string `name=eq:a%2Bb`). -/
def exampleEqPlusRequest : Request :=
  { Path := "/api/v1/companies", Query := [("name", ["eq:a+b"])],
    RemoteAddr := "185.193.151.255:8080" }

/-- A list request whose attribute value, as the query map holds it, is
`eq%3Ax` (the query string `name=eq%253Ax`); it holds no separator. -/
def exampleEncodedColonRequest : Request :=
  { Path := "/api/v1/companies", Query := [("name", ["eq%3Ax"])],
    RemoteAddr := "185.193.151.255:8080" }

/-- A list request whose attribute value, as the query map holds it, is
`gt:5%3A6` (the query string `name=gt:5%253A6`): two tokens, the first `gt`. -/
def exampleEncodedOperatorRequest : Request :=
  { Path := "/api/v1/companies", Query := [("name", ["gt:5%3A6"])],
    RemoteAddr := "185.193.151.255:8080" }

/-! ## Theorems -/

/-- The gate authorizes only through its last return statement. -/
theorem validate_true_iff (env : NetEnv) (r : Request) :
    (validateClientOriginCountry env r).1 = true ↔
      ∃ ip port, env.SplitHostPort r.RemoteAddr = .ok (ip, port) ∧
        (IPAPI_GetCountryNameByIP env ip).2 = none ∧
        (IPAPI_GetCountryNameByIP env ip).1 = "CY" := by
  unfold validateClientOriginCountry RetrievRemoteIP
  cases hs : env.SplitHostPort r.RemoteAddr with
  | error e => simp
  | ok p =>
    obtain ⟨ip, port⟩ := p
    simp only [Except.ok.injEq, Prod.mk.injEq]
    rcases hl : IPAPI_GetCountryNameByIP env ip with ⟨country, err⟩
    cases err with
    | some e =>
      simp only [Bool.false_eq_true, false_iff, not_exists, not_and]
      rintro ip2 port2 ⟨rfl, -⟩ h2
      rw [hl] at h2
      simp at h2
    | none =>
      by_cases hc : country = CYPRUS_CC
      · simp only [hc, ne_eq, not_true_eq_false, if_false, true_iff]
        exact ⟨ip, port, ⟨rfl, rfl⟩, by rw [hl], by rw [hl]; exact hc⟩
      · simp only [ne_eq, hc, not_false_eq_true, if_true, Bool.false_eq_true, false_iff,
          not_exists, not_and]
        rintro ip2 port2 ⟨rfl, -⟩ _ h3
        rw [hl] at h3
        exact hc h3

/-- C1: validateClientOriginCountry fails closed. It authorizes if and only if the
IP was extracted from the remote address, the geo lookup returned without error
and the country it returned is exactly "CY"; any other country string (such as
"cy", "CY\n" or the empty string), a remote address that cannot be split, an
empty or malformed IP, a failed or timed-out round trip and a response whose
status is not 200 all give not authorized. -/
theorem validateClientOriginCountry_fails_closed (env : NetEnv) (r : Request) :
    ((validateClientOriginCountry env r).1 = true ↔
      ∃ ip port, env.SplitHostPort r.RemoteAddr = .ok (ip, port) ∧
        (IPAPI_GetCountryNameByIP env ip).2 = none ∧
        (IPAPI_GetCountryNameByIP env ip).1 = "CY") ∧
    (∀ ip port, env.SplitHostPort r.RemoteAddr = .ok (ip, port) →
      (IPAPI_GetCountryNameByIP env ip).1 ≠ "CY" →
      (validateClientOriginCountry env r).1 = false) ∧
    ("cy" ≠ CYPRUS_CC ∧ "CY\n" ≠ CYPRUS_CC ∧ "" ≠ CYPRUS_CC) ∧
    ((∃ e, env.SplitHostPort r.RemoteAddr = .error e) →
      (validateClientOriginCountry env r).1 = false) ∧
    (∀ ip port, env.SplitHostPort r.RemoteAddr = .ok (ip, port) →
      (ip = "" ∨ env.ParseIP ip = false) →
      (validateClientOriginCountry env r).1 = false) ∧
    (∀ ip port e, env.SplitHostPort r.RemoteAddr = .ok (ip, port) →
      env.Do (stringsReplace ":ip" ip IPAPIURL) = .failed e →
      (validateClientOriginCountry env r).1 = false) ∧
    (∀ ip port status body, env.SplitHostPort r.RemoteAddr = .ok (ip, port) →
      env.Do (stringsReplace ":ip" ip IPAPIURL) = .response status body →
      status ≠ 200 →
      (validateClientOriginCountry env r).1 = false) := by
  have key := validate_true_iff env r
  have deny : ∀ ip port, env.SplitHostPort r.RemoteAddr = .ok (ip, port) →
      (IPAPI_GetCountryNameByIP env ip).1 ≠ "CY" →
      (validateClientOriginCountry env r).1 = false := by
    intro ip port hs hne
    cases hv : (validateClientOriginCountry env r).1 with
    | false => rfl
    | true =>
      obtain ⟨ip2, port2, hs2, -, hc⟩ := key.mp hv
      rw [hs] at hs2
      simp only [Except.ok.injEq, Prod.mk.injEq] at hs2
      obtain ⟨rfl, -⟩ := hs2
      exact absurd hc hne
  refine ⟨key, deny, ⟨by decide, by decide, by decide⟩, ?_, ?_, ?_, ?_⟩
  · rintro ⟨e, he⟩
    simp [validateClientOriginCountry, RetrievRemoteIP, he]
  · intro ip port hs hbad
    apply deny ip port hs
    unfold IPAPI_GetCountryNameByIP
    rcases hbad with h | h
    · simp [h]
    · by_cases h0 : ip = ""
      · simp [h0]
      · simp [h0, h]
  · intro ip port e hs hdo
    apply deny ip port hs
    unfold IPAPI_GetCountryNameByIP
    by_cases h0 : ip = ""
    · simp [h0]
    · cases hp : env.ParseIP ip with
      | false => simp [h0]
      | true =>
        cases hn : env.NewRequest (stringsReplace ":ip" ip IPAPIURL) with
        | some e2 => simp [h0, hn]
        | none => simp [h0, hn, hdo]
  · intro ip port status body hs hdo hst
    apply deny ip port hs
    unfold IPAPI_GetCountryNameByIP
    by_cases h0 : ip = ""
    · simp [h0]
    · cases hp : env.ParseIP ip with
      | false => simp [h0]
      | true =>
        cases hn : env.NewRequest (stringsReplace ":ip" ip IPAPIURL) with
        | some e2 => simp [h0, hn]
        | none => simp [h0, hn, hdo, StatusOK, hst]

/-- C1 on examples: a caller resolving to "CY" with status 200 is authorized; the
same caller is denied when the service answers "cy", and when it answers with
status 500. -/
theorem validateClientOriginCountry_fails_closed_witness :
    (validateClientOriginCountry (exampleNetEnv 200 "CY") exampleRequest).1 = true ∧
    (validateClientOriginCountry (exampleNetEnv 200 "cy") exampleRequest).1 = false ∧
    (validateClientOriginCountry (exampleNetEnv 500 "CY") exampleRequest).1 = false :=
  ⟨(validateClientOriginCountry_fails_closed (exampleNetEnv 200 "CY") exampleRequest).1.mpr
      ⟨"185.193.151.255", "8080", by decide, by decide, by decide⟩,
   (validateClientOriginCountry_fails_closed (exampleNetEnv 200 "cy") exampleRequest).2.1
      "185.193.151.255" "8080" (by decide) (by decide),
   (validateClientOriginCountry_fails_closed (exampleNetEnv 500 "CY") exampleRequest).2.2.2.2.2.2
      "185.193.151.255" "8080" 500 (.ok "CY") (by decide) rfl (by decide)⟩

/-- A parsed unsigned integer is the value of its digits and fits the bit size. -/
theorem ParseUint_some {s : String} {w n : Nat} (h : ParseUint s w = some n) :
    s.toList ≠ [] ∧ s.toList.all isDigit = true ∧ n = digitsValue s.toList ∧ n < 2 ^ w := by
  unfold ParseUint at h
  split_ifs at h with h1 h2 h3
  simp only [Option.some.injEq] at h
  exact ⟨h1, h2, h.symm, h ▸ h3⟩

theorem ParseQueryParmUInt_ok {r : Request} {name : String} {req : Bool} {min max dflt v : Nat}
    (h : ParseQueryParmUInt r name req min max dflt = .ok v) :
    (Values.Get r.Query name = "" ∧ v = dflt) ∨
    (Values.Get r.Query name ≠ "" ∧ ParseUint (Values.Get r.Query name) 32 = some v ∧
      min ≤ v ∧ v ≤ max) := by
  unfold ParseQueryParmUInt at h
  simp only at h
  split_ifs at h with h1 h2
  · left
    simp only [Except.ok.injEq] at h
    exact ⟨h1, h.symm⟩
  · right
    cases hp : ParseUint (Values.Get r.Query name) 32 with
    | none => simp [hp] at h
    | some u =>
      simp only [hp] at h
      split_ifs at h with h3
      simp only [Except.ok.injEq] at h
      subst h
      push_neg at h3
      exact ⟨h1, rfl, h3.1, h3.2⟩

theorem ParsePagination_ok {r : Request} {page perPage : Nat}
    (h : ParsePagination r = .ok (page, perPage)) :
    ParseQueryParmUInt r PageName false PageMin MaxUint64 PageDefault = .ok page ∧
    ParseQueryParmUInt r PerPageName false PerPageMin PerPageMax PerPageDefault = .ok perPage := by
  unfold ParsePagination at h
  cases h1 : ParseQueryParmUInt r PageName false PageMin MaxUint64 PageDefault with
  | error e => simp [h1] at h
  | ok p =>
    cases h2 : ParseQueryParmUInt r PerPageName false PerPageMin PerPageMax PerPageDefault with
    | error e => simp [h1, h2] at h
    | ok pp =>
      simp only [h1, h2, Except.ok.injEq, Prod.mk.injEq] at h
      rw [h.1, h.2]
      exact ⟨rfl, rfl⟩

theorem ParsePagination_bounds {r : Request} {page perPage : Nat}
    (h : ParsePagination r = .ok (page, perPage)) :
    1 ≤ page ∧ page < 2 ^ 32 ∧ 1 ≤ perPage ∧ perPage ≤ 500 := by
  obtain ⟨h1, h2⟩ := ParsePagination_ok h
  have hp : 1 ≤ page ∧ page < 2 ^ 32 := by
    rcases ParseQueryParmUInt_ok h1 with ⟨-, hv⟩ | ⟨-, hu, hmin, -⟩
    · subst hv; exact ⟨by decide, by decide⟩
    · exact ⟨hmin, (ParseUint_some hu).2.2.2⟩
  have hpp : 1 ≤ perPage ∧ perPage ≤ 500 := by
    rcases ParseQueryParmUInt_ok h2 with ⟨-, hv⟩ | ⟨-, -, hmin, hmax⟩
    · subst hv; exact ⟨by decide, by decide⟩
    · exact ⟨hmin, hmax⟩
  exact ⟨hp.1, hp.2, hpp.1, hpp.2⟩

theorem subU64_one {page : Nat} (h1 : 1 ≤ page) (h2 : page < 2 ^ 32) :
    subU64 page 1 = page - 1 := by
  unfold subU64
  norm_num at h2 ⊢
  omega

theorem mulU64_small {a b : Nat} (ha : a < 2 ^ 32) (hb : b ≤ 500) :
    mulU64 a b = a * b ∧ a * b < 2 ^ 63 := by
  have h : a * b ≤ 2 ^ 32 * 500 := Nat.mul_le_mul (Nat.le_of_lt ha) hb
  have h63 : a * b < 2 ^ 63 := lt_of_le_of_lt h (by norm_num)
  refine ⟨?_, h63⟩
  unfold mulU64
  exact Nat.mod_eq_of_lt (lt_trans h63 (by norm_num))

theorem toInt_small {x : Nat} (h : x < 2 ^ 63) : toInt x = (x : Int) := by
  unfold toInt
  have hx : x % 2 ^ 64 = x := Nat.mod_eq_of_lt (lt_trans h (by norm_num))
  rw [hx, if_pos h]

theorem handler_pagination_error {F : Type} (parseFloat : String → Option F)
    (app : store.ListQuery F → List model.Company × Int × GoError) (r : Request) (e : String)
    (hp : ParsePagination r = .error e) :
    ListCompaniesHandler parseFloat app r =
      { StatusCode := 400, Link := [], Body := .text e, StoreCalls := [] } := by
  unfold ListCompaniesHandler
  simp only [hp]

theorem handler_filter_error {F : Type} (parseFloat : String → Option F)
    (app : store.ListQuery F → List model.Company × Int × GoError) (r : Request)
    (pp : Nat × Nat) (e : String)
    (hp : ParsePagination r = .ok pp) (hf : parseFilterParams parseFloat r = .error e) :
    ListCompaniesHandler parseFloat app r =
      { StatusCode := 400, Link := [], Body := .text e, StoreCalls := [] } := by
  unfold ListCompaniesHandler
  obtain ⟨page, perPage⟩ := pp
  simp only [hp, hf]

theorem handler_store_calls {F : Type} (parseFloat : String → Option F)
    (app : store.ListQuery F → List model.Company × Int × GoError) (r : Request)
    (page perPage : Nat) (filters : List (store.Filter F))
    (hp : ParsePagination r = .ok (page, perPage))
    (hf : parseFilterParams parseFloat r = .ok filters) :
    (ListCompaniesHandler parseFloat app r).StoreCalls =
      [{ Skip := toInt (mulU64 (subU64 page 1) perPage), Limit := toInt perPage,
         Filters := filters, Sort_ := none }] := by
  unfold ListCompaniesHandler
  simp only [hp, hf]
  split <;> rfl

theorem handler_links {F : Type} (parseFloat : String → Option F)
    (app : store.ListQuery F → List model.Company × Int × GoError) (r : Request)
    (page perPage : Nat) (filters : List (store.Filter F))
    (companies : List model.Company) (totalCount : Int)
    (hp : ParsePagination r = .ok (page, perPage))
    (hf : parseFilterParams parseFloat r = .ok filters)
    (happ : app (store.ListQuery.mk (toInt (mulU64 (subU64 page 1) perPage)) (toInt perPage)
         filters none) = (companies, totalCount, none)) :
    ListCompaniesHandler parseFloat app r =
      { StatusCode := 200,
        Link := MakePageLinkHdrs r page perPage
          (decide (totalCount > toInt (mulU64 page perPage))),
        Body := .companies companies,
        StoreCalls := [store.ListQuery.mk (toInt (mulU64 (subU64 page 1) perPage))
          (toInt perPage) filters none] } := by
  unfold ListCompaniesHandler
  simp only [hp, hf, happ]

/-- C2: for every list request whose page and per_page ParsePagination accepts,
the unsigned subtraction and multiplication and the conversion to int do not
wrap, every ListQuery the handler passes to the store has
Skip = (page-1)*per_page (so Skip >= 0) and Limit = per_page with
1 <= Limit <= 500, and when the filters parse the store is called exactly once
with that query. -/
theorem ListCompaniesHandler_skip_limit {F : Type} (parseFloat : String → Option F)
    (app : store.ListQuery F → List model.Company × Int × GoError) (r : Request)
    (page perPage : Nat) (hp : ParsePagination r = .ok (page, perPage)) :
    (subU64 page 1 = page - 1 ∧ mulU64 (page - 1) perPage = (page - 1) * perPage ∧
      toInt ((page - 1) * perPage) = ((page : Int) - 1) * (perPage : Int)) ∧
    (∀ ld ∈ (ListCompaniesHandler parseFloat app r).StoreCalls,
      ld.Skip = ((page : Int) - 1) * (perPage : Int) ∧ 0 ≤ ld.Skip ∧
      ld.Limit = (perPage : Int) ∧ 1 ≤ ld.Limit ∧ ld.Limit ≤ 500) ∧
    (∀ filters, parseFilterParams parseFloat r = .ok filters →
      (ListCompaniesHandler parseFloat app r).StoreCalls =
        [{ Skip := ((page : Int) - 1) * (perPage : Int), Limit := (perPage : Int),
           Filters := filters, Sort_ := none }]) := by
  obtain ⟨hp1, hp2, hq1, hq2⟩ := ParsePagination_bounds hp
  have hs := subU64_one hp1 hp2
  have hm := mulU64_small (lt_of_le_of_lt (Nat.sub_le page 1) hp2) hq2
  have ht : toInt ((page - 1) * perPage) = ((page : Int) - 1) * (perPage : Int) := by
    rw [toInt_small hm.2]
    push_cast [Nat.cast_sub hp1]
    ring
  have hl : toInt perPage = (perPage : Int) :=
    toInt_small (lt_of_le_of_lt hq2 (by norm_num))
  have hskip : toInt (mulU64 (subU64 page 1) perPage) = ((page : Int) - 1) * (perPage : Int) := by
    rw [hs, hm.1, ht]
  have hnn : (0 : Int) ≤ ((page : Int) - 1) * (perPage : Int) := by
    have h1 : (0 : Int) ≤ (page : Int) - 1 := by
      have : (1 : Int) ≤ (page : Int) := by exact_mod_cast hp1
      linarith
    exact mul_nonneg h1 (Int.natCast_nonneg perPage)
  have hq1i : (1 : Int) ≤ (perPage : Int) := by exact_mod_cast hq1
  have hq2i : (perPage : Int) ≤ 500 := by exact_mod_cast hq2
  refine ⟨⟨hs, hm.1, ht⟩, ?_, ?_⟩
  · intro ld hld
    cases hf : parseFilterParams parseFloat r with
    | error e =>
      rw [handler_filter_error parseFloat app r _ e hp hf] at hld
      simp at hld
    | ok filters =>
      rw [handler_store_calls parseFloat app r page perPage filters hp hf, hskip, hl] at hld
      simp only [List.mem_singleton] at hld
      subst hld
      exact ⟨rfl, hnn, rfl, hq1i, hq2i⟩
  · intro filters hf
    rw [handler_store_calls parseFloat app r page perPage filters hp hf, hskip, hl]

/-- C2 at the request page=2, per_page=1: the store is called once with Skip 1 and
Limit 1. -/
theorem ListCompaniesHandler_skip_limit_witness :
    ParsePagination exampleRequest = .ok (2, 1) ∧
    (ListCompaniesHandler exampleParseFloat exampleApp exampleRequest).StoreCalls =
      [store.ListQuery.mk 1 1 [] none] :=
  ⟨by decide,
   (ListCompaniesHandler_skip_limit exampleParseFloat exampleApp exampleRequest 2 1
      (by decide)).2.2 [] (by decide)⟩

theorem ParseUint_none_of_not_decimal {s : String} (w : Nat) (h : isUnsignedDecimal s = false) :
    ParseUint s w = none := by
  unfold ParseUint
  unfold isUnsignedDecimal at h
  generalize s.toList = l at h ⊢
  cases l with
  | nil => rfl
  | cons a l =>
    have h2 : (a :: l).all isDigit = false := by
      simpa only [List.isEmpty_cons, Bool.not_false, Bool.true_and] using h
    rw [if_neg (List.cons_ne_nil a l), h2]
    rfl

theorem ParseQueryParmUInt_error_of_not_decimal {r : Request} {name : String}
    (min max dflt : Nat)
    (h0 : Values.Get r.Query name ≠ "") (h : isUnsignedDecimal (Values.Get r.Query name) = false) :
    ParseQueryParmUInt r name false min max dflt = .error (MsgQueryParmInvalid name) := by
  unfold ParseQueryParmUInt
  simp only [h0, if_false, ParseUint_none_of_not_decimal 32 h]

theorem ParseQueryParmUInt_error_of_out_of_range {r : Request} {name : String}
    (min max dflt : Nat)
    (h : isUnsignedDecimal (Values.Get r.Query name) = true)
    (hr : digitsValue (Values.Get r.Query name).toList < min ∨
      max < digitsValue (Values.Get r.Query name).toList) :
    ∃ e, ParseQueryParmUInt r name false min max dflt = .error e := by
  have h0 : Values.Get r.Query name ≠ "" := by
    intro h0
    rw [h0] at h
    exact absurd h (by decide)
  unfold ParseQueryParmUInt
  simp only [h0, if_false]
  cases hp : ParseUint (Values.Get r.Query name) 32 with
  | none => exact ⟨_, rfl⟩
  | some u =>
    have hu := (ParseUint_some hp).2.2.1
    have hcond : u < min ∨ u > max := by rw [hu]; exact hr
    simp only [hcond, if_true]
    exact ⟨_, rfl⟩

theorem ParsePagination_error_of_page {r : Request} {e : String}
    (h : ParseQueryParmUInt r PageName false PageMin MaxUint64 PageDefault = .error e) :
    ParsePagination r = .error e := by
  unfold ParsePagination
  simp only [h]

theorem ParsePagination_error_of_per_page {r : Request} {e : String}
    (h : ParseQueryParmUInt r PerPageName false PerPageMin PerPageMax PerPageDefault = .error e) :
    ∃ e2, ParsePagination r = .error e2 := by
  unfold ParsePagination
  cases h1 : ParseQueryParmUInt r PageName false PageMin MaxUint64 PageDefault with
  | error e1 => exact ⟨e1, rfl⟩
  | ok p => simp only [h]; exact ⟨e, rfl⟩

/-- C3: when per_page is a decimal number outside [1,500], or page or per_page
is non-empty and not an unsigned decimal integer, ParsePagination returns an
error and ListCompaniesHandler answers 400 with that error and never calls the
store. -/
theorem ListCompaniesHandler_rejects_bad_pagination {F : Type} (parseFloat : String → Option F)
    (app : store.ListQuery F → List model.Company × Int × GoError) (r : Request)
    (h : (isUnsignedDecimal (Values.Get r.Query PerPageName) = true ∧
            (digitsValue (Values.Get r.Query PerPageName).toList < 1 ∨
              500 < digitsValue (Values.Get r.Query PerPageName).toList)) ∨
         (Values.Get r.Query PageName ≠ "" ∧
            isUnsignedDecimal (Values.Get r.Query PageName) = false) ∨
         (Values.Get r.Query PerPageName ≠ "" ∧
            isUnsignedDecimal (Values.Get r.Query PerPageName) = false)) :
    ∃ e, ParsePagination r = .error e ∧
      ListCompaniesHandler parseFloat app r =
        { StatusCode := 400, Link := [], Body := .text e, StoreCalls := [] } := by
  have herr : ∃ e, ParsePagination r = .error e := by
    rcases h with ⟨hd, hr⟩ | ⟨h0, hd⟩ | ⟨h0, hd⟩
    · obtain ⟨e, he⟩ := ParseQueryParmUInt_error_of_out_of_range PerPageMin PerPageMax
        PerPageDefault hd hr
      exact ParsePagination_error_of_per_page he
    · exact ⟨_, ParsePagination_error_of_page
        (ParseQueryParmUInt_error_of_not_decimal PageMin MaxUint64 PageDefault h0 hd)⟩
    · exact ParsePagination_error_of_per_page
        (ParseQueryParmUInt_error_of_not_decimal PerPageMin PerPageMax PerPageDefault h0 hd)
  obtain ⟨e, he⟩ := herr
  exact ⟨e, he, handler_pagination_error parseFloat app r e he⟩

/-- C3 at the request per_page=501. -/
theorem ListCompaniesHandler_rejects_bad_pagination_witness :
    ∃ e, ParsePagination exampleTooManyRequest = .error e ∧
      ListCompaniesHandler exampleParseFloat exampleApp exampleTooManyRequest =
        { StatusCode := 400, Link := [], Body := .text e, StoreCalls := [] } :=
  ListCompaniesHandler_rejects_bad_pagination exampleParseFloat exampleApp
    exampleTooManyRequest (Or.inl ⟨by decide, Or.inr (by decide)⟩)

theorem queryFilter_holds {F : Type} [DecidableEq F] (f : store.Filter F) (d : Doc F)
    (h : f.Operator = store.Eq) :
    ∀ fq ∈ queryFilters [f], fq.holds d = satisfiesFilter f d := by
  intro fq hfq
  simp only [queryFilters, List.map_cons, List.map_nil, List.mem_singleton] at hfq
  subst hfq
  have hop : mongoOperator f.Operator = "$eq" := by rw [h]; rfl
  unfold satisfiesFilter
  cases hv : f.ValueFloat with
  | none => simp [FilterQuery.holds, FieldCond.holds, hop]
  | some x => simp [FilterQuery.holds, FieldCond.holds, hop]

theorem queryFilters_all {F : Type} [DecidableEq F] (d : Doc F) :
    ∀ filters : List (store.Filter F), (∀ f ∈ filters, f.Operator = store.Eq) →
      (queryFilters filters).all (fun q => q.holds d) =
        filters.all (fun f => satisfiesFilter f d) := by
  intro filters
  induction filters with
  | nil => intro _; rfl
  | cons f rest ih =>
    intro h
    have hf := queryFilter_holds f d (h f (List.mem_cons_self f rest))
    have hrest := ih (fun g hg => h g (List.mem_cons_of_mem f hg))
    simp only [queryFilters, List.map_cons, List.all_cons] at hrest ⊢
    simp only [queryFilters, List.map_cons, List.map_nil, List.mem_singleton, forall_eq] at hf
    rw [hf]
    simp only [queryFilters] at ih
    rw [hrest]

theorem findQuery_holds {F : Type} [DecidableEq F] (d : Doc F) (qf : List (FilterQuery F)) :
    (findQuery qf).holds d = qf.all (fun q => q.holds d) := by
  unfold findQuery
  cases qf with
  | nil => rfl
  | cons a l => simp [FindQuery.holds]

theorem matchStage_queryPipeline {F : Type} [DecidableEq F] (q : store.ListQuery F)
    (coll : List (Doc F)) (h : ∀ f ∈ q.Filters, f.Operator = store.Eq) :
    matchStage (queryPipeline q).matchAnd coll =
      coll.filter (fun d => q.Filters.all (fun f => satisfiesFilter f d)) := by
  unfold matchStage queryPipeline
  congr 1
  funext d
  simp only [List.all_cons, List.all_nil, Bool.and_true]
  rw [findQuery_holds, queryFilters_all d q.Filters h]

/-- C4: for filters carrying the operator Eq, the documents matched by the query
ListCompanies builds are exactly the documents of the collection that satisfy
every filter; a document satisfies a filter when the named field equals the
string Value or, exactly when ValueFloat is present, equals that number; an
empty filter list matches every document. -/
theorem ListCompanies_match_is_conjunction {F : Type} [DecidableEq F] (q : store.ListQuery F)
    (coll : List (Doc F)) (h : ∀ f ∈ q.Filters, f.Operator = store.Eq) :
    (∀ d, d ∈ matchStage (queryPipeline q).matchAnd coll ↔
      (d ∈ coll ∧ ∀ f ∈ q.Filters, satisfiesFilter f d = true)) ∧
    (∀ (f : store.Filter F) (d : Doc F), satisfiesFilter f d = true ↔
      (Doc.get d f.AttrName = some (Value.str f.Value) ∨
        ∃ x, f.ValueFloat = some x ∧ Doc.get d f.AttrName = some (Value.num x))) ∧
    (q.Filters = [] → matchStage (queryPipeline q).matchAnd coll = coll) := by
  refine ⟨?_, ?_, ?_⟩
  · intro d
    rw [matchStage_queryPipeline q coll h]
    simp only [List.mem_filter, List.all_eq_true]
  · intro f d
    unfold satisfiesFilter
    cases hv : f.ValueFloat with
    | none => simp
    | some x => simp
  · intro hnil
    rw [matchStage_queryPipeline q coll h, hnil]
    simp

/-- C4 on the example collection: the filter staff=50, whose value parses as a
number, matches the company storing 50 as a number and the one storing it as the
string "50", not the third. -/
theorem ListCompanies_match_is_conjunction_witness :
    (∀ f ∈ exampleStaffQuery.Filters, f.Operator = store.Eq) ∧
    (exampleAirtel ∈ matchStage (queryPipeline exampleStaffQuery).matchAnd exampleCollection) ∧
    (exampleJio ∈ matchStage (queryPipeline exampleStaffQuery).matchAnd exampleCollection) ∧
    ¬ (exampleVodafone ∈
        matchStage (queryPipeline exampleStaffQuery).matchAnd exampleCollection) :=
  ⟨by decide,
   ((ListCompanies_match_is_conjunction exampleStaffQuery exampleCollection (by decide)).1
      exampleAirtel).mpr ⟨by decide, by decide⟩,
   ((ListCompanies_match_is_conjunction exampleStaffQuery exampleCollection (by decide)).1
      exampleJio).mpr ⟨by decide, by decide⟩,
   fun hmem =>
     absurd (((ListCompanies_match_is_conjunction exampleStaffQuery exampleCollection
       (by decide)).1 exampleVodafone).mp hmem).2 (by decide)⟩

theorem runStage_sortQuery {F : Type} [Ord F] (q : store.ListQuery F) (docs : List (Doc F)) :
    ∃ out, runStage (sortQuery q) docs = .ok out ∧ out.Perm docs := by
  unfold sortQuery
  cases hs : q.Sort_ with
  | none => exact ⟨docs, by simp [runStage], List.Perm.refl _⟩
  | some s =>
    cases ha : s.Ascending with
    | true =>
      exact ⟨docs.insertionSort
        (fun a b => keyLe (Doc.get a s.AttrName) (Doc.get b s.AttrName) = true),
        by simp [runStage, ha], List.perm_insertionSort _ docs⟩
    | false =>
      exact ⟨docs.insertionSort
        (fun a b => keyLe (Doc.get b s.AttrName) (Doc.get a s.AttrName) = true),
        by simp [runStage, ha], List.perm_insertionSort _ docs⟩

theorem runStage_limitQuery {F : Type} [Ord F] (q : store.ListQuery F) (docs : List (Doc F)) :
    ∃ out, runStage (limitQuery q) docs = .ok out ∧ out.Sublist docs := by
  unfold limitQuery
  by_cases hl : q.Limit > 0
  · refine ⟨docs.take q.Limit.toNat, ?_, List.take_sublist _ _⟩
    have : ¬ q.Limit ≤ 0 := not_le.mpr hl
    simp [runStage, hl, this]
  · exact ⟨docs, by simp [runStage, hl], List.Sublist.refl _⟩

theorem runStages_results {F : Type} [Ord F] (q : store.ListQuery F) (docs : List (Doc F))
    (hskip : 0 ≤ q.Skip) :
    ∃ page, runStages (queryPipeline q).results docs = .ok page ∧
      page.length ≤ docs.length ∧ ∀ d ∈ page, d ∈ docs := by
  obtain ⟨s1, h1, p1⟩ := runStage_sortQuery q docs
  obtain ⟨s3, h3, p3⟩ := runStage_limitQuery q (s1.drop q.Skip.toNat)
  have h2 : runStage (Stage.skip q.Skip) s1 = .ok (s1.drop q.Skip.toNat) := by
    have : ¬ q.Skip < 0 := not_lt.mpr hskip
    simp [runStage, this]
  refine ⟨s3, ?_, ?_, ?_⟩
  · simp only [queryPipeline, runStages, h1, h2, h3]
  · calc s3.length ≤ (s1.drop q.Skip.toNat).length := p3.length_le
      _ ≤ s1.length := by rw [List.length_drop]; exact Nat.sub_le _ _
      _ = docs.length := p1.length_eq
  · intro d hd
    exact p1.subset ((List.drop_sublist _ _).subset (p3.subset hd))

theorem runCountBranch_totalCount {F : Type} [Ord F] (q : store.ListQuery F)
    (docs : List (Doc F)) :
    ∃ counts, runCountBranch (queryPipeline q).totalCount docs = .ok counts ∧
      counts.headD 0 = docs.length := by
  cases docs with
  | nil => exact ⟨[], by simp [queryPipeline, runCountBranch], rfl⟩
  | cons a l => exact ⟨[(a :: l).length], by simp [queryPipeline, runCountBranch], rfl⟩

theorem decodeCompanies_of_all {F : Type} :
    ∀ docs : List (Doc F), (∀ d ∈ docs, (decodeCompany d).isSome = true) →
      ∃ cs, decodeCompanies docs = some cs ∧ cs.length = docs.length := by
  intro docs
  induction docs with
  | nil => intro _; exact ⟨[], rfl, rfl⟩
  | cons d rest ih =>
    intro h
    obtain ⟨cs, hcs, hlen⟩ := ih (fun x hx => h x (List.mem_cons_of_mem d hx))
    have hd := h d (List.mem_cons_self d rest)
    cases hc : decodeCompany d with
    | none => rw [hc] at hd; exact absurd hd (by decide)
    | some c =>
      refine ⟨c :: cs, ?_, ?_⟩
      · simp only [decodeCompanies, hc, hcs]
      · simp only [List.length_cons, hlen]

theorem runStage_sub {F : Type} [Ord F] (s : Stage) (docs out : List (Doc F))
    (h : runStage s docs = .ok out) :
    out.length ≤ docs.length ∧ ∀ d ∈ out, d ∈ docs := by
  cases s with
  | sort field dir =>
    simp only [runStage] at h
    split_ifs at h with h1 h2
    · simp only [Except.ok.injEq] at h
      subst h
      exact ⟨le_of_eq (List.length_insertionSort _ docs),
        fun d hd => (List.mem_insertionSort _).mp hd⟩
    · simp only [Except.ok.injEq] at h
      subst h
      exact ⟨le_of_eq (List.length_insertionSort _ docs),
        fun d hd => (List.mem_insertionSort _).mp hd⟩
  | skip n =>
    simp only [runStage] at h
    split_ifs at h with h1
    simp only [Except.ok.injEq] at h
    subst h
    exact ⟨by rw [List.length_drop]; exact Nat.sub_le _ _,
      fun d hd => (List.drop_sublist _ _).subset hd⟩
  | limit n =>
    simp only [runStage] at h
    split_ifs at h with h1
    simp only [Except.ok.injEq] at h
    subst h
    exact ⟨(List.take_sublist _ _).length_le, fun d hd => (List.take_sublist _ _).subset hd⟩
  | count field =>
    simp [runStage] at h

theorem runStages_sub {F : Type} [Ord F] :
    ∀ (stages : List Stage) (docs out : List (Doc F)), runStages stages docs = .ok out →
      out.length ≤ docs.length ∧ ∀ d ∈ out, d ∈ docs := by
  intro stages
  induction stages with
  | nil =>
    intro docs out h
    simp only [runStages, Except.ok.injEq] at h
    subst h
    exact ⟨le_refl _, fun d hd => hd⟩
  | cons s rest ih =>
    intro docs out h
    unfold runStages at h
    cases h1 : runStage s docs with
    | error e => simp [h1] at h
    | ok docs2 =>
      simp only [h1] at h
      obtain ⟨hl1, hs1⟩ := runStage_sub s docs docs2 h1
      obtain ⟨hl2, hs2⟩ := ih docs2 out h
      exact ⟨le_trans hl2 hl1, fun d hd => hs1 d (hs2 d hd)⟩

theorem decodeCompanies_length {F : Type} :
    ∀ (docs : List (Doc F)) (cs : List model.Company), decodeCompanies docs = some cs →
      cs.length = docs.length := by
  intro docs
  induction docs with
  | nil =>
    intro cs h
    simp only [decodeCompanies, Option.some.injEq] at h
    subst h
    rfl
  | cons d rest ih =>
    intro cs h
    unfold decodeCompanies at h
    cases hd : decodeCompany d with
    | none => simp [hd] at h
    | some c =>
      cases hr : decodeCompanies rest with
      | none => simp [hd, hr] at h
      | some cs2 =>
        simp only [hd, hr, Option.some.injEq] at h
        subst h
        simp only [List.length_cons, ih cs2 hr]

/-- The result of ListCompanies in terms of the page of the document branch. -/
theorem ListCompanies_unfold {F : Type} [DecidableEq F] [Ord F] (coll : List (Doc F))
    (q : store.ListQuery F) :
    MongoStore.ListCompanies coll q =
      match runStages (queryPipeline q).results (matchStage (queryPipeline q).matchAnd coll) with
      | .error e => ([], 0, some e)
      | .ok page =>
        match decodeCompanies page with
        | none => ([], 0, some "error decoding key results")
        | some cs => (cs, ((matchStage (queryPipeline q).matchAnd coll).length : Int), none) := by
  obtain ⟨counts, hcounts, hhead⟩ :=
    runCountBranch_totalCount q (matchStage (queryPipeline q).matchAnd coll)
  unfold MongoStore.ListCompanies Aggregate
  simp only [hcounts]
  cases hr : runStages (queryPipeline q).results (matchStage (queryPipeline q).matchAnd coll) with
  | error e => rfl
  | ok page =>
    simp only [cursorAll, hhead]
    cases hd : decodeCompanies page with
    | none => rfl
    | some cs => rfl

theorem matchStage_eq_filter {F : Type} [DecidableEq F] (q : store.ListQuery F)
    (coll : List (Doc F)) :
    matchStage (queryPipeline q).matchAnd coll =
      coll.filter (fun d => (findQuery (queryFilters q.Filters)).holds d) := by
  simp only [matchStage, queryPipeline, List.all_cons, List.all_nil, Bool.and_true]

/-- C5: whenever ListCompanies returns without error, its totalCount is the
number of documents of the collection that the filter predicate matches (an
expression in which neither Skip nor Limit occurs) and the returned page is not
longer than totalCount; it returns without error for every query with a
non-negative Skip on a collection of company documents; and when no document
matches (and Skip is not negative) the result is the empty page with count 0
and no error. For filters with the operator Eq the matching documents are those
satisfying every filter. -/
theorem ListCompanies_totalCount {F : Type} [DecidableEq F] [Ord F] (coll : List (Doc F))
    (q : store.ListQuery F) :
    ((MongoStore.ListCompanies coll q).2.2 = none →
      (MongoStore.ListCompanies coll q).2.1 =
        ((coll.filter (fun d => (findQuery (queryFilters q.Filters)).holds d)).length : Int) ∧
      ((MongoStore.ListCompanies coll q).1.length : Int) ≤
        (MongoStore.ListCompanies coll q).2.1) ∧
    (0 ≤ q.Skip → (∀ d ∈ coll, (decodeCompany d).isSome = true) →
      (MongoStore.ListCompanies coll q).2.2 = none) ∧
    (0 ≤ q.Skip → (∀ d ∈ coll, (findQuery (queryFilters q.Filters)).holds d = false) →
      MongoStore.ListCompanies coll q = ([], 0, none)) ∧
    ((∀ f ∈ q.Filters, f.Operator = store.Eq) →
      coll.filter (fun d => (findQuery (queryFilters q.Filters)).holds d) =
        coll.filter (fun d => q.Filters.all (fun f => satisfiesFilter f d))) := by
  have hm := matchStage_eq_filter q coll
  refine ⟨?_, ?_, ?_, ?_⟩
  · intro herr
    rw [ListCompanies_unfold] at herr ⊢
    cases hr : runStages (queryPipeline q).results
        (matchStage (queryPipeline q).matchAnd coll) with
    | error e => simp [hr] at herr
    | ok page =>
      cases hd : decodeCompanies page with
      | none => simp [hr, hd] at herr
      | some cs =>
        have h1 := decodeCompanies_length page cs hd
        have h2 := (runStages_sub _ _ _ hr).1
        simp only [hd]
        refine ⟨by rw [hm], ?_⟩
        show ((cs.length : Nat) : Int) ≤
          ((matchStage (queryPipeline q).matchAnd coll).length : Int)
        rw [h1]
        exact_mod_cast h2
  · intro hskip hdec
    obtain ⟨page, hpage, -, hsub⟩ :=
      runStages_results q (matchStage (queryPipeline q).matchAnd coll) hskip
    have hpd : ∀ d ∈ page, (decodeCompany d).isSome = true :=
      fun d hd => hdec d (List.mem_of_mem_filter (hsub d hd))
    obtain ⟨cs, hcs, -⟩ := decodeCompanies_of_all page hpd
    rw [ListCompanies_unfold]
    simp only [hpage, hcs]
  · intro hskip hnone
    have hnil : matchStage (queryPipeline q).matchAnd coll = [] := by
      rw [hm, List.filter_eq_nil_iff]
      intro d hd
      simp [hnone d hd]
    obtain ⟨page, hpage, hlen, -⟩ :=
      runStages_results q (matchStage (queryPipeline q).matchAnd coll) hskip
    rw [hnil] at hlen
    have hp0 : page = [] := List.length_eq_zero.mp (Nat.le_zero.mp hlen)
    subst hp0
    rw [ListCompanies_unfold]
    simp only [hpage, decodeCompanies]
    rw [hnil]
    rfl
  · intro hop
    rw [← hm]
    exact matchStage_queryPipeline q coll hop

/-- C5 on the example collection: the request code=eq:CY counts one document. -/
theorem ListCompanies_totalCount_witness :
    0 ≤ exampleCodeQuery.Skip ∧
    (∀ d ∈ exampleCollection, (decodeCompany d).isSome = true) ∧
    (MongoStore.ListCompanies exampleCollection exampleCodeQuery).2.2 = none ∧
    (MongoStore.ListCompanies exampleCollection exampleCodeQuery).2.1 = 1 :=
  ⟨by decide, by decide,
   (ListCompanies_totalCount exampleCollection exampleCodeQuery).2.1 (by decide) (by decide),
   ((ListCompanies_totalCount exampleCollection exampleCodeQuery).1
      ((ListCompanies_totalCount exampleCollection exampleCodeQuery).2.1
        (by decide) (by decide))).1.trans (by decide)⟩

theorem lookup_Set_same (q : Values) (k v : String) :
    Values.lookup (Values.Set q k v) k = [v] := by
  induction q with
  | nil => simp [Values.Set, Values.lookup]
  | cons p rest ih =>
    obtain ⟨k2, vs⟩ := p
    by_cases h : k2 = k
    · simp [Values.Set, Values.lookup, h]
    · simp [Values.Set, Values.lookup, h, ih]

theorem lookup_Set_other (q : Values) (k v k2 : String) (h : k2 ≠ k) :
    Values.lookup (Values.Set q k v) k2 = Values.lookup q k2 := by
  induction q with
  | nil => simp [Values.Set, Values.lookup, h.symm]
  | cons p rest ih =>
    obtain ⟨k3, vs⟩ := p
    by_cases h3 : k3 = k
    · subst h3
      simp [Values.Set, Values.lookup, h.symm]
    · by_cases h4 : k3 = k2
      · subst h4
        simp [Values.Set, Values.lookup, h]
      · simp [Values.Set, Values.lookup, h3, h4, ih]

theorem Set_Set_same (q : Values) (k a b : String) :
    Values.Set (Values.Set q k a) k b = Values.Set q k b := by
  induction q with
  | nil => simp [Values.Set]
  | cons p rest ih =>
    obtain ⟨k2, vs⟩ := p
    by_cases h : k2 = k
    · simp [Values.Set, h]
    · simp [Values.Set, h, ih]

theorem Set_Set_Set (q : Values) (k1 k2 a b c : String) (h : k1 ≠ k2) :
    Values.Set (Values.Set (Values.Set q k1 a) k2 b) k1 c =
      Values.Set (Values.Set q k1 c) k2 b := by
  induction q with
  | nil => simp [Values.Set, h, h.symm]
  | cons p rest ih =>
    obtain ⟨k3, vs⟩ := p
    by_cases h1 : k3 = k1
    · subst h1
      simp [Values.Set, h]
    · by_cases h2 : k3 = k2
      · subst h2
        simp [Values.Set, h1, Set_Set_same]
      · simp [Values.Set, h1, h2, ih]

theorem keys_Set (q : Values) (k v : String) :
    (∀ x ∈ Values.keys q, x ∈ Values.keys (Values.Set q k v)) ∧
    (∀ x ∈ Values.keys (Values.Set q k v), x = k ∨ x ∈ Values.keys q) := by
  induction q with
  | nil => simp [Values.Set, Values.keys]
  | cons p rest ih =>
    obtain ⟨k2, vs⟩ := p
    by_cases h : k2 = k
    · simp [Values.Set, Values.keys, h]
    · simp only [Values.keys] at ih
      simp only [Values.Set, Values.keys, h, if_false, List.map_cons, List.mem_cons]
      constructor
      · rintro x (hx | hx)
        · exact Or.inl hx
        · exact Or.inr (ih.1 x hx)
      · rintro x (hx | hx)
        · exact Or.inr (Or.inl hx)
        · rcases ih.2 x hx with h1 | h1
          · exact Or.inl h1
          · exact Or.inr (Or.inr h1)

theorem Itoa_toInt {x : Nat} (h : x < 2 ^ 63) : Itoa (toInt x) = Nat.repr x := by
  rw [toInt_small h]
  unfold Itoa
  have : ¬ ((x : Int) < 0) := not_lt.mpr (Int.natCast_nonneg x)
  simp [this]

theorem MakeLink_eq (link_type resource : String) (query : Values) (page per_page : Nat)
    (hp : page < 2 ^ 63) (hq : per_page < 2 ^ 63) :
    MakeLink link_type resource query page per_page =
      (sprintfLinkTmpl resource (Values.Encode (linkQuery query page per_page)) link_type,
       linkQuery query page per_page) := by
  unfold MakeLink linkQuery
  simp only [Itoa_toInt hp, Itoa_toInt hq]

theorem linkQuery_linkQuery (q : Values) (a b c : Nat) :
    linkQuery (linkQuery q a b) c b = linkQuery q c b := by
  unfold linkQuery
  rw [Set_Set_Set _ PageName PerPageName _ _ _ (by decide), Set_Set_same]

theorem MakePageLinkHdrs_eq (r : Request) (page per_page : Nat) (has_next : Bool)
    (hp : page < 2 ^ 32) (hq : per_page < 2 ^ 63) :
    MakePageLinkHdrs r page per_page has_next =
      (if page > 1 then
        [sprintfLinkTmpl (linkResource r)
          (Values.Encode (linkQuery r.Query (page - 1) per_page)) LinkPrev]
       else []) ++
      (if has_next = true then
        [sprintfLinkTmpl (linkResource r)
          (Values.Encode (linkQuery r.Query (page + 1) per_page)) LinkNext]
       else []) ++
      [sprintfLinkTmpl (linkResource r)
        (Values.Encode (linkQuery r.Query 1 per_page)) LinkFirst] := by
  have h63 : (2 : Nat) ^ 32 < 2 ^ 63 := by norm_num
  have hadd : addU64 page 1 = page + 1 := by
    unfold addU64
    apply Nat.mod_eq_of_lt
    have : (2 : Nat) ^ 32 < 2 ^ 64 := by norm_num
    omega
  have hadd63 : page + 1 < 2 ^ 63 := by omega
  have hone : (1 : Nat) < 2 ^ 63 := by norm_num
  unfold MakePageLinkHdrs linkResource
  by_cases h1 : page > 1
  · have hsub : subU64 page 1 = page - 1 := subU64_one (Nat.le_of_lt h1) hp
    have hsub63 : page - 1 < 2 ^ 63 := by omega
    cases has_next with
    | true =>
      simp only [h1, if_true, hsub, hadd, MakeLink_eq _ _ _ _ _ hsub63 hq,
        MakeLink_eq _ _ _ _ _ hadd63 hq, MakeLink_eq _ _ _ _ _ hone hq, linkQuery_linkQuery]
    | false =>
      simp only [h1, if_true, hsub, MakeLink_eq _ _ _ _ _ hsub63 hq,
        MakeLink_eq _ _ _ _ _ hone hq, linkQuery_linkQuery, Bool.false_eq_true, if_false]
      rfl
  · cases has_next with
    | true =>
      simp only [h1, if_false, if_true, hadd, MakeLink_eq _ _ _ _ _ hadd63 hq,
        MakeLink_eq _ _ _ _ _ hone hq, linkQuery_linkQuery]
    | false =>
      simp only [h1, if_false, MakeLink_eq _ _ _ _ _ hone hq, Bool.false_eq_true]
      rfl
/-- C6: for every accepted list request and every total count the store returns
without error, the Link headers of ListCompaniesHandler are, in this order, a
prev link exactly when page > 1, a next link exactly when
totalCount > page*per_page, and always a first link, hence between one and
three links; for page=2, per_page=1 and three matching documents they are prev,
next, first. -/
theorem ListCompaniesHandler_link_headers {F : Type} (parseFloat : String → Option F)
    (app : store.ListQuery F → List model.Company × Int × GoError) (r : Request)
    (page perPage : Nat) (filters : List (store.Filter F))
    (companies : List model.Company) (totalCount : Int)
    (hp : ParsePagination r = .ok (page, perPage))
    (hf : parseFilterParams parseFloat r = .ok filters)
    (happ : app (store.ListQuery.mk (toInt (mulU64 (subU64 page 1) perPage)) (toInt perPage)
         filters none) = (companies, totalCount, none)) :
    (∃ qprev qnext qfirst : String,
      (ListCompaniesHandler parseFloat app r).Link =
        (if page > 1 then [sprintfLinkTmpl (linkResource r) qprev "prev"] else []) ++
        (if totalCount > (page : Int) * (perPage : Int) then
          [sprintfLinkTmpl (linkResource r) qnext "next"] else []) ++
        [sprintfLinkTmpl (linkResource r) qfirst "first"]) ∧
    1 ≤ (ListCompaniesHandler parseFloat app r).Link.length ∧
    (ListCompaniesHandler parseFloat app r).Link.length ≤ 3 ∧
    (ListCompaniesHandler exampleParseFloat (MongoStore.ListCompanies exampleCollection)
        exampleRequest).Link =
      ["<companies?page=1&per_page=1>; rel=\"prev\"",
       "<companies?page=3&per_page=1>; rel=\"next\"",
       "<companies?page=1&per_page=1>; rel=\"first\""] := by
  obtain ⟨hp1, hp2, hq1, hq2⟩ := ParsePagination_bounds hp
  have hm := mulU64_small hp2 hq2
  have hnext : decide (totalCount > toInt (mulU64 page perPage)) = true ↔
      totalCount > (page : Int) * (perPage : Int) := by
    rw [hm.1, toInt_small hm.2]
    simp
  have hlinks := MakePageLinkHdrs_eq r page perPage
    (decide (totalCount > toInt (mulU64 page perPage))) hp2
    (lt_of_le_of_lt hq2 (by norm_num))
  rw [handler_links parseFloat app r page perPage filters companies totalCount hp hf happ]
  simp only [hlinks, hnext]
  refine ⟨⟨_, _, _, rfl⟩, ?_, ?_, by decide⟩
  · simp only [List.length_append, List.length_singleton]
    omega
  · by_cases h1 : page > 1 <;> by_cases h2 : totalCount > (page : Int) * (perPage : Int) <;>
      simp [h1, h2]

/-- C6 at the request page=2, per_page=1 with a store reporting three matches. -/
theorem ListCompaniesHandler_link_headers_witness :
    ParsePagination exampleRequest = .ok (2, 1) ∧
    parseFilterParams exampleParseFloat exampleRequest = .ok [] ∧
    1 ≤ (ListCompaniesHandler exampleParseFloat exampleApp exampleRequest).Link.length ∧
    (ListCompaniesHandler exampleParseFloat exampleApp exampleRequest).Link.length ≤ 3 :=
  ⟨by decide, by decide,
   (ListCompaniesHandler_link_headers exampleParseFloat exampleApp exampleRequest 2 1 [] [] 3
      (by decide) (by decide) (by decide)).2.1,
   (ListCompaniesHandler_link_headers exampleParseFloat exampleApp exampleRequest 2 1 [] [] 3
      (by decide) (by decide) (by decide)).2.2.1⟩

/-- C7: every link MakePageLinkHdrs returns for an accepted request is the
template filled with the resource, the encoding of a query map and the type
prev, next or first; the query map of each link holds every parameter of the
request other than page and per_page with its original values, holds per_page
set to the request's per_page, and holds page set to page-1 in the prev link,
page+1 in the next link and 1 in the first link, although the links are built
from one shared map. -/
theorem MakePageLinkHdrs_link_form (r : Request) (page perPage : Nat) (has_next : Bool)
    (hp : ParsePagination r = .ok (page, perPage)) :
    MakePageLinkHdrs r page perPage has_next =
      (if page > 1 then
        [sprintfLinkTmpl (linkResource r)
          (Values.Encode (linkQuery r.Query (page - 1) perPage)) "prev"]
       else []) ++
      (if has_next = true then
        [sprintfLinkTmpl (linkResource r)
          (Values.Encode (linkQuery r.Query (page + 1) perPage)) "next"]
       else []) ++
      [sprintfLinkTmpl (linkResource r)
        (Values.Encode (linkQuery r.Query 1 perPage)) "first"] ∧
    (∀ n : Nat,
      Values.lookup (linkQuery r.Query n perPage) "page" = [Nat.repr n] ∧
      Values.lookup (linkQuery r.Query n perPage) "per_page" = [Nat.repr perPage] ∧
      (∀ k, k ≠ "page" → k ≠ "per_page" →
        Values.lookup (linkQuery r.Query n perPage) k = Values.lookup r.Query k) ∧
      (∀ k ∈ Values.keys r.Query, k ∈ Values.keys (linkQuery r.Query n perPage)) ∧
      (∀ k ∈ Values.keys (linkQuery r.Query n perPage),
        k = "page" ∨ k = "per_page" ∨ k ∈ Values.keys r.Query)) := by
  obtain ⟨hp1, hp2, hq1, hq2⟩ := ParsePagination_bounds hp
  refine ⟨MakePageLinkHdrs_eq r page perPage has_next hp2 (lt_of_le_of_lt hq2 (by norm_num)), ?_⟩
  intro n
  unfold linkQuery
  refine ⟨?_, ?_, ?_, ?_, ?_⟩
  · exact Eq.trans (lookup_Set_other _ PerPageName _ PageName (by decide))
      (lookup_Set_same _ PageName _)
  · exact lookup_Set_same _ PerPageName _
  · intro k hk1 hk2
    exact Eq.trans (lookup_Set_other _ PerPageName _ k hk2)
      (lookup_Set_other _ PageName _ k hk1)
  · intro k hk
    exact (keys_Set _ _ _).1 k ((keys_Set _ _ _).1 k hk)
  · intro k hk
    rcases (keys_Set _ PerPageName _).2 k hk with h | h
    · exact Or.inr (Or.inl h)
    · rcases (keys_Set _ PageName _).2 k h with h2 | h2
      · exact Or.inl h2
      · exact Or.inr (Or.inr h2)

/-- C7 at the request page=2, per_page=1 with a next page. -/
theorem MakePageLinkHdrs_link_form_witness :
    ParsePagination exampleRequest = .ok (2, 1) ∧
    MakePageLinkHdrs exampleRequest 2 1 true =
      ["<companies?page=1&per_page=1>; rel=\"prev\"",
       "<companies?page=3&per_page=1>; rel=\"next\"",
       "<companies?page=1&per_page=1>; rel=\"first\""] :=
  ⟨by decide, (MakePageLinkHdrs_link_form exampleRequest 2 1 true (by decide)).1.trans
    (by decide)⟩

theorem ContainsString_iff (s : String) (list : List String) :
    ContainsString s list = true ↔ s ∈ list := by
  induction list with
  | nil => simp [ContainsString]
  | cons x rest ih =>
    unfold ContainsString
    by_cases h : x = s
    · simp [h]
    · have h2 : ¬ s = x := fun e => h e.symm
      simp [h, h2, ih]

theorem knownParams_iff (name : String) :
    ContainsString name knownParams = true ↔ (name = "page" ∨ name = "per_page") := by
  rw [ContainsString_iff]
  simp [knownParams, PageName, PerPageName]

theorem parseFilterValue_unfold {F : Type} (parseFloat : String → Option F)
    (name valueStr : String) :
    parseFilterValue parseFloat name valueStr =
      if (stringsSplit valueStr ':').length = 2 then
        if (stringsSplit valueStr ':').getD 0 "" = "eq" then
          .ok { AttrName := name, Value := (stringsSplit valueStr ':').getD 1 "",
                ValueFloat := parseFloat ((stringsSplit valueStr ':').getD 1 ""),
                Operator := store.Eq }
        else .error "invalid filter operator"
      else
        .ok { AttrName := name, Value := valueStr, ValueFloat := parseFloat valueStr,
              Operator := store.Eq } := by
  unfold parseFilterValue
  simp only [queryParamValueSeparator, filterEqOperatorIdx, Nat.zero_add]
  by_cases h2 : (stringsSplit valueStr ':').length = 2
  · by_cases heq : (stringsSplit valueStr ':').getD 0 "" = "eq"
    · simp only [h2, heq, if_true]
    · simp only [h2, heq, if_true, if_false]
  · simp only [h2, if_false]

theorem parseFilterValue_ok {F : Type} {parseFloat : String → Option F} {name valueStr : String}
    {f : store.Filter F} (h : parseFilterValue parseFloat name valueStr = .ok f) :
    f.AttrName = name ∧ f.Operator = store.Eq ∧ f.ValueFloat = parseFloat f.Value ∧
    ((stringsSplit valueStr ':').length = 2 →
      (stringsSplit valueStr ':').getD 0 "" = "eq" ∧
      f.Value = (stringsSplit valueStr ':').getD 1 "") ∧
    ((stringsSplit valueStr ':').length ≠ 2 → f.Value = valueStr) := by
  rw [parseFilterValue_unfold] at h
  split_ifs at h with h2 heq
  · simp only [Except.ok.injEq] at h
    subst h
    exact ⟨rfl, rfl, rfl, fun _ => ⟨heq, rfl⟩, fun hne => absurd h2 hne⟩
  · simp only [Except.ok.injEq] at h
    subst h
    exact ⟨rfl, rfl, rfl, fun h3 => absurd h3 h2, fun _ => rfl⟩

theorem parseFilterValue_error {F : Type} {parseFloat : String → Option F}
    {name valueStr e : String}
    (h : parseFilterValue parseFloat name valueStr = .error e) :
    e = "invalid filter operator" := by
  rw [parseFilterValue_unfold] at h
  split_ifs at h with h2 heq
  simp only [Except.error.injEq] at h
  exact h.symm

theorem parseFilterValue_bad_operator {F : Type} (parseFloat : String → Option F)
    (name valueStr a b : String) (hs : stringsSplit valueStr ':' = [a, b]) (ha : a ≠ "eq") :
    parseFilterValue parseFloat name valueStr = .error "invalid filter operator" := by
  rw [parseFilterValue_unfold, hs]
  have h0 : [a, b].getD 0 "" = a := rfl
  have hl : [a, b].length = 2 := rfl
  rw [if_pos hl, h0, if_neg ha]

theorem parseFilterValue_eq {F : Type} (parseFloat : String → Option F)
    (name valueStr v : String) (hs : stringsSplit valueStr ':' = ["eq", v]) :
    parseFilterValue parseFloat name valueStr =
      .ok { AttrName := name, Value := v, ValueFloat := parseFloat v, Operator := store.Eq } := by
  rw [parseFilterValue_unfold, hs]
  have h0 : ["eq", v].getD 0 "" = "eq" := rfl
  have h1 : ["eq", v].getD 1 "" = v := rfl
  have hl : ["eq", v].length = 2 := rfl
  rw [if_pos hl, h0, if_pos rfl, h1]

theorem splitChars_no_sep (sep : Char) :
    ∀ cs : List Char, sep ∉ cs → splitChars sep cs = [cs] := by
  intro cs
  induction cs with
  | nil => intro _; rfl
  | cons c rest ih =>
    intro h
    have hc : c ≠ sep := fun e => h (e ▸ List.mem_cons_self c rest)
    have hr : sep ∉ rest := fun hm => h (List.mem_cons_of_mem c hm)
    simp only [splitChars, hc, if_false, ih hr]

theorem stringsSplit_no_sep (s : String) (sep : Char) (h : sep ∉ s.toList) :
    stringsSplit s sep = [s] := by
  unfold stringsSplit
  rw [splitChars_no_sep sep s.toList h]
  rfl

theorem parseFilterValue_plain {F : Type} (parseFloat : String → Option F)
    (name valueStr : String) (hs : ':' ∉ valueStr.toList) :
    parseFilterValue parseFloat name valueStr =
      .ok { AttrName := name, Value := valueStr, ValueFloat := parseFloat valueStr,
            Operator := store.Eq } := by
  rw [parseFilterValue_unfold, stringsSplit_no_sep valueStr ':' hs]
  have hlen : ¬ ([valueStr].length = 2) := by simp
  rw [if_neg hlen]

theorem ParseQueryParmStr_error {r : Request} {name e : String}
    (h : ParseQueryParmStr r name false none = .error e) : e = MsgQueryParmInvalid name := by
  unfold ParseQueryParmStr at h
  by_cases h0 : Values.Get r.Query name = ""
  · simp only [h0, if_true] at h
    cases hq : QueryUnescape "" with
    | none => simp [hq] at h; exact h.symm
    | some v => simp [hq] at h
  · simp only [h0, if_false] at h
    cases hq : QueryUnescape (Values.Get r.Query name) with
    | none => simp [hq] at h; exact h.symm
    | some v => simp [hq] at h

/-- The filters a successful loop appends are, name by name, the filters of the
names that are not reserved. -/
theorem parseFilterLoop_ok {F : Type} (parseFloat : String → Option F) (r : Request) :
    ∀ (names : List String) (acc filters : List (store.Filter F)),
      parseFilterLoop parseFloat r names acc = .ok filters →
      ∃ added, filters = acc ++ added ∧
        List.Forall₂ (fun name f => ∃ valueStr,
            ParseQueryParmStr r name false none = .ok valueStr ∧
            parseFilterValue parseFloat name valueStr = .ok f)
          (names.filter (fun n => !ContainsString n knownParams)) added := by
  intro names
  induction names with
  | nil =>
    intro acc filters h
    simp only [parseFilterLoop, Except.ok.injEq] at h
    exact ⟨[], by simp [h], List.Forall₂.nil⟩
  | cons name rest ih =>
    intro acc filters h
    unfold parseFilterLoop at h
    cases hk : ContainsString name knownParams with
    | true =>
      simp only [hk, if_true] at h
      obtain ⟨added, h1, h2⟩ := ih acc filters h
      exact ⟨added, h1, by simpa [hk] using h2⟩
    | false =>
      simp only [hk, Bool.false_eq_true, if_false] at h
      cases hv : ParseQueryParmStr r name false none with
      | error e => simp [hv] at h
      | ok valueStr =>
        cases hf : parseFilterValue parseFloat name valueStr with
        | error e => simp [hv, hf] at h
        | ok f =>
          simp only [hv, hf] at h
          obtain ⟨added, h1, h2⟩ := ih (acc ++ [f]) filters h
          refine ⟨f :: added, by simp [h1], ?_⟩
          simp only [List.filter_cons, hk, Bool.not_false, if_true]
          exact List.Forall₂.cons ⟨valueStr, hv, hf⟩ h2

/-- The error of a failing loop is the error of one of its names. -/
theorem parseFilterLoop_error {F : Type} (parseFloat : String → Option F) (r : Request) :
    ∀ (names : List String) (acc : List (store.Filter F)) (e : String),
      parseFilterLoop parseFloat r names acc = .error e →
      e = "invalid filter operator" ∨
        ∃ n ∈ names, ParseQueryParmStr r n false none = .error e ∧ e = MsgQueryParmInvalid n := by
  intro names
  induction names with
  | nil =>
    intro acc e h
    simp [parseFilterLoop] at h
  | cons name rest ih =>
    intro acc e h
    unfold parseFilterLoop at h
    cases hk : ContainsString name knownParams with
    | true =>
      simp only [hk, if_true] at h
      rcases ih acc e h with h1 | ⟨n, hn, h2⟩
      · exact Or.inl h1
      · exact Or.inr ⟨n, List.mem_cons_of_mem name hn, h2⟩
    | false =>
      simp only [hk, Bool.false_eq_true, if_false] at h
      cases hv : ParseQueryParmStr r name false none with
      | error e2 =>
        simp only [hv, Except.error.injEq] at h
        subst h
        exact Or.inr ⟨name, List.mem_cons_self name rest, hv, ParseQueryParmStr_error hv⟩
      | ok valueStr =>
        cases hf : parseFilterValue parseFloat name valueStr with
        | error e2 =>
          simp only [hv, hf, Except.error.injEq] at h
          subst h
          exact Or.inl (parseFilterValue_error hf)
        | ok f =>
          simp only [hv, hf] at h
          rcases ih (acc ++ [f]) e h with h1 | ⟨n, hn, h2⟩
          · exact Or.inl h1
          · exact Or.inr ⟨n, List.mem_cons_of_mem name hn, h2⟩
theorem forall₂_map_AttrName {F : Type} {parseFloat : String → Option F} {r : Request} :
    ∀ (names : List String) (added : List (store.Filter F)),
      List.Forall₂ (fun name f => ∃ valueStr,
          ParseQueryParmStr r name false none = .ok valueStr ∧
          parseFilterValue parseFloat name valueStr = .ok f) names added →
      added.map (fun f => f.AttrName) = names := by
  intro names added h
  induction h with
  | nil => rfl
  | cons hab _ ih =>
    obtain ⟨valueStr, _, hf⟩ := hab
    simp only [List.map_cons, (parseFilterValue_ok hf).1, ih]

theorem forall₂_left {α β : Type} {R : α → β → Prop} :
    ∀ (l1 : List α) (l2 : List β), List.Forall₂ R l1 l2 → ∀ a ∈ l1, ∃ b ∈ l2, R a b := by
  intro l1 l2 h
  induction h with
  | nil => intro a ha; simp at ha
  | cons hab _ ih =>
    intro a ha
    rcases List.mem_cons.mp ha with rfl | ha2
    · exact ⟨_, List.mem_cons_self _ _, hab⟩
    · obtain ⟨b, hb, hr⟩ := ih a ha2
      exact ⟨b, List.mem_cons_of_mem _ hb, hr⟩

theorem forall₂_right {α β : Type} {R : α → β → Prop} :
    ∀ (l1 : List α) (l2 : List β), List.Forall₂ R l1 l2 → ∀ b ∈ l2, ∃ a ∈ l1, R a b := by
  intro l1 l2 h
  induction h with
  | nil => intro b hb; simp at hb
  | cons hab _ ih =>
    intro b hb
    rcases List.mem_cons.mp hb with rfl | hb2
    · exact ⟨_, List.mem_cons_self _ _, hab⟩
    · obtain ⟨a, ha, hr⟩ := ih b hb2
      exact ⟨a, List.mem_cons_of_mem _ ha, hr⟩

/-- The filters of a successful parse, related name by name to the names of the
request that are not reserved. -/
theorem parseFilterParams_ok {F : Type} {parseFloat : String → Option F} {r : Request}
    {filters : List (store.Filter F)} (h : parseFilterParams parseFloat r = .ok filters) :
    List.Forall₂ (fun name f => ∃ valueStr,
        ParseQueryParmStr r name false none = .ok valueStr ∧
        parseFilterValue parseFloat name valueStr = .ok f)
      ((Values.keys r.Query).filter (fun n => !ContainsString n knownParams)) filters := by
  unfold parseFilterParams at h
  obtain ⟨added, h1, h2⟩ := parseFilterLoop_ok parseFloat r _ _ _ h
  rw [List.nil_append] at h1
  rw [h1]
  exact h2

/-- C8: whenever parseFilterParams succeeds on a query map (whose keys are
distinct), the names of the filters are exactly the names of the request other
than page and per_page: no filter carries a reserved name and every other name
of the request has exactly one filter, whose AttrName is that name; the
reserved-name test ContainsString(s, list) is true exactly when s is an element
of list. -/
theorem parseFilterParams_one_filter_per_name {F : Type} (parseFloat : String → Option F)
    (r : Request) (filters : List (store.Filter F)) (hwf : Values.WF r.Query)
    (h : parseFilterParams parseFloat r = .ok filters) :
    filters.map (fun f => f.AttrName) =
      (Values.keys r.Query).filter (fun n => !ContainsString n knownParams) ∧
    (∀ f ∈ filters, f.AttrName ≠ "page" ∧ f.AttrName ≠ "per_page" ∧
      f.AttrName ∈ Values.keys r.Query) ∧
    (∀ name ∈ Values.keys r.Query, name ≠ "page" → name ≠ "per_page" →
      (filters.map (fun f => f.AttrName)).count name = 1) ∧
    (∀ (s : String) (list : List String), ContainsString s list = true ↔ s ∈ list) := by
  have hmap := forall₂_map_AttrName _ _ (parseFilterParams_ok h)
  refine ⟨hmap, ?_, ?_, ContainsString_iff⟩
  · intro f hf
    have hmem : f.AttrName ∈ filters.map (fun f => f.AttrName) :=
      List.mem_map_of_mem (fun f => f.AttrName) hf
    rw [hmap, List.mem_filter] at hmem
    obtain ⟨hk, hres⟩ := hmem
    have hnot : ¬ (f.AttrName = "page" ∨ f.AttrName = "per_page") := by
      rw [← knownParams_iff]
      simpa using hres
    exact ⟨fun e => hnot (Or.inl e), fun e => hnot (Or.inr e), hk⟩
  · intro name hname h1 h2
    rw [hmap]
    apply List.count_eq_one_of_mem (List.Nodup.filter _ hwf)
    rw [List.mem_filter]
    refine ⟨hname, ?_⟩
    have hnot : ¬ (ContainsString name knownParams = true) := by
      rw [knownParams_iff]
      rintro (e | e)
      · exact h1 e
      · exact h2 e
    simpa using hnot

/-- C8 on the request name=eq:Airtel, page=1, code=CY: two filters, named name
and code. -/
theorem parseFilterParams_one_filter_per_name_witness :
    Values.WF exampleFilterRequest.Query ∧
    (∃ filters, parseFilterParams exampleParseFloat exampleFilterRequest = .ok filters ∧
      filters.map (fun f => f.AttrName) = ["name", "code"]) :=
  ⟨by unfold Values.WF; decide,
   ⟨[{ AttrName := "name", Value := "Airtel", ValueFloat := none, Operator := store.Eq },
     { AttrName := "code", Value := "CY", ValueFloat := none, Operator := store.Eq }],
    by decide,
    (parseFilterParams_one_filter_per_name exampleParseFloat exampleFilterRequest _
      (by unfold Values.WF; decide) (by decide)).1.trans (by decide)⟩⟩
/-- The filters of a successful parse in terms of the string the loop splits,
the result of ParseQueryParmStr: when that string splits on the separator into
exactly the two tokens "eq" and v the filter of the name has Value v, when it
holds no separator the filter has the whole string as Value, and every filter
has the operator Eq, which mongoOperator translates to "$eq". -/
theorem parseFilterParams_values_of_split {F : Type} (parseFloat : String → Option F)
    (r : Request) (filters : List (store.Filter F))
    (h : parseFilterParams parseFloat r = .ok filters) :
    (∀ name ∈ Values.keys r.Query, ContainsString name knownParams = false →
      ∀ valueStr, ParseQueryParmStr r name false none = .ok valueStr →
        (∀ v, stringsSplit valueStr ':' = ["eq", v] →
          ∃ f ∈ filters, f.AttrName = name ∧ f.Value = v ∧ f.Operator = store.Eq) ∧
        (':' ∉ valueStr.toList →
          ∃ f ∈ filters, f.AttrName = name ∧ f.Value = valueStr ∧ f.Operator = store.Eq)) ∧
    (∀ f ∈ filters, f.Operator = store.Eq ∧ mongoOperator f.Operator = "$eq" ∧
      mongoOperator f.Operator ≠ "") := by
  have hall := parseFilterParams_ok h
  refine ⟨?_, ?_⟩
  · intro name hname hres valueStr hv
    have hmem : name ∈ (Values.keys r.Query).filter (fun n => !ContainsString n knownParams) := by
      rw [List.mem_filter]
      exact ⟨hname, by simp [hres]⟩
    obtain ⟨f, hf, valueStr2, hv2, hpf⟩ := forall₂_left _ _ hall name hmem
    rw [hv] at hv2
    simp only [Except.ok.injEq] at hv2
    subst hv2
    constructor
    · intro v hs
      rw [parseFilterValue_eq parseFloat name valueStr v hs] at hpf
      simp only [Except.ok.injEq] at hpf
      exact ⟨f, hf, by rw [← hpf], by rw [← hpf], by rw [← hpf]⟩
    · intro hs
      rw [parseFilterValue_plain parseFloat name valueStr hs] at hpf
      simp only [Except.ok.injEq] at hpf
      exact ⟨f, hf, by rw [← hpf], by rw [← hpf], by rw [← hpf]⟩
  · intro f hf
    obtain ⟨name, _, valueStr, _, hpf⟩ := forall₂_right _ _ hall f hf
    have hop := (parseFilterValue_ok hpf).2.1
    rw [hop]
    exact ⟨rfl, by decide, by decide⟩

/-- The filters of the request name=eq:Airtel, page=1, code=CY. -/
theorem parseFilterParams_values_of_split_example :
    parseFilterParams exampleParseFloat exampleFilterRequest =
      .ok [{ AttrName := "name", Value := "Airtel", ValueFloat := none, Operator := store.Eq },
           { AttrName := "code", Value := "CY", ValueFloat := none, Operator := store.Eq }] ∧
    (∃ f ∈ [({ AttrName := "name", Value := "Airtel", ValueFloat := none,
               Operator := store.Eq } : store.Filter Int),
            { AttrName := "code", Value := "CY", ValueFloat := none, Operator := store.Eq }],
      f.AttrName = "name" ∧ f.Value = "Airtel" ∧ f.Operator = store.Eq) :=
  ⟨by decide,
   ((parseFilterParams_values_of_split exampleParseFloat exampleFilterRequest _ (by decide)).1
      "name" (by decide) (by decide) "eq:Airtel" (by decide)).1 "Airtel" (by decide)⟩

/-- A request in which the string the loop splits for some non-reserved name,
the result of ParseQueryParmStr, has exactly two tokens of which the first is
not "eq": parseFilterParams fails, with "invalid filter operator" or with the
error of a name for which ParseQueryParmStr fails, and with "invalid filter
operator" when ParseQueryParmStr succeeds for every name; ListCompaniesHandler
answers 400 without calling the store. -/
theorem parseFilterParams_rejects_of_split {F : Type} (parseFloat : String → Option F)
    (app : store.ListQuery F → List model.Company × Int × GoError) (r : Request)
    (name valueStr a b : String)
    (hn : name ∈ Values.keys r.Query) (hres : ContainsString name knownParams = false)
    (hv : ParseQueryParmStr r name false none = .ok valueStr)
    (hs : stringsSplit valueStr ':' = [a, b]) (ha : a ≠ "eq") :
    (∃ e, parseFilterParams parseFloat r = .error e ∧
      (e = "invalid filter operator" ∨
        ∃ n ∈ Values.keys r.Query,
          ParseQueryParmStr r n false none = .error e ∧ e = MsgQueryParmInvalid n)) ∧
    ((∀ n ∈ Values.keys r.Query, ∃ v, ParseQueryParmStr r n false none = .ok v) →
      parseFilterParams parseFloat r = .error "invalid filter operator") ∧
    (ListCompaniesHandler parseFloat app r).StatusCode = 400 ∧
    (ListCompaniesHandler parseFloat app r).StoreCalls = [] := by
  have hfail : ∃ e, parseFilterParams parseFloat r = .error e := by
    cases hp : parseFilterParams parseFloat r with
    | error e => exact ⟨e, rfl⟩
    | ok filters =>
      exfalso
      have hmem : name ∈ (Values.keys r.Query).filter
          (fun n => !ContainsString n knownParams) := by
        rw [List.mem_filter]
        exact ⟨hn, by simp [hres]⟩
      obtain ⟨f, _, valueStr2, hv2, hpf⟩ := forall₂_left _ _ (parseFilterParams_ok hp) name hmem
      rw [hv] at hv2
      simp only [Except.ok.injEq] at hv2
      subst hv2
      rw [parseFilterValue_bad_operator parseFloat name valueStr a b hs ha] at hpf
      simp at hpf
  obtain ⟨e, he⟩ := hfail
  have hkind := parseFilterLoop_error parseFloat r (Values.keys r.Query) [] e he
  refine ⟨⟨e, he, hkind⟩, ?_, ?_⟩
  · intro hdec
    rcases hkind with h1 | ⟨n, hnk, herr, _⟩
    · rw [he, h1]
    · obtain ⟨v, hv3⟩ := hdec n hnk
      rw [hv3] at herr
      simp at herr
  · cases hpag : ParsePagination r with
    | error e2 =>
      rw [handler_pagination_error parseFloat app r e2 hpag]
      exact ⟨rfl, rfl⟩
    | ok pp =>
      rw [handler_filter_error parseFloat app r pp e hpag he]
      exact ⟨rfl, rfl⟩

/-- The request name=gt:5 is rejected with "invalid filter operator". -/
theorem parseFilterParams_rejects_of_split_example :
    parseFilterParams exampleParseFloat exampleBadOperatorRequest =
      .error "invalid filter operator" ∧
    (ListCompaniesHandler exampleParseFloat exampleApp exampleBadOperatorRequest).StatusCode
      = 400 ∧
    (ListCompaniesHandler exampleParseFloat exampleApp exampleBadOperatorRequest).StoreCalls
      = [] :=
  ⟨(parseFilterParams_rejects_of_split exampleParseFloat exampleApp
      exampleBadOperatorRequest "name" "gt:5" "gt" "5" (by decide) (by decide) (by decide)
      (by decide) (by decide)).2.1
      (fun n hn => by
        have hname : n = "name" := by
          simpa [Values.keys, exampleBadOperatorRequest] using hn
        subst hname
        exact ⟨"gt:5", by decide⟩),
   (parseFilterParams_rejects_of_split exampleParseFloat exampleApp
      exampleBadOperatorRequest "name" "gt:5" "gt" "5" (by decide) (by decide) (by decide)
      (by decide) (by decide)).2.2⟩

/-- When decoding leaves the value of the attribute as it is, ParseQueryParmStr
returns that value. -/
theorem ParseQueryParmStr_unchanged {r : Request} {name : String}
    (h : QueryUnescape (Values.Get r.Query name) = some (Values.Get r.Query name)) :
    ParseQueryParmStr r name false none = .ok (Values.Get r.Query name) := by
  unfold ParseQueryParmStr
  by_cases h0 : Values.Get r.Query name = ""
  · rw [h0] at h
    simp [h0, h]
  · simp [h0, h]

/-- C9, the code at the failing inputs: the attribute value eq:a+b splits on the
separator into exactly the two tokens "eq" and "a+b", yet the Value of its
filter is "a b", not the second token; the attribute value eq%3Ax holds no
separator, yet the Value of its filter is "x", not the whole value.
ParseQueryParmStr decodes the value of the query map once more before the
split. For every attribute whose value that decoding leaves as it is the two
sentences on Value hold, and every filter of a successful parse has the
operator Eq, which mongoOperator translates to "$eq", never to the empty
operator. -/
theorem parseFilterParams_values_decoded_twice :
    Values.Get exampleEqPlusRequest.Query "name" = "eq:a+b" ∧
    stringsSplit "eq:a+b" ':' = ["eq", "a+b"] ∧
    parseFilterParams exampleParseFloat exampleEqPlusRequest =
      .ok [{ AttrName := "name", Value := "a b", ValueFloat := none, Operator := store.Eq }] ∧
    "a b" ≠ "a+b" ∧
    Values.Get exampleEncodedColonRequest.Query "name" = "eq%3Ax" ∧
    ':' ∉ "eq%3Ax".toList ∧
    parseFilterParams exampleParseFloat exampleEncodedColonRequest =
      .ok [{ AttrName := "name", Value := "x", ValueFloat := none, Operator := store.Eq }] ∧
    "x" ≠ "eq%3Ax" ∧
    (∀ (F : Type) (parseFloat : String → Option F) (r : Request)
        (filters : List (store.Filter F)),
      parseFilterParams parseFloat r = .ok filters →
      (∀ name ∈ Values.keys r.Query, ContainsString name knownParams = false →
        QueryUnescape (Values.Get r.Query name) = some (Values.Get r.Query name) →
        (∀ v, stringsSplit (Values.Get r.Query name) ':' = ["eq", v] →
          ∃ f ∈ filters, f.AttrName = name ∧ f.Value = v ∧ f.Operator = store.Eq) ∧
        (':' ∉ (Values.Get r.Query name).toList →
          ∃ f ∈ filters, f.AttrName = name ∧ f.Value = Values.Get r.Query name ∧
            f.Operator = store.Eq)) ∧
      (∀ f ∈ filters, f.Operator = store.Eq ∧ mongoOperator f.Operator = "$eq" ∧
        mongoOperator f.Operator ≠ "")) := by
  refine ⟨by decide, by decide, by decide, by decide, by decide, by decide, by decide,
    by decide, ?_⟩
  intro F parseFloat r filters h
  have hv := parseFilterParams_values_of_split parseFloat r filters h
  refine ⟨?_, hv.2⟩
  intro name hname hres hun
  exact hv.1 name hname hres _ (ParseQueryParmStr_unchanged hun)

/-- C10, the code at the failing inputs: in the request a=%25zz&name=gt:5 the
value of name has exactly two tokens, the first being "gt", yet the error is
the decoding error of the attribute visited before it, not "invalid filter
operator"; and the attribute value gt:5%3A6 has exactly the two tokens "gt"
and "5%3A6", yet the request is accepted, with a filter whose Value is gt:5:6,
and the handler queries the store and answers 200. ParseQueryParmStr decodes
the value of the query map once more before the split. For every request whose
attribute values that decoding leaves as they are, a value of two tokens with
a first token other than "eq" makes parseFilterParams fail with "invalid
filter operator" and the handler answer 400 without calling the store. -/
theorem parseFilterParams_bad_operator_decoded_twice :
    Values.Get exampleUndecodableFirstRequest.Query "name" = "gt:5" ∧
    stringsSplit "gt:5" ':' = ["gt", "5"] ∧ "gt" ≠ "eq" ∧
    parseFilterParams exampleParseFloat exampleUndecodableFirstRequest =
      .error "Can't parse param a" ∧
    Values.Get exampleEncodedOperatorRequest.Query "name" = "gt:5%3A6" ∧
    stringsSplit "gt:5%3A6" ':' = ["gt", "5%3A6"] ∧
    parseFilterParams exampleParseFloat exampleEncodedOperatorRequest =
      .ok [{ AttrName := "name", Value := "gt:5:6", ValueFloat := none,
             Operator := store.Eq }] ∧
    (ListCompaniesHandler exampleParseFloat (MongoStore.ListCompanies exampleCollection)
        exampleEncodedOperatorRequest).StatusCode = 200 ∧
    (ListCompaniesHandler exampleParseFloat (MongoStore.ListCompanies exampleCollection)
        exampleEncodedOperatorRequest).StoreCalls =
      [{ Skip := 0, Limit := 20,
         Filters := [{ AttrName := "name", Value := "gt:5:6", ValueFloat := none,
                       Operator := store.Eq }],
         Sort_ := none }] ∧
    (∀ (F : Type) (parseFloat : String → Option F)
        (app : store.ListQuery F → List model.Company × Int × GoError) (r : Request)
        (name a b : String),
      name ∈ Values.keys r.Query → ContainsString name knownParams = false →
      stringsSplit (Values.Get r.Query name) ':' = [a, b] → a ≠ "eq" →
      (∀ n ∈ Values.keys r.Query,
        QueryUnescape (Values.Get r.Query n) = some (Values.Get r.Query n)) →
      parseFilterParams parseFloat r = .error "invalid filter operator" ∧
      (ListCompaniesHandler parseFloat app r).StatusCode = 400 ∧
      (ListCompaniesHandler parseFloat app r).StoreCalls = []) := by
  refine ⟨by decide, by decide, by decide, by decide, by decide, by decide, by decide,
    by decide, by decide, ?_⟩
  intro F parseFloat app r name a b hname hres hs ha hun
  have h := parseFilterParams_rejects_of_split parseFloat app r name _ a b hname hres
    (ParseQueryParmStr_unchanged (hun name hname)) hs ha
  exact ⟨h.2.1 (fun n hn => ⟨_, ParseQueryParmStr_unchanged (hun n hn)⟩), h.2.2⟩

theorem CreateCompanyHandler_gate_error (env : NetEnv)
    (decode : String → Except String model.Company) (rules : ValidationRules)
    (app : model.Company → String × Option store.Error) (r : Request) (body : String)
    (b : Bool) (e : String) (h : validateClientOriginCountry env r = (b, some e)) :
    CreateCompanyHandler env decode rules app r body =
      { StatusCode := 403, Payload := .text ("failed to retrieve client country: " ++ e),
        AppCalls := [] } := by
  unfold CreateCompanyHandler
  simp only [h]

theorem CreateCompanyHandler_gate_deny (env : NetEnv)
    (decode : String → Except String model.Company) (rules : ValidationRules)
    (app : model.Company → String × Option store.Error) (r : Request) (body : String)
    (h : validateClientOriginCountry env r = (false, none)) :
    CreateCompanyHandler env decode rules app r body =
      { StatusCode := 403, Payload := .text "you're not authorized", AppCalls := [] } := by
  unfold CreateCompanyHandler
  simp only [h]

theorem CreateCompanyHandler_parse_error (env : NetEnv)
    (decode : String → Except String model.Company) (rules : ValidationRules)
    (app : model.Company → String × Option store.Error) (r : Request) (body e : String)
    (h : validateClientOriginCountry env r = (true, none))
    (hp : parseCompany decode rules body = .error e) :
    CreateCompanyHandler env decode rules app r body =
      { StatusCode := 400, Payload := .text ("failed to parse the payload: " ++ e),
        AppCalls := [] } := by
  unfold CreateCompanyHandler
  simp only [h, hp]

theorem CreateCompanyHandler_store (env : NetEnv)
    (decode : String → Except String model.Company) (rules : ValidationRules)
    (app : model.Company → String × Option store.Error) (r : Request) (body : String)
    (comp : model.Company)
    (h : validateClientOriginCountry env r = (true, none))
    (hp : parseCompany decode rules body = .ok comp) :
    CreateCompanyHandler env decode rules app r body =
      match app comp with
      | (_, some err) =>
        if errorsIs store.Error.ErrCompanyExists err then
          { StatusCode := 400, Payload := .text err.text, AppCalls := [.CreateCompany comp] }
        else
          { StatusCode := 500,
            Payload := .text ("failed to create the company entry: " ++ err.text),
            AppCalls := [.CreateCompany comp] }
      | (id, none) =>
        { StatusCode := 200, Payload := .company { comp with ID := id },
          AppCalls := [.CreateCompany comp] } := by
  unfold CreateCompanyHandler
  simp only [h, hp]

theorem errorsIs_exists (err : store.Error) :
    errorsIs store.Error.ErrCompanyExists err = true ↔ err = store.Error.ErrCompanyExists := by
  cases err <;> simp [errorsIs]

theorem errorsIs_not_found (err : store.Error) :
    errorsIs store.Error.ErrCompanyNotFound err = true ↔
      err = store.Error.ErrCompanyNotFound := by
  cases err <;> simp [errorsIs]

theorem Validate_missing_name (rules : ValidationRules) (comp : model.Company)
    (h : comp.Name = "") : ∃ e, model.Company.Validate rules comp = some e := by
  unfold model.Company.Validate
  have hn : validateField "name" [ruleRequired comp.Name] = [("name", "cannot be blank")] := by
    simp [validateField, ruleRequired, h]
  simp only [hn]
  split_ifs with he
  · simp at he
  · exact ⟨_, rfl⟩
/-- C11: CreateCompanyHandler consults the gate first. When the gate fails or
denies, it answers 403 without calling the store, and the response does not
depend on the body, its decoding, the validation rules or the store; otherwise a
payload that does not decode or does not validate (a missing name never
validates) gives 400 without calling the store; otherwise a store result
ErrCompanyExists gives 400, any other store error gives 500, and success gives
200 with the company carrying the returned id. -/
theorem CreateCompanyHandler_order (env : NetEnv)
    (decode : String → Except String model.Company) (rules : ValidationRules)
    (app : model.Company → String × Option store.Error) (r : Request) (body : String) :
    (validateClientOriginCountry env r ≠ (true, none) →
      (CreateCompanyHandler env decode rules app r body).StatusCode = 403 ∧
      (CreateCompanyHandler env decode rules app r body).AppCalls = [] ∧
      ∀ (decode2 : String → Except String model.Company) (rules2 : ValidationRules)
        (app2 : model.Company → String × Option store.Error) (body2 : String),
        CreateCompanyHandler env decode2 rules2 app2 r body2 =
          CreateCompanyHandler env decode rules app r body) ∧
    (validateClientOriginCountry env r = (true, none) →
      (∀ e, parseCompany decode rules body = .error e →
        (CreateCompanyHandler env decode rules app r body).StatusCode = 400 ∧
        (CreateCompanyHandler env decode rules app r body).AppCalls = []) ∧
      (∀ comp, decode body = .ok comp → comp.Name = "" →
        (CreateCompanyHandler env decode rules app r body).StatusCode = 400 ∧
        (CreateCompanyHandler env decode rules app r body).AppCalls = []) ∧
      (∀ comp, parseCompany decode rules body = .ok comp →
        (CreateCompanyHandler env decode rules app r body).AppCalls = [.CreateCompany comp] ∧
        ((app comp).2 = some store.Error.ErrCompanyExists →
          (CreateCompanyHandler env decode rules app r body).StatusCode = 400) ∧
        (∀ err, (app comp).2 = some err → err ≠ store.Error.ErrCompanyExists →
          (CreateCompanyHandler env decode rules app r body).StatusCode = 500) ∧
        ((app comp).2 = none →
          (CreateCompanyHandler env decode rules app r body).StatusCode = 200 ∧
          (CreateCompanyHandler env decode rules app r body).Payload =
            .company { comp with ID := (app comp).1 }))) := by
  constructor
  · intro hne
    rcases hg : validateClientOriginCountry env r with ⟨b, err⟩
    cases err with
    | some e =>
      rw [CreateCompanyHandler_gate_error env decode rules app r body b e hg]
      refine ⟨rfl, rfl, ?_⟩
      intro decode2 rules2 app2 body2
      rw [CreateCompanyHandler_gate_error env decode2 rules2 app2 r body2 b e hg]
    | none =>
      cases b with
      | true => exact absurd hg hne
      | false =>
        rw [CreateCompanyHandler_gate_deny env decode rules app r body hg]
        refine ⟨rfl, rfl, ?_⟩
        intro decode2 rules2 app2 body2
        rw [CreateCompanyHandler_gate_deny env decode2 rules2 app2 r body2 hg]
  · intro hg
    refine ⟨?_, ?_, ?_⟩
    · intro e hp
      rw [CreateCompanyHandler_parse_error env decode rules app r body e hg hp]
      exact ⟨rfl, rfl⟩
    · intro comp hd hname
      obtain ⟨e, he⟩ := Validate_missing_name rules comp hname
      have hp : parseCompany decode rules body = .error e := by
        unfold parseCompany
        simp only [hd, he]
      rw [CreateCompanyHandler_parse_error env decode rules app r body e hg hp]
      exact ⟨rfl, rfl⟩
    · intro comp hp
      rw [CreateCompanyHandler_store env decode rules app r body comp hg hp]
      rcases happ : app comp with ⟨id, err⟩
      cases err with
      | none =>
        refine ⟨rfl, ?_, ?_, ?_⟩
        · intro h; simp at h
        · intro err h; simp at h
        · intro _; exact ⟨rfl, rfl⟩
      | some err =>
        by_cases hex : err = store.Error.ErrCompanyExists
        · have his : errorsIs store.Error.ErrCompanyExists err = true :=
            (errorsIs_exists err).mpr hex
          dsimp only
          rw [if_pos his]
          refine ⟨rfl, fun _ => rfl, ?_, ?_⟩
          · intro err2 h2 hne2
            simp only [Option.some.injEq] at h2
            exact absurd (h2 ▸ hex) hne2
          · intro h; simp at h
        · have his : ¬ (errorsIs store.Error.ErrCompanyExists err = true) :=
            fun h => hex ((errorsIs_exists err).mp h)
          dsimp only
          rw [if_neg his]
          refine ⟨rfl, ?_, fun _ _ _ => rfl, ?_⟩
          · intro h
            simp only [Option.some.injEq] at h
            exact absurd h hex
          · intro h; simp at h

/-- C11 on examples: an authorized caller with a valid payload gets 200; the same
caller with a payload without a name gets 400 and the store is not called. -/
theorem CreateCompanyHandler_order_witness :
    validateClientOriginCountry (exampleNetEnv 200 "CY") exampleRequest = (true, none) ∧
    (CreateCompanyHandler (exampleNetEnv 200 "CY") exampleDecode exampleRules exampleCreateApp
      exampleRequest "airtel").StatusCode = 200 ∧
    (CreateCompanyHandler (exampleNetEnv 200 "CY") exampleDecode exampleRules exampleCreateApp
      exampleRequest "nameless").StatusCode = 400 ∧
    (CreateCompanyHandler (exampleNetEnv 200 "cy") exampleDecode exampleRules exampleCreateApp
      exampleRequest "airtel").StatusCode = 403 :=
  ⟨by decide,
   (((CreateCompanyHandler_order (exampleNetEnv 200 "CY") exampleDecode exampleRules
      exampleCreateApp exampleRequest "airtel").2 (by decide)).2.2 exampleCompany
      (by decide)).2.2.2 (by decide) |>.1,
   (((CreateCompanyHandler_order (exampleNetEnv 200 "CY") exampleDecode exampleRules
      exampleCreateApp exampleRequest "nameless").2 (by decide)).2.1
      { exampleCompany with Name := "" } (by decide) (by decide)).1,
   ((CreateCompanyHandler_order (exampleNetEnv 200 "cy") exampleDecode exampleRules
      exampleCreateApp exampleRequest "airtel").1 (by decide)).1⟩

/-- C12, the code at the failing input: for an authorized caller deleting the id
1234566, a store answer ErrCompanyNotFound gives status 500 with the internal
error text, the same status as an internal store fault, for every request and
gate; GetCompanyHandler answers 400 for the same store answer. A denied caller
gets 403 without a store call and a successful delete gets 204. -/
theorem DeleteCompanyHandler_not_found_is_500 :
    validateClientOriginCountry (exampleNetEnv 200 "CY") exampleCompanyRequest = (true, none) ∧
    ParsePathParamId exampleCompanyRequest = "1234566" ∧
    DeleteCompanyHandler (exampleNetEnv 200 "CY") exampleDeleteMissingApp exampleCompanyRequest =
      { StatusCode := 500,
        Payload := .text "internal server error deleting the company: company not found",
        AppCalls := [.DeleteCompany "1234566"] } ∧
    (DeleteCompanyHandler (exampleNetEnv 200 "CY") exampleDeleteBrokenApp
      exampleCompanyRequest).StatusCode = 500 ∧
    (∀ (env : NetEnv) (r : Request) (msg : String),
      (DeleteCompanyHandler env (fun _ => some store.Error.ErrCompanyNotFound) r).StatusCode =
        (DeleteCompanyHandler env (fun _ => some (store.Error.other msg)) r).StatusCode) ∧
    (GetCompanyHandler exampleGetMissingApp exampleCompanyRequest).StatusCode = 400 ∧
    DeleteCompanyHandler (exampleNetEnv 200 "cy") exampleDeleteMissingApp exampleCompanyRequest =
      { StatusCode := 403, Payload := .text "you're not authorized", AppCalls := [] } ∧
    DeleteCompanyHandler (exampleNetEnv 200 "CY") (fun _ => none) exampleCompanyRequest =
      { StatusCode := 204, Payload := .empty, AppCalls := [.DeleteCompany "1234566"] } := by
  refine ⟨by decide, by decide, by decide, by decide, ?_, by decide, by decide, by decide⟩
  intro env r msg
  unfold DeleteCompanyHandler
  rcases validateClientOriginCountry env r with ⟨b, err⟩
  cases err with
  | some e => cases b <;> rfl
  | none =>
    cases b with
    | false => rfl
    | true =>
      dsimp only
      split_ifs <;> rfl

/-- C13, the code at the failing input: the document UpdateCompany sends in
`$set` always holds the phone of the patch, also the empty one, because the
tag of the field is spelled `omitmepty`; an empty website is left out. For the
stored company 1234566 and a patch without website and phone the website stays
and the phone becomes the empty string. -/
theorem UpdateCompany_overwrites_phone :
    (∀ cu : model.CompanyUpdate,
      Doc.get (model.CompanyUpdate.bson cu : Doc Int) "phone" = some (Value.str cu.Phone)) ∧
    (∀ cu : model.CompanyUpdate, cu.Website = "" →
      Doc.get (model.CompanyUpdate.bson cu : Doc Int) "website" = none) ∧
    (model.CompanyUpdate.bson { exampleEmptyUpdate with UpdatedTs := 2000 } : Doc Int) =
      [("phone", .str ""), ("updated_ts", .time 2000)] ∧
    (MongoStore.UpdateCompany 2000 [exampleStoredAirtel] "1234566" exampleEmptyUpdate).2 = none ∧
    (MongoStore.UpdateCompany 2000 [exampleStoredAirtel] "1234566" exampleEmptyUpdate).1 =
      [[("_id", .str "1234566"), ("name", .str "Airtel"), ("code", .str "CY"),
        ("country", .str "Cyprus"), ("website", .str "airtel.cy"),
        ("phone", .str ""), ("created_ts", .time 1000), ("updated_ts", .time 2000)]] ∧
    Doc.get exampleStoredAirtel "phone" = some (.str "+35722111111") := by
  refine ⟨?_, ?_, by decide, by decide, by decide, by decide⟩
  · intro cu
    have hp : marshalField "phone" "phone,omitmepty" (Value.str cu.Phone : Value Int)
        (decide (cu.Phone = "")) = [("phone", Value.str cu.Phone)] := by
      have h1 : (parseTags "phone" "phone,omitmepty") = { Name := "phone", OmitEmpty := false } := by
        decide
      simp [marshalField, h1]
    have hw : ∀ z, marshalField "website" "website,omitempty" (Value.str cu.Website : Value Int) z
        = [] ∨ marshalField "website" "website,omitempty" (Value.str cu.Website : Value Int) z
        = [("website", Value.str cu.Website)] := by
      intro z
      have h1 : (parseTags "website" "website,omitempty") =
          { Name := "website", OmitEmpty := true } := by decide
      cases z <;> simp [marshalField, h1]
    unfold model.CompanyUpdate.bson
    rw [hp]
    rcases hw (decide (cu.Website = "")) with h | h <;> rw [h] <;> simp [Doc.get]
  · intro cu hw
    have h1 : (parseTags "website" "website,omitempty") =
        { Name := "website", OmitEmpty := true } := by decide
    have h2 : (parseTags "phone" "phone,omitmepty") = { Name := "phone", OmitEmpty := false } := by
      decide
    have h3 : (parseTags "updatedts" "updated_ts,omitempty") =
        { Name := "updated_ts", OmitEmpty := true } := by decide
    unfold model.CompanyUpdate.bson marshalField
    rw [h1, h2, h3]
    by_cases ht : cu.UpdatedTs = 0 <;> simp [hw, ht, Doc.get]

/-- C14, the claim as stated fails: for the validated IP 185.193.151.255 a
response with status 200 and body "Undefined" makes the function return
"Undefined", which is no 2-letter code, with a nil error; and a response with
status 500 makes it return the empty string with a nil error. -/
theorem IPAPI_GetCountryNameByIP_counterexample :
    (exampleNetEnv 200 "Undefined").ParseIP "185.193.151.255" = true ∧
    IPAPI_GetCountryNameByIP (exampleNetEnv 200 "Undefined") "185.193.151.255" =
      ("Undefined", none) ∧
    "Undefined".length ≠ 2 ∧
    IPAPI_GetCountryNameByIP (exampleNetEnv 500 "CY") "185.193.151.255" = ("", none) ∧
    "".length ≠ 2 :=
  ⟨by decide, by decide, by decide, by decide, by decide⟩

/-- C14 as amended: given a validated IP, for a response with status 200 the
function returns the body of the response as it is, with a nil error (a 2-letter
country code exactly when the service sent one); when the request cannot be
created or sent, or the body cannot be read, it returns the empty string and a
non-nil error. -/
theorem IPAPI_GetCountryNameByIP_body_or_error (env : NetEnv) (ip : String)
    (h0 : ip ≠ "") (hip : env.ParseIP ip = true) :
    (∀ e, env.NewRequest (stringsReplace ":ip" ip IPAPIURL) = some e →
      (IPAPI_GetCountryNameByIP env ip).1 = "" ∧ (IPAPI_GetCountryNameByIP env ip).2 ≠ none) ∧
    (env.NewRequest (stringsReplace ":ip" ip IPAPIURL) = none →
      (∀ e, env.Do (stringsReplace ":ip" ip IPAPIURL) = .failed e →
        (IPAPI_GetCountryNameByIP env ip).1 = "" ∧
        (IPAPI_GetCountryNameByIP env ip).2 ≠ none) ∧
      (∀ country, env.Do (stringsReplace ":ip" ip IPAPIURL) = .response 200 (.ok country) →
        IPAPI_GetCountryNameByIP env ip = (country, none)) ∧
      (∀ e, env.Do (stringsReplace ":ip" ip IPAPIURL) = .response 200 (.error e) →
        IPAPI_GetCountryNameByIP env ip = ("", some e))) := by
  refine ⟨?_, ?_⟩
  · intro e hn
    unfold IPAPI_GetCountryNameByIP
    simp [h0, hip, hn, errorsWrap]
  · intro hn
    refine ⟨?_, ?_, ?_⟩
    · intro e hd
      unfold IPAPI_GetCountryNameByIP
      simp [h0, hip, hn, hd, errorsWrap]
    · intro country hd
      unfold IPAPI_GetCountryNameByIP
      simp [h0, hip, hn, hd, StatusOK]
    · intro e hd
      unfold IPAPI_GetCountryNameByIP
      simp [h0, hip, hn, hd, StatusOK]

/-- C14 as amended, on the caller 185.193.151.255 answered with 200 and "CY". -/
theorem IPAPI_GetCountryNameByIP_body_or_error_witness :
    (exampleNetEnv 200 "CY").ParseIP "185.193.151.255" = true ∧
    IPAPI_GetCountryNameByIP (exampleNetEnv 200 "CY") "185.193.151.255" = ("CY", none) :=
  ⟨by decide,
   ((IPAPI_GetCountryNameByIP_body_or_error (exampleNetEnv 200 "CY") "185.193.151.255"
      (by decide) (by decide)).2 rfl).2.1 "CY" rfl⟩

/-- The value of a parameter that is an unsigned decimal integer within the
bounds and below 2^32. -/
theorem ParseQueryParmUInt_accepts {r : Request} {name : String} (min max dflt : Nat)
    (hd : isUnsignedDecimal (Values.Get r.Query name) = true)
    (h1 : min ≤ digitsValue (Values.Get r.Query name).toList)
    (h2 : digitsValue (Values.Get r.Query name).toList ≤ max)
    (h3 : digitsValue (Values.Get r.Query name).toList < 2 ^ 32) :
    ParseQueryParmUInt r name false min max dflt =
      .ok (digitsValue (Values.Get r.Query name).toList) := by
  have h0 : Values.Get r.Query name ≠ "" := by
    intro h0
    rw [h0] at hd
    exact absurd hd (by decide)
  have hpu : ParseUint (Values.Get r.Query name) 32 =
      some (digitsValue (Values.Get r.Query name).toList) := by
    unfold ParseUint
    unfold isUnsignedDecimal at hd
    generalize (Values.Get r.Query name).toList = l at hd h3 ⊢
    cases l with
    | nil => simp at hd
    | cons a l =>
      have hall : (a :: l).all isDigit = true := by
        simpa only [List.isEmpty_cons, Bool.not_false, Bool.true_and] using hd
      rw [if_neg (List.cons_ne_nil a l), if_pos hall, if_pos h3]
  unfold ParseQueryParmUInt
  simp only [h0, if_false, hpu]
  have hc : ¬ (digitsValue (Values.Get r.Query name).toList < min ∨
      digitsValue (Values.Get r.Query name).toList > max) := by
    push_neg
    exact ⟨h1, h2⟩
  rw [if_neg hc]

theorem ParseQueryParmUInt_default {r : Request} {name : String} (min max dflt : Nat)
    (h0 : Values.Get r.Query name = "") :
    ParseQueryParmUInt r name false min max dflt = .ok dflt := by
  unfold ParseQueryParmUInt
  simp [h0]

/-- C15, the claim as stated fails: the page 4294967296 is a decimal integer
not below 1 and per_page is absent, yet ParsePagination returns an error. -/
theorem ParsePagination_page_counterexample :
    isUnsignedDecimal (Values.Get exampleHugePageRequest.Query "page") = true ∧
    digitsValue (Values.Get exampleHugePageRequest.Query "page").toList = 4294967296 ∧
    Values.Get exampleHugePageRequest.Query "per_page" = "" ∧
    ParsePagination exampleHugePageRequest = .error "Can't parse param page" :=
  ⟨by decide, by decide, by decide, by decide⟩

/-- A decimal integer page with 1 <= page <= 4294967295, with per_page absent or
a decimal integer in [1,500], is accepted: ParsePagination returns that page
next to the per_page of the request or the default 20. -/
theorem ParsePagination_accepts (r : Request)
    (hd : isUnsignedDecimal (Values.Get r.Query "page") = true)
    (h1 : 1 ≤ digitsValue (Values.Get r.Query "page").toList)
    (h2 : digitsValue (Values.Get r.Query "page").toList ≤ 4294967295)
    (hpp : Values.Get r.Query "per_page" = "" ∨
      (isUnsignedDecimal (Values.Get r.Query "per_page") = true ∧
        1 ≤ digitsValue (Values.Get r.Query "per_page").toList ∧
        digitsValue (Values.Get r.Query "per_page").toList ≤ 500)) :
    ParsePagination r =
      .ok (digitsValue (Values.Get r.Query "page").toList,
           if Values.Get r.Query "per_page" = "" then 20
           else digitsValue (Values.Get r.Query "per_page").toList) := by
  have hpage : ParseQueryParmUInt r PageName false PageMin MaxUint64 PageDefault =
      .ok (digitsValue (Values.Get r.Query "page").toList) :=
    ParseQueryParmUInt_accepts PageMin MaxUint64 PageDefault hd h1
      (le_trans h2 (by decide)) (lt_of_le_of_lt h2 (by norm_num))
  unfold ParsePagination
  rw [hpage]
  rcases hpp with h0 | ⟨hd2, h3, h4⟩
  · have hper : ParseQueryParmUInt r PerPageName false PerPageMin PerPageMax PerPageDefault =
        .ok PerPageDefault :=
      ParseQueryParmUInt_default PerPageMin PerPageMax PerPageDefault h0
    rw [hper]
    simp only [h0, if_true]
    rfl
  · have hne : Values.Get r.Query "per_page" ≠ "" := by
      intro h0
      rw [h0] at hd2
      exact absurd hd2 (by decide)
    have hper : ParseQueryParmUInt r PerPageName false PerPageMin PerPageMax PerPageDefault =
        .ok (digitsValue (Values.Get r.Query "per_page").toList) :=
      ParseQueryParmUInt_accepts PerPageMin PerPageMax PerPageDefault hd2 h3 h4
        (lt_of_le_of_lt h4 (by norm_num))
    rw [hper]
    simp only [hne, if_false]

theorem ParseUint_too_large {s : String} (w : Nat) (hd : isUnsignedDecimal s = true)
    (h : 2 ^ w ≤ digitsValue s.toList) : ParseUint s w = none := by
  unfold ParseUint
  unfold isUnsignedDecimal at hd
  generalize s.toList = l at hd h ⊢
  cases l with
  | nil => simp at hd
  | cons a l =>
    have hall : (a :: l).all isDigit = true := by
      simpa only [List.isEmpty_cons, Bool.not_false, Bool.true_and] using hd
    rw [if_neg (List.cons_ne_nil a l), if_pos hall, if_neg (not_lt.mpr h)]

/-- C15 as amended: page has no upper bound below 2^32. For every decimal
integer page with 1 <= page <= 4294967295, with per_page absent or a decimal
integer in [1,500], ParsePagination succeeds and returns that page, next to the
per_page of the request or the default 20; and every decimal integer page of
4294967296 or more is rejected with "Can't parse param page", whatever
per_page is. -/
theorem ParsePagination_page_range (r : Request)
    (hd : isUnsignedDecimal (Values.Get r.Query "page") = true) :
    (1 ≤ digitsValue (Values.Get r.Query "page").toList →
      digitsValue (Values.Get r.Query "page").toList ≤ 4294967295 →
      (Values.Get r.Query "per_page" = "" ∨
        (isUnsignedDecimal (Values.Get r.Query "per_page") = true ∧
          1 ≤ digitsValue (Values.Get r.Query "per_page").toList ∧
          digitsValue (Values.Get r.Query "per_page").toList ≤ 500)) →
      ParsePagination r =
        .ok (digitsValue (Values.Get r.Query "page").toList,
             if Values.Get r.Query "per_page" = "" then 20
             else digitsValue (Values.Get r.Query "per_page").toList)) ∧
    (4294967296 ≤ digitsValue (Values.Get r.Query "page").toList →
      ParsePagination r = .error "Can't parse param page") := by
  constructor
  · intro h1 h2 hpp
    exact ParsePagination_accepts r hd h1 h2 hpp
  · intro hbig
    have h0 : Values.Get r.Query PageName ≠ "" := by
      intro h0
      have hd2 : isUnsignedDecimal (Values.Get r.Query PageName) = true := hd
      rw [h0] at hd2
      exact absurd hd2 (by decide)
    have hpu : ParseUint (Values.Get r.Query PageName) 32 = none :=
      ParseUint_too_large 32 hd (le_trans (by norm_num) hbig)
    have herr : ParseQueryParmUInt r PageName false PageMin MaxUint64 PageDefault =
        .error "Can't parse param page" := by
      unfold ParseQueryParmUInt
      simp only [h0, if_false, hpu]
      rfl
    exact ParsePagination_error_of_page herr

/-- C15 as amended, on the pages 4294967295 and 4294967296. -/
theorem ParsePagination_page_range_witness :
    isUnsignedDecimal (Values.Get exampleLastPageRequest.Query "page") = true ∧
    ParsePagination exampleLastPageRequest = .ok (4294967295, 20) ∧
    isUnsignedDecimal (Values.Get exampleHugePageRequest.Query "page") = true ∧
    ParsePagination exampleHugePageRequest = .error "Can't parse param page" :=
  ⟨by decide,
   ((ParsePagination_page_range exampleLastPageRequest (by decide)).1 (by decide) (by decide)
      (Or.inl (by decide))).trans (by decide),
   by decide,
   (ParsePagination_page_range exampleHugePageRequest (by decide)).2 (by decide)⟩

/-- C17, the code at the failing inputs: the decoded value a+b holds no
separator, yet the filter gets the Value "a b", because ParseQueryParmStr
decodes the value of the query map once more; and for the decoded value 100%
parseFilterParams fails. -/
theorem parseFilterParams_decodes_twice :
    Values.Get examplePlusRequest.Query "name" = "a+b" ∧ ':' ∉ "a+b".toList ∧
    parseFilterParams exampleParseFloat examplePlusRequest =
      .ok [{ AttrName := "name", Value := "a b", ValueFloat := none, Operator := store.Eq }] ∧
    "a b" ≠ "a+b" ∧
    Values.Get examplePercentRequest.Query "name" = "100%" ∧ ':' ∉ "100%".toList ∧
    parseFilterParams exampleParseFloat examplePercentRequest =
      .error "Can't parse param name" :=
  ⟨by decide, by decide, by decide, by decide, by decide, by decide, by decide⟩

theorem parseFilterValue_text {F G : Type} (pf1 : String → Option F) (pf2 : String → Option G)
    (name valueStr : String) :
    (∀ e, parseFilterValue pf1 name valueStr = .error e →
      parseFilterValue pf2 name valueStr = .error e) ∧
    (∀ f, parseFilterValue pf1 name valueStr = .ok f →
      ∃ g, parseFilterValue pf2 name valueStr = .ok g ∧ filterText g = filterText f) := by
  rw [parseFilterValue_unfold pf1, parseFilterValue_unfold pf2]
  constructor
  · intro e h
    split_ifs at h ⊢ with h1 h2
    simp only [Except.error.injEq] at h
    rw [h]
  · intro f h
    split_ifs at h ⊢ with h1 h2
    · simp only [Except.ok.injEq] at h
      subst h
      exact ⟨_, rfl, rfl⟩
    · simp only [Except.ok.injEq] at h
      subst h
      exact ⟨_, rfl, rfl⟩

theorem parseFilterLoop_text {F G : Type} (pf1 : String → Option F) (pf2 : String → Option G)
    (r : Request) :
    ∀ (names : List String) (acc1 : List (store.Filter F)) (acc2 : List (store.Filter G))
      (filters : List (store.Filter F)),
      acc2.map filterText = acc1.map filterText →
      parseFilterLoop pf1 r names acc1 = .ok filters →
      ∃ filters2, parseFilterLoop pf2 r names acc2 = .ok filters2 ∧
        filters2.map filterText = filters.map filterText := by
  intro names
  induction names with
  | nil =>
    intro acc1 acc2 filters hacc h
    simp only [parseFilterLoop, Except.ok.injEq] at h
    subst h
    exact ⟨acc2, rfl, hacc⟩
  | cons name rest ih =>
    intro acc1 acc2 filters hacc h
    unfold parseFilterLoop at h ⊢
    cases hk : ContainsString name knownParams with
    | true =>
      simp only [hk, if_true] at h ⊢
      exact ih acc1 acc2 filters hacc h
    | false =>
      simp only [hk, Bool.false_eq_true, if_false] at h ⊢
      cases hv : ParseQueryParmStr r name false none with
      | error e => simp [hv] at h
      | ok valueStr =>
        simp only [hv] at h ⊢
        cases hf : parseFilterValue pf1 name valueStr with
        | error e => simp [hf] at h
        | ok f =>
          simp only [hf] at h
          obtain ⟨g, hg, hgt⟩ := (parseFilterValue_text pf1 pf2 name valueStr).2 f hf
          simp only [hg]
          apply ih (acc1 ++ [f]) (acc2 ++ [g]) filters _ h
          simp only [List.map_append, List.map_cons, List.map_nil, hacc, hgt]

/-- C18: every filter parseFilterParams returns has ValueFloat equal to the
outcome of parsing its Value as a float: present exactly when the Value parses,
and then the parsed number; the Value is the string left by the split (for the
value eq:v it is v). Name, Value and operator of the filters are the same
whatever the parser answers, so the string is retained in both cases. -/
theorem parseFilterParams_ValueFloat {F : Type} (parseFloat : String → Option F)
    (r : Request) (filters : List (store.Filter F))
    (h : parseFilterParams parseFloat r = .ok filters) :
    (∀ f ∈ filters, f.ValueFloat = parseFloat f.Value ∧
      (f.ValueFloat.isSome = true ↔ (parseFloat f.Value).isSome = true) ∧
      (∀ x, parseFloat f.Value = some x → f.ValueFloat = some x) ∧
      ∃ valueStr, ParseQueryParmStr r f.AttrName false none = .ok valueStr ∧
        (f.Value = valueStr ∨ stringsSplit valueStr ':' = ["eq", f.Value])) ∧
    (∀ (G : Type) (parseFloat2 : String → Option G),
      ∃ filters2, parseFilterParams parseFloat2 r = .ok filters2 ∧
        filters2.map filterText = filters.map filterText) := by
  constructor
  · intro f hf
    obtain ⟨name, _, valueStr, hv, hpf⟩ := forall₂_right _ _ (parseFilterParams_ok h) f hf
    obtain ⟨hname, -, hfloat, h2, hn2⟩ := parseFilterValue_ok hpf
    refine ⟨hfloat, by rw [hfloat], fun x hx => by rw [hfloat, hx], valueStr, ?_, ?_⟩
    · rw [hname]; exact hv
    · by_cases hl : (stringsSplit valueStr ':').length = 2
      · right
        obtain ⟨h0, h1⟩ := h2 hl
        generalize stringsSplit valueStr ':' = arr at hl h0 h1
        match arr, hl with
        | [a, b], _ =>
          have ha : a = "eq" := h0
          have hb : f.Value = b := h1
          rw [ha, hb]
      · left
        exact hn2 hl
  · intro G parseFloat2
    exact parseFilterLoop_text parseFloat parseFloat2 r _ [] [] filters rfl h

/-- C18 on the request staff=eq:50, name=jio: the filter of staff keeps the
string "50" and the number 50, the filter of name keeps its string only. -/
theorem parseFilterParams_ValueFloat_witness :
    parseFilterParams exampleParseFloat exampleStaffRequest =
      .ok [{ AttrName := "staff", Value := "50", ValueFloat := some 50, Operator := store.Eq },
           { AttrName := "name", Value := "jio", ValueFloat := none, Operator := store.Eq }] ∧
    (∀ f ∈ [({ AttrName := "staff", Value := "50", ValueFloat := some 50,
               Operator := store.Eq } : store.Filter Int),
            { AttrName := "name", Value := "jio", ValueFloat := none, Operator := store.Eq }],
      f.ValueFloat = exampleParseFloat f.Value) :=
  ⟨by decide,
   fun f hf => ((parseFilterParams_ValueFloat exampleParseFloat exampleStaffRequest _
      (by decide)).1 f hf).1⟩

/-- C19: the results branch of the pipeline ListCompanies builds is, in this
order, the sort stage (a sort on Sort.AttrName with direction 1 if Ascending and
-1 otherwise, or the no-op skip 0 when Sort is absent), the skip of Skip
documents, and the limit of Limit documents when Limit > 0 (the no-op skip 0
otherwise); skip 0 changes nothing; for a non-negative Skip the branch yields
the sorted documents without the first Skip, cut to the first Limit; the count
branch is the single count stage and holds no sort, skip or limit. -/
theorem ListCompanies_stage_order {F : Type} [Ord F] (q : store.ListQuery F) :
    (queryPipeline q).results =
      [(match q.Sort_ with
        | some s => Stage.sort s.AttrName (if s.Ascending then 1 else -1)
        | none => Stage.skip 0),
       Stage.skip q.Skip,
       (if q.Limit > 0 then Stage.limit q.Limit else Stage.skip 0)] ∧
    (∀ docs : List (Doc F), runStage (Stage.skip 0) docs = .ok docs) ∧
    (0 ≤ q.Skip → ∀ docs : List (Doc F),
      runStages (queryPipeline q).results docs =
        .ok (limitedTo q.Limit ((sortedBy q.Sort_ docs).drop q.Skip.toNat))) ∧
    (queryPipeline q).totalCount = [Stage.count "count"] ∧
    (∀ s ∈ (queryPipeline q).totalCount, ∀ (field : String) (n : Int),
      s ≠ Stage.sort field n ∧ s ≠ Stage.skip n ∧ s ≠ Stage.limit n) := by
  have hskip0 : ∀ docs : List (Doc F), runStage (Stage.skip 0) docs = .ok docs := by
    intro docs
    simp [runStage]
  have hsort : ∀ docs : List (Doc F), runStage (sortQuery q) docs = .ok (sortedBy q.Sort_ docs) := by
    intro docs
    unfold sortQuery sortedBy
    cases hs : q.Sort_ with
    | none => exact hskip0 docs
    | some s =>
      cases ha : s.Ascending <;> simp [runStage, ha]
  have hlimit : ∀ docs : List (Doc F),
      runStage (limitQuery q) docs = .ok (limitedTo q.Limit docs) := by
    intro docs
    unfold limitQuery limitedTo
    by_cases hl : q.Limit > 0
    · have : ¬ q.Limit ≤ 0 := not_le.mpr hl
      simp [runStage, hl, this]
    · simp only [hl, if_false]
      exact hskip0 docs
  refine ⟨?_, hskip0, ?_, rfl, ?_⟩
  · unfold queryPipeline sortQuery limitQuery
    cases hs : q.Sort_ with
    | none => rfl
    | some s => cases ha : s.Ascending <;> simp [ha]
  · intro hnn docs
    have h2 : ∀ d2 : List (Doc F), runStage (Stage.skip q.Skip) d2 = .ok (d2.drop q.Skip.toNat) := by
      intro d2
      have : ¬ q.Skip < 0 := not_lt.mpr hnn
      simp [runStage, this]
    simp only [queryPipeline, runStages, hsort, h2, hlimit]
  · intro s hs field n
    simp only [queryPipeline, List.mem_singleton] at hs
    subst hs
    exact ⟨by simp, by simp, by simp⟩

/-- C19 on the example collection: sorted by name, the second page of one
company is jio. -/
theorem ListCompanies_stage_order_witness :
    0 ≤ exampleSortedQuery.Skip ∧
    runStages (queryPipeline exampleSortedQuery).results exampleCollection =
      .ok [exampleJio] :=
  ⟨by decide,
   ((ListCompanies_stage_order exampleSortedQuery).2.2.1 (by decide) exampleCollection).trans
     (by decide)⟩

/-- C20: IPAPI_GetCountryNameByIP returns the error "missing IP" for the empty
address and the error "Invalid IP" for every non-empty address that is no
well-formed IP, such as 20.188.40.63.0; in both cases the result is the same
whatever building and sending a request would do, so it is reached before any
outbound request. -/
theorem IPAPI_GetCountryNameByIP_rejects_malformed (env : NetEnv) (ip : String) :
    (ip = "" → IPAPI_GetCountryNameByIP env ip = ("", some "missing IP")) ∧
    (ip ≠ "" → env.ParseIP ip = false →
      IPAPI_GetCountryNameByIP env ip = ("", some "Invalid IP")) ∧
    ((ip = "" ∨ env.ParseIP ip = false) →
      (IPAPI_GetCountryNameByIP env ip).2 ≠ none ∧
      ∀ (newRequest : String → GoError) (roundTrip : String → HttpResult),
        IPAPI_GetCountryNameByIP
          { SplitHostPort := env.SplitHostPort, ParseIP := env.ParseIP,
            NewRequest := newRequest, Do := roundTrip } ip =
          IPAPI_GetCountryNameByIP env ip) ∧
    netParseIP (fun _ => false) "20.188.40.63.0" = false ∧
    IPAPI_GetCountryNameByIP (exampleIPv4NetEnv 200 "FR") "20.188.40.63.0" =
      ("", some "Invalid IP") := by
  have h1 : ip = "" → IPAPI_GetCountryNameByIP env ip = ("", some "missing IP") := by
    intro h
    unfold IPAPI_GetCountryNameByIP
    simp [h, errorsNew]
  have h2 : ip ≠ "" → env.ParseIP ip = false →
      IPAPI_GetCountryNameByIP env ip = ("", some "Invalid IP") := by
    intro h hp
    unfold IPAPI_GetCountryNameByIP
    simp [h, hp, errorsNew]
  refine ⟨h1, h2, ?_, by decide, by decide⟩
  intro hbad
  constructor
  · by_cases h0 : ip = ""
    · rw [h1 h0]; simp
    · rcases hbad with h | h
      · exact absurd h h0
      · rw [h2 h0 h]; simp
  · intro newRequest roundTrip
    unfold IPAPI_GetCountryNameByIP
    by_cases h0 : ip = ""
    · simp [h0]
    · rcases hbad with h | h
      · exact absurd h h0
      · simp [h0, h]

/-- C20 on the addresses of the repository's test: 20.188.40.63.0 is rejected
with "Invalid IP", and 20.188.40.63 passes the check and is looked up. -/
theorem IPAPI_GetCountryNameByIP_rejects_malformed_witness :
    (exampleIPv4NetEnv 200 "FR").ParseIP "20.188.40.63.0" = false ∧
    IPAPI_GetCountryNameByIP (exampleIPv4NetEnv 200 "FR") "20.188.40.63.0" =
      ("", some "Invalid IP") ∧
    IPAPI_GetCountryNameByIP (exampleIPv4NetEnv 200 "FR") "20.188.40.63" = ("FR", none) :=
  ⟨by decide,
   (IPAPI_GetCountryNameByIP_rejects_malformed (exampleIPv4NetEnv 200 "FR")
      "20.188.40.63.0").2.1 (by decide) (by decide),
   by decide⟩

theorem Doc_get_append {F : Type} (a b : Doc F) (f : String) :
    Doc.get (a ++ b) f = match Doc.get a f with
      | some v => some v
      | none => Doc.get b f := by
  induction a with
  | nil => rfl
  | cons kv rest ih =>
    obtain ⟨k, v⟩ := kv
    by_cases h : k = f
    · simp [Doc.get, h]
    · show Doc.get ((k, v) :: (rest ++ b)) f = _
      simp only [Doc.get, h, if_false, ih]

theorem Doc_get_marshalField {F : Type} (key tag : String) (v : Value F) (z : Bool)
    (f : String) :
    Doc.get (marshalField key tag v z) f =
      if (parseTags key tag).Name = f then
        (if ((parseTags key tag).OmitEmpty && z) = true then none else some v)
      else none := by
  unfold marshalField
  by_cases hz : ((parseTags key tag).OmitEmpty && z) = true
  · simp [hz, Doc.get]
  · by_cases hn : (parseTags key tag).Name = f
    · simp [hz, hn, Doc.get]
    · simp [hz, hn, Doc.get]

theorem parseTags_company :
    parseTags "id" "_id,omitempty" = { Name := "_id", OmitEmpty := true } ∧
    parseTags "name" "name,omitempty" = { Name := "name", OmitEmpty := true } ∧
    parseTags "code" "code,omitempty" = { Name := "code", OmitEmpty := true } ∧
    parseTags "country" "country,omitempty" = { Name := "country", OmitEmpty := true } ∧
    parseTags "website" "website,omitempty" = { Name := "website", OmitEmpty := true } ∧
    parseTags "phone" "phone,omitmepty" = { Name := "phone", OmitEmpty := false } ∧
    parseTags "createdts" "created_ts,omitempty" = { Name := "created_ts", OmitEmpty := true } ∧
    parseTags "updatedts" "updated_ts,omitempty" = { Name := "updated_ts", OmitEmpty := true } := by
  decide

/-- The fields of the document a company is marshalled to. -/
theorem Company_bson_get {F : Type} (c : model.Company) :
    Doc.get (model.Company.bson c : Doc F) "_id" =
      (if c.ID = "" then none else some (Value.str c.ID)) ∧
    Doc.get (model.Company.bson c : Doc F) "name" =
      (if c.Name = "" then none else some (Value.str c.Name)) ∧
    Doc.get (model.Company.bson c : Doc F) "code" =
      (if c.Code = "" then none else some (Value.str c.Code)) ∧
    Doc.get (model.Company.bson c : Doc F) "country" =
      (if c.Country = "" then none else some (Value.str c.Country)) ∧
    Doc.get (model.Company.bson c : Doc F) "website" =
      (if c.Website = "" then none else some (Value.str c.Website)) ∧
    Doc.get (model.Company.bson c : Doc F) "phone" = some (Value.str c.Phone) ∧
    Doc.get (model.Company.bson c : Doc F) "created_ts" =
      (if c.CreatedTs = 0 then none else some (Value.time c.CreatedTs)) ∧
    Doc.get (model.Company.bson c : Doc F) "updated_ts" =
      (if c.UpdatedTs = 0 then none else some (Value.time c.UpdatedTs)) := by
  obtain ⟨h1, h2, h3, h4, h5, h6, h7, h8⟩ := parseTags_company
  unfold model.Company.bson
  simp only [Doc_get_append, Doc_get_marshalField, h1, h2, h3, h4, h5, h6, h7, h8]
  refine ⟨?_, ?_, ?_, ?_, ?_, ?_, ?_, ?_⟩
  · by_cases h : c.ID = "" <;> simp [h]
  · by_cases h : c.Name = "" <;> simp [h]
  · by_cases h : c.Code = "" <;> simp [h]
  · by_cases h : c.Country = "" <;> simp [h]
  · by_cases h : c.Website = "" <;> simp [h]
  · simp
  · by_cases h : c.CreatedTs = 0 <;> simp [h]
  · by_cases h : c.UpdatedTs = 0 <;> simp [h]

/-- Decoding the document a company is marshalled to gives the company back. -/
theorem decodeCompany_bson {F : Type} (c : model.Company) :
    decodeCompany (model.Company.bson c : Doc F) = some c := by
  obtain ⟨h1, h2, h3, h4, h5, h6, h7, h8⟩ := @Company_bson_get F c
  have e1 : decodeString (model.Company.bson c : Doc F) "_id" = some c.ID := by
    unfold decodeString; rw [h1]; by_cases h : c.ID = "" <;> simp [h]
  have e2 : decodeString (model.Company.bson c : Doc F) "name" = some c.Name := by
    unfold decodeString; rw [h2]; by_cases h : c.Name = "" <;> simp [h]
  have e3 : decodeString (model.Company.bson c : Doc F) "code" = some c.Code := by
    unfold decodeString; rw [h3]; by_cases h : c.Code = "" <;> simp [h]
  have e4 : decodeString (model.Company.bson c : Doc F) "country" = some c.Country := by
    unfold decodeString; rw [h4]; by_cases h : c.Country = "" <;> simp [h]
  have e5 : decodeString (model.Company.bson c : Doc F) "website" = some c.Website := by
    unfold decodeString; rw [h5]; by_cases h : c.Website = "" <;> simp [h]
  have e6 : decodeString (model.Company.bson c : Doc F) "phone" = some c.Phone := by
    unfold decodeString; rw [h6]
  have e7 : decodeTime (model.Company.bson c : Doc F) "created_ts" = some c.CreatedTs := by
    unfold decodeTime; rw [h7]; by_cases h : c.CreatedTs = 0 <;> simp [h]
  have e8 : decodeTime (model.Company.bson c : Doc F) "updated_ts" = some c.UpdatedTs := by
    unfold decodeTime; rw [h8]; by_cases h : c.UpdatedTs = 0 <;> simp [h]
  unfold decodeCompany
  rw [e1, e2, e3, e4, e5, e6, e7, e8]

theorem tails_any_mid (pre sub post : List Char) :
    (pre ++ (sub ++ post)).tails.any (fun t => sub.isPrefixOf t) = true := by
  rw [List.any_eq_true]
  refine ⟨sub ++ post, ?_, ?_⟩
  · rw [List.mem_tails]
    exact List.suffix_append pre (sub ++ post)
  · rw [List.isPrefixOf_iff_prefix]
    exact List.prefix_append sub post

theorem stringsContains_mid (pre sub post : String) :
    stringsContains (pre ++ sub ++ post) sub = true := by
  unfold stringsContains
  have h : (pre ++ sub ++ post).toList = pre.toList ++ (sub.toList ++ post.toList) := by
    simp [String.toList, String.data_append]
  rw [h]
  exact tails_any_mid _ _ _

theorem Hex_length (id : primitive.ObjectID) : id.Hex.length = 24 := by
  have h : ∀ l : List Nat,
      (l.flatMap (fun b => [hexDigit (b / 16 % 16), hexDigit (b % 16)])).length = 2 * l.length := by
    intro l
    induction l with
    | nil => rfl
    | cons b rest ih =>
      simp only [List.flatMap_cons, List.length_append, List.length_cons, List.length_nil, ih]
      omega
  unfold primitive.ObjectID.Hex
  rw [String.length_mk, h, id.size]

theorem Hex_ne_empty (id : primitive.ObjectID) : id.Hex ≠ "" := by
  intro h
  have := Hex_length id
  rw [h] at this
  exact absurd this (by decide)

theorem stamped_ID_ne_empty (oid : primitive.ObjectID) (now : Int) (comp : model.Company) :
    (stamped oid now comp).ID ≠ "" := by
  unfold stamped
  by_cases h : comp.ID = ""
  · simp only [h, if_true]
    exact Hex_ne_empty oid
  · simp only [h, if_false]
    exact h

theorem stamped_keys {F : Type} (oid : primitive.ObjectID) (now : Int) (comp : model.Company) :
    Doc.get (model.Company.bson (stamped oid now comp) : Doc F) "_id" =
      some (Value.str (stamped oid now comp).ID) ∧
    Doc.get (model.Company.bson (stamped oid now comp) : Doc F) mongo.Name =
      nameKey comp.Name := by
  obtain ⟨h1, h2, -⟩ := @Company_bson_get F (stamped oid now comp)
  refine ⟨?_, ?_⟩
  · rw [h1, if_neg (stamped_ID_ne_empty oid now comp)]
  · exact h2

theorem duplicateKey_id {F : Type} [DecidableEq F] (coll : List (Doc F)) (doc : Doc F)
    (v : Value F) (h : Doc.get doc "_id" = some v) :
    duplicateKey coll "_id" doc = true ↔ ∃ d ∈ coll, Doc.get d "_id" = some v := by
  unfold duplicateKey
  simp [h]

theorem duplicateKey_name {F : Type} [DecidableEq F] (coll : List (Doc F)) (doc : Doc F) :
    duplicateKey coll mongo.Name doc = true ↔
      ∃ d ∈ coll, Doc.get d mongo.Name = Doc.get doc mongo.Name := by
  unfold duplicateKey
  have : mongo.Name ≠ "_id" := by decide
  simp [this]

theorem stamped_eq (oid : primitive.ObjectID) (now : Int) (comp : model.Company) :
    ({ (if comp.ID = "" then { comp with ID := oid.Hex } else comp) with
        CreatedTs := now, UpdatedTs := now } : model.Company) = stamped oid now comp := by
  unfold stamped
  by_cases h : comp.ID = ""
  · simp only [h, if_true]
  · simp only [h, if_false]

theorem stamped_ID_eq (oid : primitive.ObjectID) (now : Int) (comp : model.Company) :
    (if comp.ID = "" then { comp with ID := oid.Hex } else comp : model.Company).ID =
      (stamped oid now comp).ID := by
  unfold stamped
  by_cases h : comp.ID = ""
  · simp only [h, if_true]
  · simp only [h, if_false]

theorem CreateCompany_insert_ok {F : Type} [DecidableEq F] (oid : primitive.ObjectID)
    (now : Int) (coll coll2 : List (Doc F)) (comp : model.Company)
    (hidx : MongoStore.CreateIndex coll mongo.Name true = none)
    (hins : InsertOne coll [mongo.Name] (model.Company.bson (stamped oid now comp)) =
      (coll2, none)) :
    MongoStore.CreateCompany oid now coll comp = (coll2, (stamped oid now comp).ID, none) := by
  unfold MongoStore.CreateCompany
  rw [hidx]
  simp only [stamped_eq, hins]
  rw [stamped_ID_eq oid now comp]

theorem CreateCompany_insert_error {F : Type} [DecidableEq F] (oid : primitive.ObjectID)
    (now : Int) (coll coll2 : List (Doc F)) (comp : model.Company) (e : String)
    (hidx : MongoStore.CreateIndex coll mongo.Name true = none)
    (hins : InsertOne coll [mongo.Name] (model.Company.bson (stamped oid now comp)) =
      (coll2, some e)) :
    MongoStore.CreateCompany oid now coll comp =
      if stringsContains e "duplicate key error" then
        (coll2, "", some store.Error.ErrCompanyExists)
      else (coll2, "", some (store.Error.other e)) := by
  unfold MongoStore.CreateCompany
  rw [hidx]
  simp only [stamped_eq, hins]

/-- The three outcomes of CreateCompany on a collection. -/
theorem CreateCompany_index_error {F : Type} [DecidableEq F] (oid : primitive.ObjectID)
    (now : Int) (coll : List (Doc F)) (comp : model.Company)
    (h : ¬ (coll.map (fun d => Doc.get d mongo.Name)).Nodup) :
    MongoStore.CreateCompany oid now coll comp =
      (coll, "", some (store.Error.other
        ("Index build failed: E11000 duplicate key error collection: xm.companies index: " ++
          mongo.Name ++ "_1"))) := by
  unfold MongoStore.CreateCompany MongoStore.CreateIndex
  simp [h]

theorem CreateCompany_duplicate {F : Type} [DecidableEq F] (oid : primitive.ObjectID)
    (now : Int) (coll : List (Doc F)) (comp : model.Company)
    (h : (coll.map (fun d => Doc.get d mongo.Name)).Nodup)
    (hdup : (∃ d ∈ coll, Doc.get d "_id" = some (Value.str (stamped oid now comp).ID)) ∨
      (∃ d ∈ coll, Doc.get d mongo.Name = nameKey comp.Name)) :
    MongoStore.CreateCompany oid now coll comp = (coll, "", some store.Error.ErrCompanyExists) := by
  obtain ⟨hk1, hk2⟩ := @stamped_keys F oid now comp
  have hidx : MongoStore.CreateIndex coll mongo.Name true = none := by
    unfold MongoStore.CreateIndex
    simp [h]
  have hfind : ∃ f, ("_id" :: [mongo.Name]).find?
      (fun f => duplicateKey coll f (model.Company.bson (stamped oid now comp))) = some f := by
    rcases hdup with hd | hd
    · exact ⟨"_id", by
        simp only [List.find?, (duplicateKey_id coll _ _ hk1).mpr hd]⟩
    · have h2 : duplicateKey coll mongo.Name (model.Company.bson (stamped oid now comp)) = true := by
        rw [duplicateKey_name, hk2]; exact hd
      cases h1 : duplicateKey coll "_id" (model.Company.bson (stamped oid now comp)) with
      | true => exact ⟨"_id", by simp only [List.find?, h1]⟩
      | false => exact ⟨mongo.Name, by simp only [List.find?, h1, h2]⟩
  obtain ⟨f, hf⟩ := hfind
  have hins : InsertOne coll [mongo.Name] (model.Company.bson (stamped oid now comp)) =
      (coll, some ("write exception: write errors: [E11000 " ++ "duplicate key error" ++
        " collection: xm.companies index: " ++ indexName f ++ "]")) := by
    unfold InsertOne
    rw [hf]
  have hc : stringsContains ("write exception: write errors: [E11000 " ++ "duplicate key error" ++
        " collection: xm.companies index: " ++ indexName f ++ "]") "duplicate key error" = true := by
    have := stringsContains_mid "write exception: write errors: [E11000 " "duplicate key error"
      (" collection: xm.companies index: " ++ indexName f ++ "]")
    simpa [String.append_assoc] using this
  rw [CreateCompany_insert_error oid now coll coll comp _ hidx hins, if_pos hc]

theorem CreateCompany_inserted {F : Type} [DecidableEq F] (oid : primitive.ObjectID)
    (now : Int) (coll : List (Doc F)) (comp : model.Company)
    (h : (coll.map (fun d => Doc.get d mongo.Name)).Nodup)
    (hid : ∀ d ∈ coll, Doc.get d "_id" ≠ some (Value.str (stamped oid now comp).ID))
    (hname : ∀ d ∈ coll, Doc.get d mongo.Name ≠ nameKey comp.Name) :
    MongoStore.CreateCompany oid now coll comp =
      (coll ++ [model.Company.bson (stamped oid now comp)], (stamped oid now comp).ID, none) := by
  obtain ⟨hk1, hk2⟩ := @stamped_keys F oid now comp
  have hidx : MongoStore.CreateIndex coll mongo.Name true = none := by
    unfold MongoStore.CreateIndex
    simp [h]
  have h1 : duplicateKey coll "_id" (model.Company.bson (stamped oid now comp)) = false := by
    rw [Bool.eq_false_iff]
    intro hd
    obtain ⟨d, hd1, hd2⟩ := (duplicateKey_id coll _ _ hk1).mp hd
    exact hid d hd1 hd2
  have h2 : duplicateKey coll mongo.Name (model.Company.bson (stamped oid now comp)) = false := by
    rw [Bool.eq_false_iff]
    intro hd
    obtain ⟨d, hd1, hd2⟩ := (duplicateKey_name coll _).mp hd
    rw [hk2] at hd2
    exact hname d hd1 hd2
  have hins : InsertOne coll [mongo.Name] (model.Company.bson (stamped oid now comp)) =
      (coll ++ [model.Company.bson (stamped oid now comp)], none) := by
    unfold InsertOne
    simp only [List.find?, h1, h2]
  exact CreateCompany_insert_ok oid now coll _ comp hidx hins

/-- A successful CreateCompany: the index could be built and no stored document
has the id or the name. -/
theorem CreateCompany_success {F : Type} [DecidableEq F] (oid : primitive.ObjectID)
    (now : Int) (coll : List (Doc F)) (comp : model.Company)
    (h : (MongoStore.CreateCompany oid now coll comp).2.2 = none) :
    (coll.map (fun d => Doc.get d mongo.Name)).Nodup ∧
    (∀ d ∈ coll, Doc.get d "_id" ≠ some (Value.str (stamped oid now comp).ID)) ∧
    (∀ d ∈ coll, Doc.get d mongo.Name ≠ nameKey comp.Name) ∧
    MongoStore.CreateCompany oid now coll comp =
      (coll ++ [model.Company.bson (stamped oid now comp)], (stamped oid now comp).ID, none) := by
  by_cases hn : (coll.map (fun d => Doc.get d mongo.Name)).Nodup
  · by_cases hdup : (∃ d ∈ coll, Doc.get d "_id" = some (Value.str (stamped oid now comp).ID)) ∨
        (∃ d ∈ coll, Doc.get d mongo.Name = nameKey comp.Name)
    · rw [CreateCompany_duplicate oid now coll comp hn hdup] at h
      simp at h
    · push_neg at hdup
      exact ⟨hn, hdup.1, hdup.2, CreateCompany_inserted oid now coll comp hn hdup.1 hdup.2⟩
  · rw [CreateCompany_index_error oid now coll comp hn] at h
    simp at h

theorem FindOne_none {F : Type} [DecidableEq F] (coll : List (Doc F)) (id : String) :
    FindOne coll id = none ↔ ∀ d ∈ coll, Doc.get d "_id" ≠ some (Value.str id) := by
  unfold FindOne
  simp [List.find?_eq_none]

theorem FindOne_some {F : Type} [DecidableEq F] {coll : List (Doc F)} {id : String} {d : Doc F}
    (h : FindOne coll id = some d) : d ∈ coll ∧ Doc.get d "_id" = some (Value.str id) := by
  unfold FindOne at h
  exact ⟨List.mem_of_find?_eq_some h, by simpa using List.find?_some h⟩

theorem FindOne_of_mem {F : Type} [DecidableEq F] {coll : List (Doc F)} {id : String}
    {d : Doc F} (hd : d ∈ coll) (hid : Doc.get d "_id" = some (Value.str id)) :
    ∃ d0, FindOne coll id = some d0 := by
  cases h : FindOne coll id with
  | some d0 => exact ⟨d0, rfl⟩
  | none => exact absurd hid ((FindOne_none coll id).mp h d hd)

theorem FindOne_append_new {F : Type} [DecidableEq F] (coll : List (Doc F)) (id : String)
    (doc : Doc F) (h : ∀ d ∈ coll, Doc.get d "_id" ≠ some (Value.str id))
    (hdoc : Doc.get doc "_id" = some (Value.str id)) :
    FindOne (coll ++ [doc]) id = some doc := by
  have hn := (FindOne_none coll id).mpr h
  unfold FindOne at hn ⊢
  rw [List.find?_append, hn]
  simp [List.find?, hdoc]

theorem DeleteOne_no_match {F : Type} [DecidableEq F] (coll : List (Doc F)) (id : String)
    (h : ∀ d ∈ coll, Doc.get d "_id" ≠ some (Value.str id)) :
    DeleteOne coll id = (coll, 0) := by
  induction coll with
  | nil => rfl
  | cons d rest ih =>
    have hd := h d (List.mem_cons_self d rest)
    have hr := ih (fun x hx => h x (List.mem_cons_of_mem d hx))
    unfold DeleteOne
    rw [if_neg hd, hr]

theorem DeleteOne_match {F : Type} [DecidableEq F] (coll : List (Doc F)) (id : String)
    (d : Doc F) (h : FindOne coll id = some d) :
    DeleteOne coll id = (coll.erase d, 1) := by
  induction coll with
  | nil => simp [FindOne] at h
  | cons x rest ih =>
    unfold DeleteOne
    by_cases hx : Doc.get x "_id" = some (Value.str id)
    · have hxd : x = d := by
        unfold FindOne at h
        simp only [List.find?, hx, decide_True, Option.some.injEq] at h
        exact h
      subst hxd
      rw [if_pos hx, List.erase_cons_head]
    · have hrest : FindOne rest id = some d := by
        unfold FindOne at h ⊢
        simpa only [List.find?, hx, decide_False] using h
      have hne : x ≠ d := by
        intro e
        subst e
        exact hx (FindOne_some hrest).2
      rw [if_neg hx, ih hrest, List.erase_cons_tail (by simpa using hne)]

theorem erase_no_match {F : Type} [DecidableEq F] (coll : List (Doc F)) (id : String)
    (d : Doc F) (hn : (coll.map (fun x => Doc.get x "_id")).Nodup)
    (hd : d ∈ coll) (hid : Doc.get d "_id" = some (Value.str id)) :
    ∀ x ∈ coll.erase d, Doc.get x "_id" ≠ some (Value.str id) := by
  induction coll with
  | nil => simp at hd
  | cons y rest ih =>
    rw [List.map_cons, List.nodup_cons] at hn
    intro x hx
    by_cases hy : y = d
    · subst hy
      rw [List.erase_cons_head] at hx
      intro hxid
      apply hn.1
      rw [List.mem_map]
      exact ⟨x, hx, by rw [hxid, hid]⟩
    · rw [List.erase_cons_tail (by simpa using hy), List.mem_cons] at hx
      have hdr : d ∈ rest := by
        rcases List.mem_cons.mp hd with h | h
        · exact absurd h.symm hy
        · exact h
      rcases hx with hx | hx
      · subst hx
        intro hxid
        apply hn.1
        rw [List.mem_map]
        exact ⟨d, hdr, by rw [hxid, hid]⟩
      · exact ih hn.2 hdr x hx

theorem Doc_get_set {F : Type} (d : Doc F) (f g : String) (v : Value F) :
    Doc.get (Doc.set d f v) g = if f = g then some v else Doc.get d g := by
  induction d with
  | nil =>
    by_cases h : f = g <;> simp [Doc.set, Doc.get, h]
  | cons kv rest ih =>
    obtain ⟨k, old⟩ := kv
    unfold Doc.set
    by_cases hk : k = f
    · subst hk
      by_cases h : k = g <;> simp [Doc.get, h]
    · by_cases hg : k = g
      · have hfg : ¬ f = g := fun e => hk (hg.trans e.symm)
        have hgf : ¬ g = f := fun e => hfg e.symm
        subst hg
        simp [Doc.get, hfg, hgf]
      · simp only [hk, if_false, Doc.get, hg, ih]

theorem UpdateOne_no_match {F : Type} [DecidableEq F] (coll : List (Doc F)) (id : String)
    (fields : Doc F) (h : ∀ d ∈ coll, Doc.get d "_id" ≠ some (Value.str id)) :
    UpdateOne coll id fields = (coll, 0) := by
  induction coll with
  | nil => rfl
  | cons d rest ih =>
    have hd := h d (List.mem_cons_self d rest)
    have hr := ih (fun x hx => h x (List.mem_cons_of_mem d hx))
    unfold UpdateOne
    rw [if_neg hd, hr]

theorem UpdateOne_match {F : Type} [DecidableEq F] (coll : List (Doc F)) (id : String)
    (fields : Doc F) (d : Doc F) (h : FindOne coll id = some d)
    (hkeep : Doc.get (applySet d fields) "_id" = Doc.get d "_id") :
    (UpdateOne coll id fields).2 = 1 ∧
    (UpdateOne coll id fields).1.length = coll.length ∧
    FindOne (UpdateOne coll id fields).1 id = some (applySet d fields) := by
  induction coll with
  | nil => simp [FindOne] at h
  | cons x rest ih =>
    unfold UpdateOne
    by_cases hx : Doc.get x "_id" = some (Value.str id)
    · have hxd : x = d := by
        unfold FindOne at h
        simp only [List.find?, hx, decide_True, Option.some.injEq] at h
        exact h
      subst hxd
      rw [if_pos hx]
      refine ⟨rfl, rfl, ?_⟩
      unfold FindOne
      simp only [List.find?, hkeep, hx, decide_True]
    · have hrest : FindOne rest id = some d := by
        unfold FindOne at h ⊢
        simpa only [List.find?, hx, decide_False] using h
      obtain ⟨h1, h2, h3⟩ := ih hrest
      rw [if_neg hx]
      refine ⟨h1, by simp only [List.length_cons, h2], ?_⟩
      unfold FindOne at h3 ⊢
      simp only [List.find?, hx, decide_False, h3]

/-- C21: on every collection on which the unique index on name can be built,
creating a company whose name is the name of a stored document (the same value
of the field name, which for a non-empty name is the same decoded name) fails
with ErrCompanyExists and leaves the collection as it was; a failed create
inserts nothing in any state; and after a successful create a second create
with the same name, whatever its id and time, fails with ErrCompanyExists, the
collection holds exactly one document with that name, and the index can still
be built. -/
theorem CreateCompany_unique_name {F : Type} [DecidableEq F]
    (oid oid2 : primitive.ObjectID) (now now2 : Int) (coll : List (Doc F))
    (comp comp2 : model.Company) :
    (∀ c : model.Company, Doc.get (model.Company.bson c : Doc F) mongo.Name = nameKey c.Name) ∧
    (comp.Name ≠ "" → ∀ d : Doc F,
      (decodeString d mongo.Name = some comp.Name ↔ Doc.get d mongo.Name = nameKey comp.Name)) ∧
    ((coll.map (fun d => Doc.get d mongo.Name)).Nodup →
      (∃ d ∈ coll, Doc.get d mongo.Name = nameKey comp.Name) →
      MongoStore.CreateCompany oid now coll comp =
        (coll, "", some store.Error.ErrCompanyExists)) ∧
    ((MongoStore.CreateCompany oid now coll comp).2.2 ≠ none →
      (MongoStore.CreateCompany oid now coll comp).1 = coll) ∧
    ((MongoStore.CreateCompany oid now coll comp).2.2 = none → comp2.Name = comp.Name →
      MongoStore.CreateCompany oid2 now2 (MongoStore.CreateCompany oid now coll comp).1 comp2 =
        ((MongoStore.CreateCompany oid now coll comp).1, "",
          some store.Error.ErrCompanyExists) ∧
      ((MongoStore.CreateCompany oid now coll comp).1.filter
        (fun d => decide (Doc.get d mongo.Name = nameKey comp.Name))).length = 1 ∧
      ((MongoStore.CreateCompany oid now coll comp).1.map
        (fun d => Doc.get d mongo.Name)).Nodup) := by
  refine ⟨?_, ?_, ?_, ?_, ?_⟩
  · intro c
    exact (@Company_bson_get F c).2.1
  · intro hne d
    unfold decodeString nameKey
    rw [if_neg hne]
    cases hg : Doc.get d mongo.Name with
    | none =>
      simp only [Option.some.injEq]
      constructor
      · intro h; exact absurd h.symm hne
      · intro h; simp at h
    | some v =>
      cases v with
      | str s => simp
      | num x => simp
      | time t => simp
  · intro hidx hex
    exact CreateCompany_duplicate oid now coll comp hidx (Or.inr hex)
  · intro herr
    by_cases hn : (coll.map (fun d => Doc.get d mongo.Name)).Nodup
    · by_cases hdup :
          (∃ d ∈ coll, Doc.get d "_id" = some (Value.str (stamped oid now comp).ID)) ∨
          (∃ d ∈ coll, Doc.get d mongo.Name = nameKey comp.Name)
      · rw [CreateCompany_duplicate oid now coll comp hn hdup]
      · push_neg at hdup
        rw [CreateCompany_inserted oid now coll comp hn hdup.1 hdup.2] at herr
        exact absurd rfl herr
    · rw [CreateCompany_index_error oid now coll comp hn]
  · intro hok hname
    obtain ⟨hn, -, hnew, heq⟩ := CreateCompany_success oid now coll comp hok
    have hkey : Doc.get (model.Company.bson (stamped oid now comp) : Doc F) mongo.Name =
        nameKey comp.Name := (@stamped_keys F oid now comp).2
    have hn2 : ((coll ++ [model.Company.bson (stamped oid now comp)]).map
        (fun d => Doc.get d mongo.Name)).Nodup := by
      rw [List.map_append, List.map_cons, List.map_nil, List.nodup_append]
      refine ⟨hn, List.nodup_singleton _, ?_⟩
      intro k hk1 hk2
      rw [List.mem_singleton] at hk2
      rw [List.mem_map] at hk1
      obtain ⟨d, hd, hdk⟩ := hk1
      rw [hk2, hkey] at hdk
      exact hnew d hd hdk
    rw [heq]
    refine ⟨?_, ?_, hn2⟩
    · apply CreateCompany_duplicate
      · exact hn2
      · right
        exact ⟨_, List.mem_append_right _ (List.mem_singleton_self _), by rw [hkey, hname]⟩
    · have h0 : coll.filter (fun d => decide (Doc.get d mongo.Name = nameKey comp.Name)) = [] := by
        rw [List.filter_eq_nil_iff]
        intro d hd
        simpa using hnew d hd
      rw [List.filter_append, h0]
      simp [List.filter, hkey]

/-- C21 on a collection that holds Airtel: a second Airtel with another id is
refused and nothing is inserted; and after a first create on the empty
collection a second one leaves one document named Airtel. -/
theorem CreateCompany_unique_name_witness :
    ([exampleStoredAirtel].map (fun d => Doc.get d mongo.Name)).Nodup ∧
    MongoStore.CreateCompany exampleObjectID 3000 [exampleStoredAirtel]
        { exampleCompany with ID := "" } =
      ([exampleStoredAirtel], "", some store.Error.ErrCompanyExists) ∧
    (MongoStore.CreateCompany exampleObjectID 3000 ([] : List (Doc Int)) exampleCompany).2.2 =
      none ∧
    ((MongoStore.CreateCompany exampleObjectID 3000 ([] : List (Doc Int)) exampleCompany).1.filter
      (fun d => decide (Doc.get d mongo.Name = nameKey exampleCompany.Name))).length = 1 :=
  ⟨by decide,
   (CreateCompany_unique_name exampleObjectID exampleObjectID 3000 3000 [exampleStoredAirtel]
      { exampleCompany with ID := "" } exampleCompany).2.2.1 (by decide)
      ⟨exampleStoredAirtel, List.mem_singleton_self _, by decide⟩,
   by decide,
   ((CreateCompany_unique_name exampleObjectID exampleObjectID 3000 4000 ([] : List (Doc Int))
      exampleCompany { exampleCompany with ID := "" }).2.2.2.2 (by decide) rfl).2.1⟩

/-- C22: for every collection and id, DeleteCompany on an id that no document
has returns ErrCompanyNotFound and leaves the collection as it was; on an id
that a document has it removes that document (the first one with the id) and
returns no error; and as ids are unique in a collection, deleting the same id
twice succeeds the first time and fails with ErrCompanyNotFound the second
time, the second call changing nothing. -/
theorem DeleteCompany_by_id {F : Type} [DecidableEq F] (coll : List (Doc F)) (id : String) :
    ((∀ d ∈ coll, Doc.get d "_id" ≠ some (Value.str id)) →
      MongoStore.DeleteCompany coll id = (coll, some store.Error.ErrCompanyNotFound)) ∧
    ((∃ d ∈ coll, Doc.get d "_id" = some (Value.str id)) →
      ∃ d ∈ coll, Doc.get d "_id" = some (Value.str id) ∧
        MongoStore.DeleteCompany coll id = (coll.erase d, none) ∧
        (coll.erase d).length + 1 = coll.length) ∧
    ((coll.map (fun d => Doc.get d "_id")).Nodup →
      (∃ d ∈ coll, Doc.get d "_id" = some (Value.str id)) →
      (MongoStore.DeleteCompany coll id).2 = none ∧
      MongoStore.DeleteCompany (MongoStore.DeleteCompany coll id).1 id =
        ((MongoStore.DeleteCompany coll id).1, some store.Error.ErrCompanyNotFound)) := by
  have hnone : ∀ c : List (Doc F), (∀ d ∈ c, Doc.get d "_id" ≠ some (Value.str id)) →
      MongoStore.DeleteCompany c id = (c, some store.Error.ErrCompanyNotFound) := by
    intro c h
    unfold MongoStore.DeleteCompany
    simp only [DeleteOne_no_match c id h]
    rfl
  have hsome : ∀ d, FindOne coll id = some d →
      MongoStore.DeleteCompany coll id = (coll.erase d, none) := by
    intro d h
    unfold MongoStore.DeleteCompany
    simp only [DeleteOne_match coll id d h]
    rfl
  refine ⟨hnone coll, ?_, ?_⟩
  · rintro ⟨d, hd, hid⟩
    obtain ⟨d0, hd0⟩ := FindOne_of_mem hd hid
    obtain ⟨hm, hi⟩ := FindOne_some hd0
    refine ⟨d0, hm, hi, hsome d0 hd0, ?_⟩
    rw [List.length_erase_of_mem hm]
    have : 0 < coll.length := List.length_pos_of_mem hm
    omega
  · rintro hn ⟨d, hd, hid⟩
    obtain ⟨d0, hd0⟩ := FindOne_of_mem hd hid
    obtain ⟨hm, hi⟩ := FindOne_some hd0
    rw [hsome d0 hd0]
    exact ⟨rfl, hnone _ (erase_no_match coll id d0 hn hm hi)⟩

/-- C22 on the example collection: the first delete of 12345689 removes jio, the
second one fails. -/
theorem DeleteCompany_by_id_witness :
    (exampleCollection.map (fun d => Doc.get d "_id")).Nodup ∧
    MongoStore.DeleteCompany exampleCollection "12345689" =
      ([exampleAirtel, exampleVodafone], none) ∧
    MongoStore.DeleteCompany [exampleAirtel, exampleVodafone] "12345689" =
      ([exampleAirtel, exampleVodafone], some store.Error.ErrCompanyNotFound) :=
  ⟨by decide, by decide,
   (by decide : (MongoStore.DeleteCompany exampleCollection "12345689").1 =
      [exampleAirtel, exampleVodafone]) ▸
    ((DeleteCompany_by_id exampleCollection "12345689").2.2 (by decide)
      ⟨exampleJio, by decide, by decide⟩).2⟩

theorem CompanyUpdate_bson_full {F : Type} (cu : model.CompanyUpdate) (now : Int)
    (hw : cu.Website ≠ "") :
    (model.CompanyUpdate.bson { cu with UpdatedTs := now } : Doc F) =
      [("website", Value.str cu.Website), ("phone", Value.str cu.Phone)] ++
        (if now = 0 then [] else [("updated_ts", Value.time now)]) := by
  have h1 : (parseTags "website" "website,omitempty") =
      { Name := "website", OmitEmpty := true } := by decide
  have h2 : (parseTags "phone" "phone,omitmepty") = { Name := "phone", OmitEmpty := false } := by
    decide
  have h3 : (parseTags "updatedts" "updated_ts,omitempty") =
      { Name := "updated_ts", OmitEmpty := true } := by decide
  unfold model.CompanyUpdate.bson marshalField
  rw [h1, h2, h3]
  by_cases ht : now = 0 <;> simp [hw, ht]

theorem decodeCompany_some {F : Type} {d : Doc F} {c : model.Company}
    (h : decodeCompany d = some c) :
    decodeString d "_id" = some c.ID ∧ decodeString d "name" = some c.Name ∧
    decodeString d "code" = some c.Code ∧ decodeString d "country" = some c.Country ∧
    decodeString d "website" = some c.Website ∧ decodeString d "phone" = some c.Phone ∧
    decodeTime d "created_ts" = some c.CreatedTs ∧
    decodeTime d "updated_ts" = some c.UpdatedTs := by
  unfold decodeCompany at h
  split at h
  · rename_i h1 h2 h3 h4 h5 h6 h7 h8
    simp only [Option.some.injEq] at h
    subst h
    exact ⟨h1, h2, h3, h4, h5, h6, h7, h8⟩
  · simp at h

theorem decodeCompany_of_fields {F : Type} {d : Doc F} {c : model.Company}
    (h1 : decodeString d "_id" = some c.ID) (h2 : decodeString d "name" = some c.Name)
    (h3 : decodeString d "code" = some c.Code) (h4 : decodeString d "country" = some c.Country)
    (h5 : decodeString d "website" = some c.Website) (h6 : decodeString d "phone" = some c.Phone)
    (h7 : decodeTime d "created_ts" = some c.CreatedTs)
    (h8 : decodeTime d "updated_ts" = some c.UpdatedTs) :
    decodeCompany d = some c := by
  unfold decodeCompany
  rw [h1, h2, h3, h4, h5, h6, h7, h8]

/-- The document after a full patch: its id is kept and it decodes to the
company with the website and the phone of the patch. -/
theorem applySet_patch {F : Type} (d : Doc F) (cu : model.CompanyUpdate) (now : Int)
    (c : model.Company) (hw : cu.Website ≠ "") (hc : decodeCompany d = some c) :
    Doc.get (applySet d (model.CompanyUpdate.bson { cu with UpdatedTs := now })) "_id" =
      Doc.get d "_id" ∧
    decodeCompany (applySet d (model.CompanyUpdate.bson { cu with UpdatedTs := now })) =
      some { c with Website := cu.Website, Phone := cu.Phone,
                    UpdatedTs := if now = 0 then c.UpdatedTs else now } := by
  obtain ⟨h1, h2, h3, h4, h5, h6, h7, h8⟩ := decodeCompany_some hc
  rw [CompanyUpdate_bson_full cu now hw]
  by_cases ht : now = 0
  · simp only [ht, if_true, List.append_nil, applySet, List.foldl]
    refine ⟨by simp [Doc_get_set], ?_⟩
    apply decodeCompany_of_fields
    all_goals (simp only [decodeString, decodeTime, Doc_get_set] at *; simp [*])
  · simp only [ht, if_false, applySet, List.foldl, List.cons_append, List.nil_append]
    refine ⟨by simp [Doc_get_set], ?_⟩
    apply decodeCompany_of_fields
    all_goals (simp only [decodeString, decodeTime, Doc_get_set] at *; simp [*])

theorem GetCompany_some {F : Type} [DecidableEq F] {coll : List (Doc F)} {id : String}
    {c : model.Company} (h : MongoStore.GetCompany coll id = (some c, none)) :
    ∃ d, FindOne coll id = some d ∧ decodeCompany d = some c := by
  unfold MongoStore.GetCompany at h
  cases hf : FindOne coll id with
  | none => simp [hf] at h
  | some d =>
    cases hd : decodeCompany d with
    | none => simp [hf, hd] at h
    | some c2 =>
      simp only [hf, hd, Prod.mk.injEq, Option.some.injEq, and_true] at h
      exact ⟨d, rfl, by rw [← h]; exact hd⟩

theorem GetCompany_of_find {F : Type} [DecidableEq F] {coll : List (Doc F)} {id : String}
    {d : Doc F} {c : model.Company} (hf : FindOne coll id = some d)
    (hd : decodeCompany d = some c) : MongoStore.GetCompany coll id = (some c, none) := by
  unfold MongoStore.GetCompany
  simp only [hf, hd]

theorem UpdateCompanyHandler_store (decode : String → Except String model.CompanyUpdate)
    (rules : ValidationRules) (app : String → model.CompanyUpdate → Option store.Error)
    (r : Request) (body : String) (cu : model.CompanyUpdate)
    (hne : ParsePathParamId r ≠ "") (hbody : parseCompanyUpdate decode rules body = .ok cu) :
    (app (ParsePathParamId r) cu = some store.Error.ErrCompanyNotFound →
      UpdateCompanyHandler decode rules app r body =
        { StatusCode := 400, Payload := .text "company not found",
          AppCalls := [.UpdateCompany (ParsePathParamId r) cu] }) ∧
    (app (ParsePathParamId r) cu = none →
      UpdateCompanyHandler decode rules app r body =
        { StatusCode := 202, Payload := .empty,
          AppCalls := [.UpdateCompany (ParsePathParamId r) cu] }) := by
  constructor
  · intro h
    unfold UpdateCompanyHandler
    simp only [hne, if_false, hbody, h]
    rfl
  · intro h
    unfold UpdateCompanyHandler
    simp only [hne, if_false, hbody, h]

/-- C23: UpdateCompany on an id that no document has returns ErrCompanyNotFound
and leaves the collection as it was, and UpdateCompanyHandler, which takes no
part of the geo gate, answers 400 with the text of that error; on an id whose
company GetCompany returns, with a patch carrying a non-empty website and
phone, UpdateCompany returns no error, a following GetCompany of the id returns
the same company with the website and the phone of the patch (id, name,
country, code and creation time unchanged, the update time set to the time of
the call), and the handler answers 202. -/
theorem UpdateCompany_then_GetCompany {F : Type} [DecidableEq F] (now : Int)
    (coll : List (Doc F)) (cu : model.CompanyUpdate)
    (decode : String → Except String model.CompanyUpdate) (rules : ValidationRules)
    (r : Request) (body : String)
    (hne : ParsePathParamId r ≠ "") (hbody : parseCompanyUpdate decode rules body = .ok cu) :
    ((∀ d ∈ coll, Doc.get d "_id" ≠ some (Value.str (ParsePathParamId r))) →
      MongoStore.UpdateCompany now coll (ParsePathParamId r) cu =
        (coll, some store.Error.ErrCompanyNotFound) ∧
      UpdateCompanyHandler decode rules
          (fun id u => (MongoStore.UpdateCompany now coll id u).2) r body =
        { StatusCode := 400, Payload := .text "company not found",
          AppCalls := [.UpdateCompany (ParsePathParamId r) cu] }) ∧
    (∀ c : model.Company, MongoStore.GetCompany coll (ParsePathParamId r) = (some c, none) →
      cu.Website ≠ "" → cu.Phone ≠ "" →
      (MongoStore.UpdateCompany now coll (ParsePathParamId r) cu).2 = none ∧
      MongoStore.GetCompany (MongoStore.UpdateCompany now coll (ParsePathParamId r) cu).1
          (ParsePathParamId r) =
        (some { ID := c.ID, Name := c.Name, Code := c.Code, Country := c.Country,
                Website := cu.Website, Phone := cu.Phone, CreatedTs := c.CreatedTs,
                UpdatedTs := if now = 0 then c.UpdatedTs else now }, none) ∧
      (MongoStore.UpdateCompany now coll (ParsePathParamId r) cu).1.length = coll.length ∧
      UpdateCompanyHandler decode rules
          (fun id u => (MongoStore.UpdateCompany now coll id u).2) r body =
        { StatusCode := 202, Payload := .empty,
          AppCalls := [.UpdateCompany (ParsePathParamId r) cu] }) := by
  constructor
  · intro hno
    have hu : MongoStore.UpdateCompany now coll (ParsePathParamId r) cu =
        (coll, some store.Error.ErrCompanyNotFound) := by
      unfold MongoStore.UpdateCompany
      simp only [UpdateOne_no_match coll _ _ hno]
      rfl
    refine ⟨hu, ?_⟩
    exact (UpdateCompanyHandler_store decode rules _ r body cu hne hbody).1 (by rw [hu])
  · intro c hget hw _
    obtain ⟨d, hf, hd⟩ := GetCompany_some hget
    obtain ⟨hkeep, hdec⟩ := applySet_patch d cu now c hw hd
    obtain ⟨h1, h2, h3⟩ := UpdateOne_match coll (ParsePathParamId r)
      (model.CompanyUpdate.bson { cu with UpdatedTs := now }) d hf hkeep
    have hu : MongoStore.UpdateCompany now coll (ParsePathParamId r) cu =
        ((UpdateOne coll (ParsePathParamId r)
          (model.CompanyUpdate.bson { cu with UpdatedTs := now })).1, none) := by
      unfold MongoStore.UpdateCompany
      simp only [h1]
      rfl
    refine ⟨by rw [hu], ?_, by rw [hu]; exact h2, ?_⟩
    · rw [hu]
      exact GetCompany_of_find h3 hdec
    · exact (UpdateCompanyHandler_store decode rules _ r body cu hne hbody).2 (by rw [hu])

/-- C23 on the stored company 1234566 and the patch of the repository's test,
sent by a caller the geo gate would refuse: the update is accepted with 202 and
the company then has the new website and phone; on the empty collection the
handler answers 400. -/
theorem UpdateCompany_then_GetCompany_witness :
    ParsePathParamId exampleCompanyRequest ≠ "" ∧
    parseCompanyUpdate exampleUpdateDecode exampleUpdateRules "airtelin" = .ok exampleUpdate ∧
    validateClientOriginCountry (exampleNetEnv 200 "IN") exampleCompanyRequest = (false, none) ∧
    MongoStore.GetCompany
        (MongoStore.UpdateCompany 2000 [exampleStoredAirtel] "1234566" exampleUpdate).1
        "1234566" =
      (some { ID := "1234566", Name := "Airtel", Code := "CY", Country := "Cyprus",
              Website := "airtelin.cy", Phone := "+35722111122", CreatedTs := 1000,
              UpdatedTs := 2000 }, none) ∧
    (UpdateCompanyHandler exampleUpdateDecode exampleUpdateRules
        (fun id u => (MongoStore.UpdateCompany 2000 [exampleStoredAirtel] id u).2)
        exampleCompanyRequest "airtelin").StatusCode = 202 ∧
    (UpdateCompanyHandler exampleUpdateDecode exampleUpdateRules
        (fun id u => (MongoStore.UpdateCompany 2000 ([] : List (Doc Int)) id u).2)
        exampleCompanyRequest "airtelin").StatusCode = 400 :=
  ⟨by decide, by decide, by decide,
   ((UpdateCompany_then_GetCompany 2000 [exampleStoredAirtel] exampleUpdate exampleUpdateDecode
      exampleUpdateRules exampleCompanyRequest "airtelin" (by decide) (by decide)).2
      { ID := "1234566", Name := "Airtel", Code := "CY", Country := "Cyprus",
        Website := "airtel.cy", Phone := "+35722111111", CreatedTs := 1000, UpdatedTs := 1000 }
      (by decide) (by decide) (by decide)).2.1,
   congrArg Response.StatusCode
     ((UpdateCompany_then_GetCompany 2000 [exampleStoredAirtel] exampleUpdate exampleUpdateDecode
        exampleUpdateRules exampleCompanyRequest "airtelin" (by decide) (by decide)).2
        { ID := "1234566", Name := "Airtel", Code := "CY", Country := "Cyprus",
          Website := "airtel.cy", Phone := "+35722111111", CreatedTs := 1000, UpdatedTs := 1000 }
        (by decide) (by decide) (by decide)).2.2.2,
   congrArg Response.StatusCode
     ((UpdateCompany_then_GetCompany 2000 ([] : List (Doc Int)) exampleUpdate exampleUpdateDecode
        exampleUpdateRules exampleCompanyRequest "airtelin" (by decide) (by decide)).1
        (by simp)).2⟩

/-- C24: a successful CreateCompany returns the id of the caller when that id is
not empty, and otherwise the hexadecimal text of the generated object id, which
has 24 characters and is the id of no document stored before; the collection
gains one document, the company with the returned id and both times set to the
time of the call, which GetCompany of the returned id returns; and
CreateCompanyHandler answers 200 with the payload company carrying the
returned id. -/
theorem CreateCompany_assigns_id {F : Type} [DecidableEq F] (oid : primitive.ObjectID)
    (now : Int) (coll : List (Doc F)) (comp : model.Company)
    (h : (MongoStore.CreateCompany oid now coll comp).2.2 = none) :
    (comp.ID ≠ "" → (MongoStore.CreateCompany oid now coll comp).2.1 = comp.ID) ∧
    (comp.ID = "" →
      (MongoStore.CreateCompany oid now coll comp).2.1 = oid.Hex ∧
      (MongoStore.CreateCompany oid now coll comp).2.1.length = 24) ∧
    (MongoStore.CreateCompany oid now coll comp).2.1 ≠ "" ∧
    (∀ d ∈ coll,
      Doc.get d "_id" ≠ some (Value.str (MongoStore.CreateCompany oid now coll comp).2.1)) ∧
    (MongoStore.CreateCompany oid now coll comp).1 =
      coll ++ [model.Company.bson
        { comp with ID := (MongoStore.CreateCompany oid now coll comp).2.1,
                    CreatedTs := now, UpdatedTs := now }] ∧
    MongoStore.GetCompany (MongoStore.CreateCompany oid now coll comp).1
        (MongoStore.CreateCompany oid now coll comp).2.1 =
      (some { comp with ID := (MongoStore.CreateCompany oid now coll comp).2.1,
                        CreatedTs := now, UpdatedTs := now }, none) ∧
    (∀ (env : NetEnv) (decode : String → Except String model.Company) (rules : ValidationRules)
        (r : Request) (body : String),
      validateClientOriginCountry env r = (true, none) →
      parseCompany decode rules body = .ok comp →
      CreateCompanyHandler env decode rules
          (fun c => (MongoStore.CreateCompany oid now coll c).2) r body =
        { StatusCode := 200,
          Payload := .company
            { comp with ID := (MongoStore.CreateCompany oid now coll comp).2.1 },
          AppCalls := [.CreateCompany comp] }) := by
  obtain ⟨-, hid, -, heq⟩ := CreateCompany_success oid now coll comp h
  have hst :
      ({ comp with ID := (stamped oid now comp).ID, CreatedTs := now, UpdatedTs := now } :
        model.Company) = stamped oid now comp := rfl
  rw [heq]
  simp only [hst]
  refine ⟨?_, ?_, stamped_ID_ne_empty oid now comp, hid, trivial, ?_, ?_⟩
  · intro hne
    unfold stamped
    simp only [hne, if_false]
  · intro he
    have : (stamped oid now comp).ID = oid.Hex := by
      unfold stamped
      simp only [he, if_true]
    rw [this]
    exact ⟨rfl, Hex_length oid⟩
  · exact GetCompany_of_find
      (FindOne_append_new coll _ _ hid (@stamped_keys F oid now comp).1)
      (decodeCompany_bson _)
  · intro env decode rules r body hg hp
    have happ : (fun c => (MongoStore.CreateCompany oid now coll c).2) comp =
        ((stamped oid now comp).ID, none) := by
      show (MongoStore.CreateCompany oid now coll comp).2 = _
      rw [heq]
    rw [CreateCompanyHandler_store env decode rules _ r body comp hg hp]
    simp only [happ]

/-- C24 on the empty collection: the id 1234566 of the caller is returned as it
is, and a company without id gets the text of the generated object id. -/
theorem CreateCompany_assigns_id_witness :
    (MongoStore.CreateCompany exampleObjectID 3000 ([] : List (Doc Int)) exampleCompany).2.2 =
      none ∧
    (MongoStore.CreateCompany exampleObjectID 3000 ([] : List (Doc Int)) exampleCompany).2.1 =
      "1234566" ∧
    (MongoStore.CreateCompany exampleObjectID 3000 ([] : List (Doc Int))
      { exampleCompany with ID := "" }).2.1 = "6542c12a07c80f215aab04ff" ∧
    MongoStore.GetCompany
        (MongoStore.CreateCompany exampleObjectID 3000 ([] : List (Doc Int)) exampleCompany).1
        "1234566" =
      (some { exampleCompany with CreatedTs := 3000, UpdatedTs := 3000 }, none) :=
  ⟨by decide,
   (CreateCompany_assigns_id exampleObjectID 3000 ([] : List (Doc Int)) exampleCompany
      (by decide)).1 (by decide),
   ((CreateCompany_assigns_id exampleObjectID 3000 ([] : List (Doc Int))
      { exampleCompany with ID := "" } (by decide)).2.1 rfl).1.trans (by decide),
   by decide⟩

theorem ParseUint_decimal {s : String} (w : Nat) (hd : isUnsignedDecimal s = true)
    (h : digitsValue s.toList < 2 ^ w) : ParseUint s w = some (digitsValue s.toList) := by
  unfold ParseUint
  unfold isUnsignedDecimal at hd
  generalize s.toList = l at hd h ⊢
  cases l with
  | nil => simp at hd
  | cons a l =>
    have hall : (a :: l).all isDigit = true := by
      simpa only [List.isEmpty_cons, Bool.not_false, Bool.true_and] using hd
    rw [if_neg (List.cons_ne_nil a l), if_pos hall, if_pos h]

theorem Get_of_absent (q : Values) (name : String) (h : name ∉ Values.keys q) :
    Values.Get q name = "" := by
  have hl : Values.lookup q name = [] := by
    induction q with
    | nil => rfl
    | cons p rest ih =>
      obtain ⟨k, vs⟩ := p
      simp only [Values.keys, List.map_cons, List.mem_cons, not_or] at h
      have hk : ¬ k = name := fun e => h.1 e.symm
      simp only [Values.lookup, hk, if_false]
      exact ih h.2
  unfold Values.Get
  rw [hl]

/-- C25: a parameter that is absent from the request reads as the empty text;
when page is absent or empty ParsePagination returns page 1 next to the
per_page it parses, when per_page is absent or empty it returns per_page 20
next to the page it parses, and with neither parameter it returns (1, 20) and
the handler queries the store with Skip = 0 and Limit = 20; a page whose
decimal value is 0 is rejected with the out-of-bounds error and the handler
answers 400 without a store call. -/
theorem ParsePagination_defaults {F : Type} (parseFloat : String → Option F)
    (app : store.ListQuery F → List model.Company × Int × GoError) (r : Request) :
    (∀ name, name ∉ Values.keys r.Query → Values.Get r.Query name = "") ∧
    (Values.Get r.Query "page" = "" →
      ∀ perPage,
        ParseQueryParmUInt r PerPageName false PerPageMin PerPageMax PerPageDefault =
          .ok perPage →
        ParsePagination r = .ok (1, perPage)) ∧
    (Values.Get r.Query "per_page" = "" →
      ∀ page, ParseQueryParmUInt r PageName false PageMin MaxUint64 PageDefault = .ok page →
        ParsePagination r = .ok (page, 20)) ∧
    (Values.Get r.Query "page" = "" → Values.Get r.Query "per_page" = "" →
      ParsePagination r = .ok (1, 20) ∧
      ∀ filters, parseFilterParams parseFloat r = .ok filters →
        (ListCompaniesHandler parseFloat app r).StoreCalls =
          [{ Skip := 0, Limit := 20, Filters := filters, Sort_ := none }]) ∧
    (isUnsignedDecimal (Values.Get r.Query "page") = true →
      digitsValue (Values.Get r.Query "page").toList = 0 →
      ParsePagination r = .error "Param page is out of bounds" ∧
      ListCompaniesHandler parseFloat app r =
        { StatusCode := 400, Link := [], Body := .text "Param page is out of bounds",
          StoreCalls := [] }) := by
  have hpage : Values.Get r.Query "page" = "" →
      ParseQueryParmUInt r PageName false PageMin MaxUint64 PageDefault = .ok PageDefault :=
    fun h0 => ParseQueryParmUInt_default PageMin MaxUint64 PageDefault h0
  have hper : Values.Get r.Query "per_page" = "" →
      ParseQueryParmUInt r PerPageName false PerPageMin PerPageMax PerPageDefault =
        .ok PerPageDefault :=
    fun h0 => ParseQueryParmUInt_default PerPageMin PerPageMax PerPageDefault h0
  refine ⟨fun name h => Get_of_absent r.Query name h, ?_, ?_, ?_, ?_⟩
  · intro h0 perPage hpp
    unfold ParsePagination
    rw [hpage h0, hpp]
    rfl
  · intro h0 page hp
    unfold ParsePagination
    rw [hp, hper h0]
    rfl
  · intro h1 h2
    have hpp : ParsePagination r = .ok (1, 20) := by
      unfold ParsePagination
      rw [hpage h1, hper h2]
      rfl
    refine ⟨hpp, ?_⟩
    intro filters hf
    rw [handler_store_calls parseFloat app r 1 20 filters hpp hf]
    rfl
  · intro hd hz
    have h0 : Values.Get r.Query "page" ≠ "" := by
      intro h0
      rw [h0] at hd
      exact absurd hd (by decide)
    have hpu : ParseUint (Values.Get r.Query "page") 32 = some 0 := by
      rw [ParseUint_decimal 32 hd (by rw [hz]; norm_num), hz]
    have herr : ParseQueryParmUInt r PageName false PageMin MaxUint64 PageDefault =
        .error "Param page is out of bounds" := by
      unfold ParseQueryParmUInt
      have h0b : Values.Get r.Query PageName ≠ "" := h0
      have hpub : ParseUint (Values.Get r.Query PageName) 32 = some 0 := hpu
      simp only [h0b, if_false, hpub]
      rfl
    have hpp := ParsePagination_error_of_page herr
    exact ⟨hpp, handler_pagination_error parseFloat app r _ hpp⟩

/-- C25 on a request with neither parameter and on the request page=0. -/
theorem ParsePagination_defaults_witness :
    ParsePagination exampleBadOperatorRequest = .ok (1, 20) ∧
    ParsePagination
      { Path := "/api/v1/companies", Query := [("page", ["0"])], RemoteAddr := "" } =
      .error "Param page is out of bounds" :=
  ⟨((ParsePagination_defaults exampleParseFloat exampleApp exampleBadOperatorRequest).2.2.2.1
      (by decide) (by decide)).1,
   ((ParsePagination_defaults exampleParseFloat exampleApp
      { Path := "/api/v1/companies", Query := [("page", ["0"])], RemoteAddr := "" }).2.2.2.2
      (by decide) (by decide)).1⟩

/-- C26, the claim as stated fails on the requests that ask for an order: the
request sort=name:asc is rejected with 400 and no query reaches the store, and
for the request sort=name the query passed to the store has no Sort and a
filter on an attribute called sort. -/
theorem ListCompaniesHandler_sort_counterexample :
    ListCompaniesHandler exampleParseFloat (MongoStore.ListCompanies exampleCollection)
        exampleSortRequest =
      { StatusCode := 400, Link := [], Body := .text "invalid filter operator",
        StoreCalls := [] } ∧
    (ListCompaniesHandler exampleParseFloat (MongoStore.ListCompanies exampleCollection)
        exampleSortNameRequest).StoreCalls =
      [{ Skip := 0, Limit := 20,
         Filters := [{ AttrName := "sort", Value := "name", ValueFloat := none,
                       Operator := store.Eq }],
         Sort_ := none }] ∧
    (ListCompaniesHandler exampleParseFloat (MongoStore.ListCompanies exampleCollection)
        exampleSortNameRequest).Body = .companies [] :=
  ⟨by decide, by decide, by decide⟩

/-- C26 as amended: for every list request, every ListQuery that
ListCompaniesHandler passes to the store has no Sort, so the store applies no
ordering stage; an attribute named sort is an attribute like any other, for
which a successful parse yields a filter. -/
theorem ListCompaniesHandler_never_sorts {F : Type} (parseFloat : String → Option F)
    (app : store.ListQuery F → List model.Company × Int × GoError) (r : Request) :
    (∀ q ∈ (ListCompaniesHandler parseFloat app r).StoreCalls,
      q.Sort_ = none ∧ sortQuery q = Stage.skip 0) ∧
    (∀ filters, parseFilterParams parseFloat r = .ok filters →
      "sort" ∈ Values.keys r.Query → ∃ f ∈ filters, f.AttrName = "sort") := by
  constructor
  · intro q hq
    have hs : q.Sort_ = none := by
      cases hp : ParsePagination r with
      | error e =>
        rw [handler_pagination_error parseFloat app r e hp] at hq
        simp at hq
      | ok pp =>
        obtain ⟨page, perPage⟩ := pp
        cases hf : parseFilterParams parseFloat r with
        | error e =>
          rw [handler_filter_error parseFloat app r _ e hp hf] at hq
          simp at hq
        | ok filters =>
          rw [handler_store_calls parseFloat app r page perPage filters hp hf] at hq
          simp only [List.mem_singleton] at hq
          rw [hq]
    refine ⟨hs, ?_⟩
    unfold sortQuery
    rw [hs]
  · intro filters hf hmem
    have hm : "sort" ∈ (Values.keys r.Query).filter (fun n => !ContainsString n knownParams) := by
      rw [List.mem_filter]
      exact ⟨hmem, by decide⟩
    obtain ⟨f, hfm, valueStr, -, hpf⟩ := forall₂_left _ _ (parseFilterParams_ok hf) "sort" hm
    exact ⟨f, hfm, (parseFilterValue_ok hpf).1⟩

/-- C26 as amended, on the request sort=name: the query of the store call has no
Sort. -/
theorem ListCompaniesHandler_never_sorts_witness :
    (ListCompaniesHandler exampleParseFloat (MongoStore.ListCompanies exampleCollection)
      exampleSortNameRequest).StoreCalls ≠ [] ∧
    (∀ q ∈ (ListCompaniesHandler exampleParseFloat (MongoStore.ListCompanies exampleCollection)
      exampleSortNameRequest).StoreCalls, q.Sort_ = none) :=
  ⟨by decide,
   fun q hq => ((ListCompaniesHandler_never_sorts exampleParseFloat
      (MongoStore.ListCompanies exampleCollection) exampleSortNameRequest).1 q hq).1⟩

theorem isNextLink_tmpl (res q : String) :
    isNextLink (sprintfLinkTmpl res q "next") = true ∧
    isNextLink (sprintfLinkTmpl res q "prev") = false ∧
    isNextLink (sprintfLinkTmpl res q "first") = false := by
  unfold isNextLink sprintfLinkTmpl List.isSuffixOf
  simp [String.toList, String.data_append, List.reverse_append, List.isPrefixOf]

/-- The document branch of a query without Sort: the documents after the first
Skip, cut to Limit. -/
theorem runStages_unsorted {F : Type} [Ord F] (skip limit : Nat) (hl : 0 < limit)
    (filters : List (store.Filter F)) (docs : List (Doc F)) :
    runStages (queryPipeline (store.ListQuery.mk (skip : Int) (limit : Int) filters none)).results
      docs = .ok ((docs.drop skip).take limit) := by
  have h1 : ¬ ((skip : Int) < 0) := not_lt.mpr (Int.natCast_nonneg skip)
  have h2 : (limit : Int) > 0 := by exact_mod_cast hl
  have h3 : ¬ ((limit : Int) ≤ 0) := not_le.mpr h2
  simp [queryPipeline, sortQuery, limitQuery, runStages, runStage, h1, h2, h3]

/-- The result of ListCompanies for a query without Sort. -/
theorem ListCompanies_unsorted {F : Type} [DecidableEq F] [Ord F] (coll : List (Doc F))
    (skip limit : Nat) (hl : 0 < limit) (filters : List (store.Filter F)) :
    MongoStore.ListCompanies coll (store.ListQuery.mk (skip : Int) (limit : Int) filters none) =
      match decodeCompanies
        (((coll.filter (fun d => (findQuery (queryFilters filters)).holds d)).drop skip).take
          limit) with
      | none => ([], 0, some "error decoding key results")
      | some cs =>
        (cs, ((coll.filter (fun d => (findQuery (queryFilters filters)).holds d)).length : Int),
          none) := by
  rw [ListCompanies_unfold, matchStage_eq_filter, runStages_unsorted skip limit hl]

/-- C27: for every accepted list request served by ListCompanies on a collection
without a store error, the handler answers 200 with the companies of the page
that skip = (page-1)*per_page and limit = per_page select from the matching
documents, and its Link headers hold a next link if and only if
skip + limit is below the number of matching documents, that is if and only if
a matching document lies after the page; when the page starts at or past the
end of the matches the body is the empty list and there is no next link. -/
theorem ListCompaniesHandler_next_link {F : Type} [DecidableEq F] [Ord F]
    (parseFloat : String → Option F) (coll : List (Doc F)) (r : Request)
    (page perPage : Nat) (filters : List (store.Filter F))
    (hp : ParsePagination r = .ok (page, perPage))
    (hf : parseFilterParams parseFloat r = .ok filters)
    (hstore : (MongoStore.ListCompanies coll
      (store.ListQuery.mk (((page - 1) * perPage : Nat) : Int) (perPage : Int) filters none)).2.2 =
        none) :
    (ListCompaniesHandler parseFloat (MongoStore.ListCompanies coll) r).StatusCode = 200 ∧
    (ListCompaniesHandler parseFloat (MongoStore.ListCompanies coll) r).StoreCalls =
      [store.ListQuery.mk (((page - 1) * perPage : Nat) : Int) (perPage : Int) filters none] ∧
    (∃ cs, (ListCompaniesHandler parseFloat (MongoStore.ListCompanies coll) r).Body =
        .companies cs ∧
      decodeCompanies
        (((coll.filter (fun d => (findQuery (queryFilters filters)).holds d)).drop
          ((page - 1) * perPage)).take perPage) = some cs) ∧
    ((∃ l ∈ (ListCompaniesHandler parseFloat (MongoStore.ListCompanies coll) r).Link,
        isNextLink l = true) ↔
      (page - 1) * perPage + perPage <
        (coll.filter (fun d => (findQuery (queryFilters filters)).holds d)).length) ∧
    ((page - 1) * perPage + perPage <
        (coll.filter (fun d => (findQuery (queryFilters filters)).holds d)).length ↔
      (coll.filter (fun d => (findQuery (queryFilters filters)).holds d)).drop
        ((page - 1) * perPage + perPage) ≠ []) ∧
    ((coll.filter (fun d => (findQuery (queryFilters filters)).holds d)).length ≤
        (page - 1) * perPage →
      (ListCompaniesHandler parseFloat (MongoStore.ListCompanies coll) r).Body = .companies [] ∧
      ∀ l ∈ (ListCompaniesHandler parseFloat (MongoStore.ListCompanies coll) r).Link,
        isNextLink l = false) := by
  obtain ⟨hp1, hp2, hq1, hq2⟩ := ParsePagination_bounds hp
  have hs := subU64_one hp1 hp2
  have hm := mulU64_small (lt_of_le_of_lt (Nat.sub_le page 1) hp2) hq2
  have hskip : toInt (mulU64 (subU64 page 1) perPage) = (((page - 1) * perPage : Nat) : Int) := by
    rw [hs, hm.1, toInt_small hm.2]
  have hlim : toInt perPage = (perPage : Int) :=
    toInt_small (lt_of_le_of_lt hq2 (by norm_num))
  have hm2 := mulU64_small hp2 hq2
  have hprod : page * perPage = (page - 1) * perPage + perPage := by
    have : page = (page - 1) + 1 := by omega
    conv_lhs => rw [this]
    ring
  generalize hmd : coll.filter (fun d => (findQuery (queryFilters filters)).holds d) = matched
    at hstore ⊢
  have hlist := ListCompanies_unsorted coll ((page - 1) * perPage) perPage hq1 filters
  rw [hmd] at hlist
  cases hdc : decodeCompanies ((matched.drop ((page - 1) * perPage)).take perPage) with
  | none =>
    rw [hlist, hdc] at hstore
    simp at hstore
  | some cs =>
    rw [hdc] at hlist
    have happ : MongoStore.ListCompanies coll
        (store.ListQuery.mk (toInt (mulU64 (subU64 page 1) perPage)) (toInt perPage)
          filters none) = (cs, (matched.length : Int), none) := by
      rw [hskip, hlim]
      exact hlist
    have hnext : decide ((matched.length : Int) > toInt (mulU64 page perPage)) = true ↔
        (page - 1) * perPage + perPage < matched.length := by
      rw [hm2.1, toInt_small hm2.2, hprod]
      simp only [decide_eq_true_eq, gt_iff_lt]
      exact Nat.cast_lt
    have hlinks := MakePageLinkHdrs_eq r page perPage
      (decide ((matched.length : Int) > toInt (mulU64 page perPage))) hp2
      (lt_of_le_of_lt hq2 (by norm_num))
    have hnl := isNextLink_tmpl (linkResource r)
    rw [handler_links parseFloat (MongoStore.ListCompanies coll) r page perPage filters cs
      (matched.length : Int) hp hf happ, hskip, hlim]
    dsimp only
    rw [hlinks]
    have hmem : (∃ l ∈ ((if page > 1 then
          [sprintfLinkTmpl (linkResource r)
            (Values.Encode (linkQuery r.Query (page - 1) perPage)) LinkPrev]
         else []) ++
        (if decide ((matched.length : Int) > toInt (mulU64 page perPage)) = true then
          [sprintfLinkTmpl (linkResource r)
            (Values.Encode (linkQuery r.Query (page + 1) perPage)) LinkNext]
         else []) ++
        [sprintfLinkTmpl (linkResource r)
          (Values.Encode (linkQuery r.Query 1 perPage)) LinkFirst]), isNextLink l = true) ↔
        (page - 1) * perPage + perPage < matched.length := by
      rw [← hnext]
      constructor
      · rintro ⟨l, hl, hnx⟩
        simp only [List.mem_append, List.mem_singleton] at hl
        rcases hl with (hl | hl) | hl
        · split_ifs at hl with h1
          · simp only [List.mem_singleton] at hl
            rw [hl] at hnx
            exact absurd (hnx.symm.trans (hnl _).2.1) (by decide)
          · simp at hl
        · split_ifs at hl with h1
          · exact h1
          · simp at hl
        · rw [hl] at hnx
          exact absurd (hnx.symm.trans (hnl _).2.2) (by decide)
      · intro h1
        refine ⟨sprintfLinkTmpl (linkResource r)
          (Values.Encode (linkQuery r.Query (page + 1) perPage)) LinkNext, ?_, (hnl _).1⟩
        simp only [List.mem_append, List.mem_singleton, h1, if_true, true_or, or_true]
    refine ⟨rfl, rfl, ⟨cs, rfl, rfl⟩, hmem, ?_, ?_⟩
    · rw [Ne, List.drop_eq_nil_iff]
      omega
    · intro hle
      have hnil : (matched.drop ((page - 1) * perPage)).take perPage = [] := by
        rw [List.drop_eq_nil_iff.mpr hle, List.take_nil]
      rw [hnil] at hdc
      simp only [decodeCompanies, Option.some.injEq] at hdc
      refine ⟨by rw [← hdc], ?_⟩
      intro l hl
      cases hb : isNextLink l with
      | false => rfl
      | true =>
        have := hmem.mp ⟨l, hl, hb⟩
        omega

/-- C27 on the example collection: the second page of one company has a next
link, the fourth page is empty and has none. -/
theorem ListCompaniesHandler_next_link_witness :
    (∃ l ∈ (ListCompaniesHandler exampleParseFloat (MongoStore.ListCompanies exampleCollection)
        exampleRequest).Link, isNextLink l = true) ∧
    (ListCompaniesHandler exampleParseFloat (MongoStore.ListCompanies exampleCollection)
        examplePastEndRequest).Body = .companies [] ∧
    (ListCompaniesHandler exampleParseFloat (MongoStore.ListCompanies exampleCollection)
        examplePastEndRequest).Link =
      ["<companies?page=3&per_page=1>; rel=\"prev\"",
       "<companies?page=1&per_page=1>; rel=\"first\""] :=
  ⟨(ListCompaniesHandler_next_link exampleParseFloat exampleCollection exampleRequest 2 1 []
      (by decide) (by decide) (by decide)).2.2.2.1.mpr (by decide),
   ((ListCompaniesHandler_next_link exampleParseFloat exampleCollection examplePastEndRequest
      4 1 [] (by decide) (by decide) (by decide)).2.2.2.2.2 (by decide)).1,
   by decide⟩

end Xm
